import Mathlib

/-!
Kafka topic cache and topic availability waiter.

A shallow embedding of `internal/sdkprovider/service/kafka/kafka_topic_cache.go` and of
`kafka_topic_wait.go` (constructor, poll step, refresh cycle, poll configuration) in the
namespace `kafka`, and of three helpers of `internal/schemautil/helpers.go` in the namespace
`schemautil`, followed by the properties proved about them.

Conventions of the embedding:

* a Go `map[string]V` is an association list `GoMap V` that holds every key at most once;
  indexing a missing key gives `none` (Go: the zero value and `ok = false`);
* a Go `[]string` stored in a map is the list of its first `len` elements; the backing array
  is made explicit only inside the loops that delete from the slice they range over;
* a method with a pointer receiver takes the cache and returns the new cache; a method that
  can panic at run time returns `Option`, `none` being the panic;
* the locks (`sync.RWMutex`) are not modelled: every method is one critical section;
* a poll step runs in a `World`: the cache, the permit of the refresh guard, the state of the
  backend and the log of the calls made to it. In `RefreshFunc` one poll step runs at a
  time, and a guard held by another goroutine is the flag `semHeld` of the state it starts
  in; in `RefreshFuncAmong` the other goroutines change the state between the critical
  sections of the step;
* the loop of `refresh` need not terminate: it is given a number of iterations (`fuel`), and
  a run that uses them up is `Run.unfinished`;
* the slice `GetQueue` returns shares its backing array with the pending queue; the loop of
  `refresh` that marks names missing while it ranges over that slice reads the shared cells.
-/

namespace kafka

/-! ## Data model -/

/-- The record `aiven.KafkaTopic` of the client library: the two fields this package reads
(`State`, `TopicName`) and the scalar fields next to them. The pointer and slice fields of the
library type (`Config`, `Partitions`, `RetentionHours`, `Tags`) are left out; the package
copies the record as a whole and never looks at them. -/
structure KafkaTopic where
  CleanupPolicy : String
  MinimumInSyncReplicas : Int
  Replication : Int
  RetentionBytes : Int
  State : String
  TopicName : String
deriving DecidableEq

/-- The zero value of `aiven.KafkaTopic` (Go: `aiven.KafkaTopic{}`). -/
def KafkaTopic.zero : KafkaTopic :=
  { CleanupPolicy := "", MinimumInSyncReplicas := 0, Replication := 0, RetentionBytes := 0,
    State := "", TopicName := "" }

/-- The record `aiven.KafkaListTopic` returned by the V1 list endpoint; only `TopicName` is
read by this package. -/
structure KafkaListTopic where
  State : String
  TopicName : String
deriving DecidableEq

/-- A Go map with string keys. -/
abbrev GoMap (V : Type) := List (String × V)

/-- Go `v, ok := m[k]`: the value stored under `k`, `none` when `ok` is false. -/
def mapIndex {V : Type} : GoMap V → String → Option V
  | [], _ => none
  | (k', v) :: m, k => if k' = k then some v else mapIndex m k

/-- Go `m[k] = v`. -/
def mapAssign {V : Type} : GoMap V → String → V → GoMap V
  | [], k, v => [(k, v)]
  | (k', v') :: m, k, v => if k' = k then (k, v) :: m else (k', v') :: mapAssign m k v

/-- Go `delete(m, k)`. -/
def mapDelete {V : Type} : GoMap V → String → GoMap V
  | [], _ => []
  | (k', v) :: m, k => if k' = k then mapDelete m k else (k', v) :: mapDelete m k

/-- The keys a `for k := range m` visits. -/
def mapKeys {V : Type} (m : GoMap V) : List String :=
  m.map Prod.fst

/-- Go `m[k]` for a map of slices: the nil (empty) slice when the key is absent. -/
def sliceIndex (m : GoMap (List String)) (k : String) : List String :=
  (mapIndex m k).getD []

/-- The struct `kafkaTopicCache`: four maps keyed by `projectName+serviceName`. -/
structure kafkaTopicCache where
  internal : GoMap (GoMap KafkaTopic)
  inQueue : GoMap (List String)
  missing : GoMap (List String)
  v1list : GoMap (List String)
deriving DecidableEq

/-- The cache `initTopicCache` creates: four empty maps. -/
def initTopicCache : kafkaTopicCache :=
  { internal := [], inQueue := [], missing := [], v1list := [] }

/-! ## Read operations -/

/-- Method `LoadByProjectAndServiceName`: the inner map of the key and whether it is present
(Go returns the nil map, here `[]`, when it is not). -/
def LoadByProjectAndServiceName (t : kafkaTopicCache) (projectName serviceName : String) :
    GoMap KafkaTopic × Bool :=
  match mapIndex t.internal (projectName ++ serviceName) with
  | some result => (result, true)
  | none => ([], false)

/-- Method `LoadByTopicName`. -/
def LoadByTopicName (t : kafkaTopicCache) (projectName serviceName topicName : String) :
    KafkaTopic × Bool :=
  match mapIndex t.internal (projectName ++ serviceName) with
  | none => ({ KafkaTopic.zero with State := "CONFIGURING" }, false)
  | some topics =>
    match mapIndex topics topicName with
    | some result => (result, true)
    | none => ({ KafkaTopic.zero with State := "CONFIGURING" }, false)

/-- Method `GetMissing`. -/
def GetMissing (t : kafkaTopicCache) (projectName serviceName : String) : List String :=
  sliceIndex t.missing (projectName ++ serviceName)

/-- Method `GetQueue`: `q[:99]` when `len(q) >= 100`, otherwise `q`. -/
def GetQueue (t : kafkaTopicCache) (projectName serviceName : String) : List String :=
  if (sliceIndex t.inQueue (projectName ++ serviceName)).length ≥ 100 then
    (sliceIndex t.inQueue (projectName ++ serviceName)).take 99
  else
    sliceIndex t.inQueue (projectName ++ serviceName)

/-- Method `GetV1List`. -/
def GetV1List (t : kafkaTopicCache) (projectName serviceName : String) : List String :=
  sliceIndex t.v1list (projectName ++ serviceName)

/-! ## Deleting from the slice that is being ranged over -/

/-- Go `append(s[:i], s[i+1:]...)` on a slice of length `len` whose backing array holds the
cells `arr`: the cells `i+1 .. len-1` move one place down, every other cell keeps its
content (cell `len-1` keeps a stale copy of the last element). The new slice has length
`len - 1`. This is also what `slices.Delete(s, i, i+1)` of `golang.org/x/exp/slices` does. -/
def spliceOut (arr : List String) (len i : Nat) : List String :=
  arr.take i ++ (arr.drop (i + 1)).take (len - (i + 1)) ++ arr.drop (len - 1)

/-- The loop
`for i, name := range q { if name == x { q = append(q[:i], q[i+1:]...) } }`
where `q` is the map entry. The range expression is evaluated once, so the loop runs over the
indices of the original slice and reads `name` from the shared backing array `arr`; `len` is
the current length of the map entry. `todo` iterations remain, the next index is `i`.
`q[i+1:]` panics when `i + 1 > len`: the result is then `none`. -/
def rangeDelete (x : String) : (todo i : Nat) → (arr : List String) → (len : Nat) →
    Option (List String × Nat)
  | 0, _, arr, len => some (arr, len)
  | todo + 1, i, arr, len =>
    if arr[i]? = some x then
      if i + 1 ≤ len then rangeDelete x todo (i + 1) (spliceOut arr len i) (len - 1)
      else none
    else rangeDelete x todo (i + 1) arr len

/-- The deletion loop run on the entry `inQueue[key]`: nothing happens for an absent key (the
range is empty); otherwise the entry ends as the first `len` cells of the backing array. -/
def deleteFromQueue (inQueue : GoMap (List String)) (key x : String) :
    Option (GoMap (List String)) :=
  match mapIndex inQueue key with
  | none => some inQueue
  | some q =>
    match rangeDelete x q.length 0 q q.length with
    | none => none
    | some (arr, len) => some (mapAssign inQueue key (arr.take len))

/-! ## Write operations -/

/-- Method `DeleteByProjectAndServiceName`. -/
def DeleteByProjectAndServiceName (t : kafkaTopicCache) (projectName serviceName : String) :
    kafkaTopicCache :=
  { t with internal := mapDelete t.internal (projectName ++ serviceName) }

/-- One iteration of the loop of `StoreByProjectAndServiceName`: create the inner map when
absent, store the record under its name, delete the name from the queue. -/
def storeOne (key : String) (t : kafkaTopicCache) (topic : KafkaTopic) :
    Option kafkaTopicCache :=
  match deleteFromQueue t.inQueue key topic.TopicName with
  | none => none
  | some q =>
    some { t with
      internal := mapAssign t.internal key
        (mapAssign ((mapIndex t.internal key).getD []) topic.TopicName topic),
      inQueue := q }

/-- Method `StoreByProjectAndServiceName`. -/
def StoreByProjectAndServiceName (t : kafkaTopicCache) (projectName serviceName : String)
    (list : List KafkaTopic) : Option kafkaTopicCache :=
  if list.length = 0 then some t
  else list.foldlM (storeOne (projectName ++ serviceName)) t

/-- The search loop of `AddToQueue`: `isFound` after ranging over the queue. -/
def isFoundInQueue (q : List String) (topicName : String) : Bool :=
  q.foldl (fun isFound name => if name = topicName then true else isFound) false

/-- Go `_, inCache := t.internal[key][topicName]` (indexing a nil inner map gives `false`). -/
def inCache (t : kafkaTopicCache) (key topicName : String) : Bool :=
  match mapIndex t.internal key with
  | none => false
  | some topics => (mapIndex topics topicName).isSome

/-- Method `AddToQueue`. -/
def AddToQueue (t : kafkaTopicCache) (projectName serviceName topicName : String) :
    kafkaTopicCache :=
  if !isFoundInQueue (sliceIndex t.inQueue (projectName ++ serviceName)) topicName
      && !inCache t (projectName ++ serviceName) topicName then
    { t with
      inQueue := mapAssign t.inQueue (projectName ++ serviceName)
        (sliceIndex t.inQueue (projectName ++ serviceName) ++ [topicName]) }
  else t

/-- Method `DeleteFromQueueAndMarkMissing`. -/
def DeleteFromQueueAndMarkMissing (t : kafkaTopicCache)
    (projectName serviceName topicName : String) : Option kafkaTopicCache :=
  match deleteFromQueue t.inQueue (projectName ++ serviceName) topicName with
  | none => none
  | some q =>
    some { t with
      inQueue := q,
      missing := mapAssign t.missing (projectName ++ serviceName)
        (sliceIndex t.missing (projectName ++ serviceName) ++ [topicName]) }

/-- One iteration of the loop of `FlushTopicCache`: the four deletes for key `k`. -/
def flushKey (c : kafkaTopicCache) (k : String) : kafkaTopicCache :=
  { internal := mapDelete c.internal k, inQueue := mapDelete c.inQueue k,
    missing := mapDelete c.missing k, v1list := mapDelete c.v1list k }

/-- Function `FlushTopicCache`: the loop ranges over the keys of `c.internal`. -/
def FlushTopicCache (c : kafkaTopicCache) : kafkaTopicCache :=
  (mapKeys c.internal).foldl flushKey c

/-- Method `SetV1List`: appends every topic name of `list` to the entry of the key. -/
def SetV1List (t : kafkaTopicCache) (projectName serviceName : String)
    (list : List KafkaListTopic) : kafkaTopicCache :=
  list.foldl (fun c v =>
    { c with
      v1list := mapAssign c.v1list (projectName ++ serviceName)
        (sliceIndex c.v1list (projectName ++ serviceName) ++ [v.TopicName]) }) t

/-! ## The cache as a state machine -/

/-- A call of one of the cache methods with its arguments. -/
inductive Call where
  | LoadByProjectAndServiceName (projectName serviceName : String)
  | LoadByTopicName (projectName serviceName topicName : String)
  | DeleteByProjectAndServiceName (projectName serviceName : String)
  | StoreByProjectAndServiceName (projectName serviceName : String) (list : List KafkaTopic)
  | AddToQueue (projectName serviceName topicName : String)
  | DeleteFromQueueAndMarkMissing (projectName serviceName topicName : String)
  | GetMissing (projectName serviceName : String)
  | GetQueue (projectName serviceName : String)
  | FlushTopicCache
  | SetV1List (projectName serviceName : String) (list : List KafkaListTopic)
  | GetV1List (projectName serviceName : String)
deriving DecidableEq

/-- The cache after a call (`none`: the call panics). The five read methods only take the read
lock and assign to nothing. -/
def Call.run : Call → kafkaTopicCache → Option kafkaTopicCache
  | .LoadByProjectAndServiceName _ _, t => some t
  | .LoadByTopicName _ _ _, t => some t
  | .DeleteByProjectAndServiceName p s, t => some (kafka.DeleteByProjectAndServiceName t p s)
  | .StoreByProjectAndServiceName p s list, t => kafka.StoreByProjectAndServiceName t p s list
  | .AddToQueue p s n, t => some (kafka.AddToQueue t p s n)
  | .DeleteFromQueueAndMarkMissing p s n, t => kafka.DeleteFromQueueAndMarkMissing t p s n
  | .GetMissing _ _, t => some t
  | .GetQueue _ _, t => some t
  | .FlushTopicCache, t => some (kafka.FlushTopicCache t)
  | .SetV1List p s list, t => some (kafka.SetV1List t p s list)
  | .GetV1List _ _, t => some t

/-- The cache states that a sequence of calls produces from the freshly initialised cache. -/
inductive Reachable : kafkaTopicCache → Prop where
  | init : Reachable initTopicCache
  | step {t t' : kafkaTopicCache} (c : Call) : Reachable t → c.run t = some t' → Reachable t'

/-! ## Observations, invariants and example states used in the statements -/

/-- The record stored for topic `n` under `key`, if any: Go `t.internal[key][n]`. -/
def stored (t : kafkaTopicCache) (key n : String) : Option KafkaTopic :=
  (mapIndex t.internal key).bind (fun topics => mapIndex topics n)

/-- The queue `q` without the name `x`, the other names in their order. -/
def without (x : String) (q : List String) : List String :=
  q.filter (fun n => decide (n ≠ x))

/-- The queue `q` without the names of `names`, the other names in their order. -/
def withoutAll (names : List String) (q : List String) : List String :=
  q.filter (fun n => decide (n ∉ names))

/-- The invariant of the pending queues: no queue holds a name twice, and no queued name is
stored in the cache under the same key. -/
def QueueInv (t : kafkaTopicCache) : Prop :=
  ∀ key : String, (sliceIndex t.inQueue key).Nodup ∧
    ∀ n, n ∈ sliceIndex t.inQueue key → stored t key n = none

/-- A topic record with the given name and state, the other fields zero. -/
def topicRecord (name state : String) : KafkaTopic :=
  { KafkaTopic.zero with State := state, TopicName := name }

/-- The cache after `AddToQueue(p, s, a)`, `AddToQueue(p, s, b)` and a store of the batch
holding `a` in state ACTIVE: `a` is stored, `b` is queued. -/
def cacheStoredAndQueued : kafkaTopicCache :=
  { internal := [("ps", [("a", topicRecord "a" "ACTIVE")])],
    inQueue := [("ps", ["b"])], missing := [], v1list := [] }

/-- Whether the call keeps to the discipline of the waiter, which looks at the missing list
before it enqueues: `AddToQueue` is not called for a name in the missing list of its key. -/
def Call.respectsMissing : Call → kafkaTopicCache → Bool
  | .AddToQueue p s n, t => decide (n ∉ kafka.GetMissing t p s)
  | _, _ => true

/-- The cache states produced from the freshly initialised cache by calls that never enqueue
a name that is in the missing list of its key at the time of the call. -/
inductive ReachableGuarded : kafkaTopicCache → Prop where
  | init : ReachableGuarded initTopicCache
  | step {t t' : kafkaTopicCache} (c : Call) :
      ReachableGuarded t → c.respectsMissing t = true → c.run t = some t' →
      ReachableGuarded t'

/-- No name is both in the missing list and in the pending queue of a key. -/
def MissingInv (t : kafkaTopicCache) : Prop :=
  ∀ key n : String, n ∈ sliceIndex t.missing key → n ∉ sliceIndex t.inQueue key

/-- The cache after `DeleteFromQueueAndMarkMissing(p, s, t)` followed by `AddToQueue(p, s, t)`
on the freshly initialised cache. -/
def cacheMissingAndQueued : kafkaTopicCache :=
  { internal := [], inQueue := [("ps", ["t"])], missing := [("ps", ["t"])], v1list := [] }

/-- The cache after `AddToQueue(p, s, a)`, `AddToQueue(p, s, b)`,
`DeleteFromQueueAndMarkMissing(p, s, a)` and `AddToQueue(p, s, c)` on the freshly initialised
cache: `a` was marked missing, and `c` was enqueued while the missing list held `a`. -/
def cacheMarkedAndQueued : kafkaTopicCache :=
  { internal := [], inQueue := [("ps", ["b", "c"])], missing := [("ps", ["a"])], v1list := [] }

/-- The cache after `SetV1List(p, s, [a])`, `AddToQueue(p, s, t)` and
`DeleteFromQueueAndMarkMissing(p, s, gone)` on the freshly initialised cache: the key has a
V1 listing, a queued name and a missing name, and no stored topic. -/
def cacheWithoutStoredTopic : kafkaTopicCache :=
  { internal := [], inQueue := [("ps", ["t"])], missing := [("ps", ["gone"])],
    v1list := [("ps", ["a"])] }

/-- The calls the frame property is about: the five writing methods applied to the pair
`(p, s)`. -/
inductive WriteAt (p s : String) : Call → Prop where
  | store (list : List KafkaTopic) : WriteAt p s (Call.StoreByProjectAndServiceName p s list)
  | enqueue (n : String) : WriteAt p s (Call.AddToQueue p s n)
  | markMissing (n : String) : WriteAt p s (Call.DeleteFromQueueAndMarkMissing p s n)
  | setV1List (list : List KafkaListTopic) : WriteAt p s (Call.SetV1List p s list)
  | delete : WriteAt p s (Call.DeleteByProjectAndServiceName p s)

/-- The four map entries of key `k` are the same in `t` and `t'`. -/
def sameAt (k : String) (t t' : kafkaTopicCache) : Prop :=
  mapIndex t'.internal k = mapIndex t.internal k ∧
  sliceIndex t'.inQueue k = sliceIndex t.inQueue k ∧
  sliceIndex t'.missing k = sliceIndex t.missing k ∧
  sliceIndex t'.v1list k = sliceIndex t.v1list k

/-! ## The constructor of the waiter -/

/-- Go `int` arithmetic on a 64-bit platform: the integer `n` wrapped into the two's
complement range `-2^63 .. 2^63 - 1`. -/
def wrapInt (n : Int) : Int :=
  (n + 9223372036854775808) % 18446744073709551616 - 9223372036854775808

/-- Go `len(s)` for a string: the number of bytes of `s`. -/
def len (s : String) : Int :=
  (s.utf8ByteSize : Int)

/-- The error `newKafkaTopicAvailabilityWaiter` returns; the Go code formats the three
arguments into its message. -/
inductive waiterError where
  | invalidInput (project serviceName topicName : String)
deriving DecidableEq

/-- The struct `kafkaTopicAvailabilityWaiter`; `C` is the type of the API client. -/
structure kafkaTopicAvailabilityWaiter (C : Type) where
  Client : C
  Project : String
  ServiceName : String
  TopicName : String

/-- Function `newKafkaTopicAvailabilityWaiter`: the test is
`len(project)*len(serviceName)*len(topicName) == 0`, two `int` multiplications. -/
def newKafkaTopicAvailabilityWaiter {C : Type} (client : C)
    (project serviceName topicName : String) :
    Except waiterError (kafkaTopicAvailabilityWaiter C) :=
  if wrapInt (wrapInt (len project * len serviceName) * len topicName) = 0 then
    Except.error (waiterError.invalidInput project serviceName topicName)
  else
    Except.ok
      { Client := client, Project := project, ServiceName := serviceName,
        TopicName := topicName }

/-- The string of `n` letters `a` (`n` bytes). -/
def lettersA (n : Nat) : String :=
  String.mk (List.replicate n 'a')

/-- The 150 distinct topic names `""`, `a`, `aa`, ... of 0 to 149 letters. -/
def names150 : List String :=
  (List.range 150).map lettersA

/-! ## The poll step of the waiter -/

/-- An error returned by a call of the API client: the value `aiven.Error` of the client
library (its `Status` and `Message`; `MoreInfo` is left out) or an error of any other type,
which does not wrap an `aiven.Error`. -/
inductive ClientError where
  | api (status : Int) (message : String)
  | other (text : String)
deriving DecidableEq

/-- The errors a poll step returns: an error of the client as it is, or the error
`fmt.Errorf("error calling v1 list for %s/%s: %w", project, serviceName, err)` that wraps
one. -/
inductive GoError where
  | client (e : ClientError)
  | v1ListFailed (project serviceName : String) (e : ClientError)
deriving DecidableEq

/-- The function `aiven.IsNotFound` of the client library: the error is an `aiven.Error`
with status 404. -/
def IsNotFound : ClientError → Bool
  | ClientError.api status _ => decide (status = 404)
  | ClientError.other _ => false

/-- The two calls `w.Client.KafkaTopics.List` and `w.Client.KafkaTopics.V2List` of the API
client. The backend is a state machine with states `σ`: a call returns its answer and the
next state of the backend. -/
structure aivenClient (σ : Type) where
  KafkaTopicsList : σ → String → String → Except ClientError (List KafkaListTopic) × σ
  KafkaTopicsV2List :
    σ → String → String → List String → Except ClientError (List KafkaTopic) × σ

/-- A call made to the backend, with its arguments. -/
inductive ApiCall where
  | KafkaTopicsList (project serviceName : String)
  | KafkaTopicsV2List (project serviceName : String) (topicNames : List String)
deriving DecidableEq

/-- The state a poll step runs in: the global cache `topicCache`, whether the permit of the
global semaphore `kafkaTopicAvailabilitySem` is taken, the state of the backend, and the
calls made to the backend so far, oldest first. -/
structure World (σ : Type) where
  cache : kafkaTopicCache
  semHeld : Bool
  backend : σ
  calls : List ApiCall
deriving DecidableEq

/-- How a run of a function ends: it returns a value in a final state, it panics, or the
loop of `refresh` is still running when the iterations allowed to it are used up (the state
reached so far is kept). -/
inductive Run (σ α : Type) where
  | returned (value : α) (w : World σ)
  | panicked
  | unfinished (w : World σ)
deriving DecidableEq

/-- The state a run ends or stops in, if it does not panic. -/
def Run.world {σ α : Type} : Run σ α → Option (World σ)
  | Run.returned _ w => some w
  | Run.panicked => none
  | Run.unfinished w => some w

/-- The three values a poll step returns: Go `(interface{}, string, error)`, with `none` for
`nil`. -/
structure PollResult where
  result : Option KafkaTopic
  state : String
  err : Option GoError
deriving DecidableEq

/-- The deletion loop of `DeleteFromQueueAndMarkMissing` as seen by a caller that holds a slice of
the same backing array: `arr` are the cells of the backing array of `inQueue[key]`, of which
the map entry is the first `len(inQueue[key])`. The loop reads and moves the cells of `arr`;
the changed cells are returned with the map. -/
def deleteFromQueueShared (inQueue : GoMap (List String)) (key x : String)
    (arr : List String) : Option (GoMap (List String) × List String) :=
  match mapIndex inQueue key with
  | none => some (inQueue, arr)
  | some q =>
    match rangeDelete x q.length 0 arr q.length with
    | none => none
    | some (arr', len) => some (mapAssign inQueue key (arr'.take len), arr')

/-- Method `DeleteFromQueueAndMarkMissing` run while the caller holds a slice of the backing
array `arr` of the queue. -/
def DeleteFromQueueAndMarkMissingShared (t : kafkaTopicCache)
    (projectName serviceName topicName : String) (arr : List String) :
    Option (kafkaTopicCache × List String) :=
  match deleteFromQueueShared t.inQueue (projectName ++ serviceName) topicName arr with
  | none => none
  | some (q, arr') =>
    some ({ t with
      inQueue := q,
      missing := mapAssign t.missing (projectName ++ serviceName)
        (sliceIndex t.missing (projectName ++ serviceName) ++ [topicName]) }, arr')

/-- The loop of `refresh` after a 404:
`for _, t := range queue { if !slices.Contains(c.GetV1List(p, s), t) {
c.DeleteFromQueueAndMarkMissing(p, s, t) } }`.
`queue` is the slice `GetQueue` returned, which shares its backing array `arr` with the map
entry `inQueue[key]`: the loop runs over the indices of `queue` and reads cell `i` of `arr`
as it is at that time. `todo` iterations remain, the next index is `i`. -/
def reconcileLoop (projectName serviceName : String) :
    (todo i : Nat) → kafkaTopicCache → List String → Option (kafkaTopicCache × List String)
  | 0, _, t, arr => some (t, arr)
  | todo + 1, i, t, arr =>
    match arr[i]? with
    | none => none
    | some name =>
      if name ∈ GetV1List t projectName serviceName then
        reconcileLoop projectName serviceName todo (i + 1) t arr
      else
        match DeleteFromQueueAndMarkMissingShared t projectName serviceName name arr with
        | none => none
        | some (t', arr') => reconcileLoop projectName serviceName todo (i + 1) t' arr'

/-- The reconciliation of `refresh` for the snapshot `queue` that `GetQueue` returned: the
loop runs `len(queue)` times over the backing array of `inQueue[key]`. -/
def reconcile (t : kafkaTopicCache) (projectName serviceName : String) (queue : List String) :
    Option kafkaTopicCache :=
  (reconcileLoop projectName serviceName queue.length 0 t
    (sliceIndex t.inQueue (projectName ++ serviceName))).map Prod.fst

/-- What one iteration of the `for` loop of `refresh` does: leave the loop and return, go
round again, or panic. -/
inductive LoopStep (σ : Type) where
  | exit (err : Option ClientError) (w : World σ)
  | again (w : World σ)
  | panic
deriving DecidableEq

/-- One iteration of the `for` loop of `refresh`. -/
def refreshIteration {σ : Type} (waiter : kafkaTopicAvailabilityWaiter (aivenClient σ))
    (w : World σ) : LoopStep σ :=
  if (GetQueue w.cache waiter.Project waiter.ServiceName).length = 0 then
    LoopStep.exit none w
  else
    match waiter.Client.KafkaTopicsV2List w.backend waiter.Project waiter.ServiceName
        (GetQueue w.cache waiter.Project waiter.ServiceName) with
    | (Except.error err, backend') =>
      if IsNotFound err then
        match reconcile w.cache waiter.Project waiter.ServiceName
            (GetQueue w.cache waiter.Project waiter.ServiceName) with
        | none => LoopStep.panic
        | some cache' =>
          LoopStep.exit none
            { w with
              cache := cache', backend := backend',
              calls := w.calls ++ [ApiCall.KafkaTopicsV2List waiter.Project waiter.ServiceName
                (GetQueue w.cache waiter.Project waiter.ServiceName)] }
      else
        LoopStep.exit (some err)
          { w with
            backend := backend',
            calls := w.calls ++ [ApiCall.KafkaTopicsV2List waiter.Project waiter.ServiceName
              (GetQueue w.cache waiter.Project waiter.ServiceName)] }
    | (Except.ok v2Topics, backend') =>
      match StoreByProjectAndServiceName w.cache waiter.Project waiter.ServiceName
          v2Topics with
      | none => LoopStep.panic
      | some cache' =>
        LoopStep.again
          { w with
            cache := cache', backend := backend',
            calls := w.calls ++ [ApiCall.KafkaTopicsV2List waiter.Project waiter.ServiceName
              (GetQueue w.cache waiter.Project waiter.ServiceName)] }

/-- The `for` loop of `refresh`, allowed `fuel` iterations. -/
def refreshLoop {σ : Type} (waiter : kafkaTopicAvailabilityWaiter (aivenClient σ)) :
    Nat → World σ → Run σ (Option ClientError)
  | 0, w => Run.unfinished w
  | fuel + 1, w =>
    match refreshIteration waiter w with
    | LoopStep.exit err w' => Run.returned err w'
    | LoopStep.again w' => refreshLoop waiter fuel w'
    | LoopStep.panic => Run.panicked

/-- The deferred `kafkaTopicAvailabilitySem.Release(1)`: it runs when `refresh` returns. -/
def releaseOnReturn {σ α : Type} : Run σ α → Run σ α
  | Run.returned value w => Run.returned value { w with semHeld := false }
  | Run.panicked => Run.panicked
  | Run.unfinished w => Run.unfinished w

/-- Method `refresh`; the loop is allowed `fuel` iterations. -/
def refresh {σ : Type} (waiter : kafkaTopicAvailabilityWaiter (aivenClient σ)) (fuel : Nat)
    (w : World σ) : Run σ (Option ClientError) :=
  if w.semHeld then Run.returned none w
  else
    releaseOnReturn
      (if (LoadByTopicName w.cache waiter.Project waiter.ServiceName waiter.TopicName).2 then
        Run.returned none { w with semHeld := true }
      else
        refreshLoop waiter fuel
          { w with
            semHeld := true,
            cache := AddToQueue w.cache waiter.Project waiter.ServiceName waiter.TopicName })

/-- The state at the head of the loop of `refresh` after `n` iterations that each stored a
batch, `none` when one of the first `n` iterations leaves the loop or panics. -/
def loopAfter {σ : Type} (waiter : kafkaTopicAvailabilityWaiter (aivenClient σ)) :
    Nat → World σ → Option (World σ)
  | 0, w => some w
  | n + 1, w =>
    match refreshIteration waiter w with
    | LoopStep.again w' => loopAfter waiter n w'
    | _ => none

/-- How the first step of a poll ends: with an early return, or with the state in which the
poll goes on. -/
inductive V1Step (σ : Type) where
  | failed (r : PollResult) (w : World σ)
  | ready (w : World σ)
deriving DecidableEq

/-- The first step of a poll (`RefreshFunc`, the block that caches the V1 listing): when the
cached V1 listing of the service is empty, call the V1 list endpoint and cache the names. -/
def v1ListStep {σ : Type} (waiter : kafkaTopicAvailabilityWaiter (aivenClient σ))
    (w : World σ) : V1Step σ :=
  if (GetV1List w.cache waiter.Project waiter.ServiceName).length = 0 then
    match waiter.Client.KafkaTopicsList w.backend waiter.Project waiter.ServiceName with
    | (Except.error err, backend') =>
      V1Step.failed
        { result := none, state := "CONFIGURING",
          err := some (GoError.v1ListFailed waiter.Project waiter.ServiceName err) }
        { w with
          backend := backend',
          calls := w.calls ++ [ApiCall.KafkaTopicsList waiter.Project waiter.ServiceName] }
    | (Except.ok list, backend') =>
      V1Step.ready
        { w with
          cache := SetV1List w.cache waiter.Project waiter.ServiceName list,
          backend := backend',
          calls := w.calls ++ [ApiCall.KafkaTopicsList waiter.Project waiter.ServiceName] }
  else V1Step.ready w

/-- What the poll step makes of the error `refresh` returned: no error for an `aiven.Error`
with status 501 or 502, the error itself otherwise. -/
def afterRefreshError (err : ClientError) : PollResult :=
  match err with
  | ClientError.other _ =>
    { result := none, state := "CONFIGURING", err := some (GoError.client err) }
  | ClientError.api status _ =>
    if status = 501 ∨ status = 502 then
      { result := none, state := "CONFIGURING", err := none }
    else
      { result := none, state := "CONFIGURING", err := some (GoError.client err) }

/-- The function `RefreshFunc` returns: one poll step. The loop of `refresh` is allowed
`fuel` iterations. -/
def RefreshFunc {σ : Type} (waiter : kafkaTopicAvailabilityWaiter (aivenClient σ))
    (fuel : Nat) (w : World σ) : Run σ PollResult :=
  match v1ListStep waiter w with
  | V1Step.failed r w1 => Run.returned r w1
  | V1Step.ready w1 =>
    if waiter.TopicName ∈ GetMissing w1.cache waiter.Project waiter.ServiceName then
      Run.returned
        { result := none, state := "CONFIGURING",
          err := some (GoError.client
            (ClientError.api 404 ("Topic " ++ waiter.TopicName ++ " is not found"))) }
        w1
    else
      match LoadByTopicName w1.cache waiter.Project waiter.ServiceName waiter.TopicName with
      | (topic, true) =>
        Run.returned { result := some topic, state := topic.State, err := none } w1
      | (_, false) =>
        match refresh waiter fuel w1 with
        | Run.panicked => Run.panicked
        | Run.unfinished w2 => Run.unfinished w2
        | Run.returned (some err) w2 => Run.returned (afterRefreshError err) w2
        | Run.returned none w2 =>
          match LoadByTopicName w2.cache waiter.Project waiter.ServiceName
              waiter.TopicName with
          | (topic, true) =>
            Run.returned { result := some topic, state := topic.State, err := none } w2
          | (_, false) =>
            Run.returned { result := none, state := "CONFIGURING", err := none } w2

/-- What the other goroutines do while a poll step runs. The step touches the shared state
only in the cache methods, each of which holds the lock of the cache for its whole body, and
in `TryAcquire`; the other goroutines run between these. Each field is the change they make
to the state (cache, permit, backend, log of calls) in one of the gaps of the step: between
the V1 listing step and `GetMissing`, between `GetMissing` and the first `LoadByTopicName`,
between that and the `TryAcquire` of `refresh`, and between the return of `refresh` and the
second `LoadByTopicName`. -/
structure Others (σ : Type) where
  beforeMissingCheck : World σ → World σ
  beforeLoad : World σ → World σ
  beforeRefresh : World σ → World σ
  beforeRecheck : World σ → World σ

/-- No other goroutine runs during the poll step. -/
def Others.quiet {σ : Type} : Others σ :=
  { beforeMissingCheck := fun w => w, beforeLoad := fun w => w,
    beforeRefresh := fun w => w, beforeRecheck := fun w => w }

/-- The poll step of `RefreshFunc` run among other goroutines: the same statements in the
same order, each reading the state as the other goroutines left it. The V1 listing step and
the body of `refresh` are run without interruption (when the permit is taken, the body of
`refresh` is the failing `TryAcquire` alone). -/
def RefreshFuncAmong {σ : Type} (waiter : kafkaTopicAvailabilityWaiter (aivenClient σ))
    (fuel : Nat) (others : Others σ) (w : World σ) : Run σ PollResult :=
  match v1ListStep waiter w with
  | V1Step.failed r w1 => Run.returned r w1
  | V1Step.ready w1 =>
    let wa := others.beforeMissingCheck w1
    if waiter.TopicName ∈ GetMissing wa.cache waiter.Project waiter.ServiceName then
      Run.returned
        { result := none, state := "CONFIGURING",
          err := some (GoError.client
            (ClientError.api 404 ("Topic " ++ waiter.TopicName ++ " is not found"))) }
        wa
    else
      let wb := others.beforeLoad wa
      match LoadByTopicName wb.cache waiter.Project waiter.ServiceName waiter.TopicName with
      | (topic, true) =>
        Run.returned { result := some topic, state := topic.State, err := none } wb
      | (_, false) =>
        match refresh waiter fuel (others.beforeRefresh wb) with
        | Run.panicked => Run.panicked
        | Run.unfinished w2 => Run.unfinished w2
        | Run.returned (some err) w2 => Run.returned (afterRefreshError err) w2
        | Run.returned none w2 =>
          let wd := others.beforeRecheck w2
          match LoadByTopicName wd.cache waiter.Project waiter.ServiceName
              waiter.TopicName with
          | (topic, true) =>
            Run.returned { result := some topic, state := topic.State, err := none } wd
          | (_, false) =>
            Run.returned { result := none, state := "CONFIGURING", err := none } wd

/-- The struct `resource.StateChangeConf` of the plugin SDK; durations are `time.Duration`
values, a number of nanoseconds. `Refresh` is the poll function. -/
structure StateChangeConf (σ : Type) where
  Delay : Int
  Pending : List String
  Refresh : Nat → World σ → Run σ PollResult
  Target : List String
  Timeout : Int
  MinTimeout : Int
  PollInterval : Int
  NotFoundChecks : Int
  ContinuousTargetOccurence : Int

/-- Go `time.Second`, in nanoseconds. -/
def timeSecond : Int := 1000000000

/-- Method `Conf`; the fields it does not set have their zero values. -/
def Conf {σ : Type} (waiter : kafkaTopicAvailabilityWaiter (aivenClient σ)) (timeout : Int) :
    StateChangeConf σ :=
  { Delay := 0,
    Pending := ["CONFIGURING"],
    Target := ["ACTIVE"],
    Refresh := RefreshFunc waiter,
    Timeout := timeout,
    MinTimeout := 0,
    PollInterval := 5 * timeSecond,
    NotFoundChecks := 100,
    ContinuousTargetOccurence := 0 }

/-- The state an iteration of the loop of `refresh` ends in, if it does not panic. -/
def LoopStep.world {σ : Type} : LoopStep σ → Option (World σ)
  | LoopStep.exit _ w => some w
  | LoopStep.again w => some w
  | LoopStep.panic => none

/-- Every topic stored in `t` is stored in `t'` (possibly with another record). -/
def keepsStored (t t' : kafkaTopicCache) : Prop :=
  ∀ k n : String, (stored t k n).isSome = true → (stored t' k n).isSome = true

/-- The state in which `refresh` enters its loop when it starts in `w` with the permit free
and the topic of the waiter not stored: the permit is taken and the topic is enqueued. -/
def loopStart {σ : Type} (waiter : kafkaTopicAvailabilityWaiter (aivenClient σ))
    (w : World σ) : World σ :=
  { w with
    semHeld := true,
    cache := AddToQueue w.cache waiter.Project waiter.ServiceName waiter.TopicName }

/-- A backend without state that gives the same answer to every V1 list call and the same
answer to every batched lookup. -/
def constantClient (listAnswer : Except ClientError (List KafkaListTopic))
    (v2Answer : Except ClientError (List KafkaTopic)) : aivenClient Unit :=
  { KafkaTopicsList := fun b _ _ => (listAnswer, b),
    KafkaTopicsV2List := fun b _ _ _ => (v2Answer, b) }

/-- The waiter for topic `topicName` of service `s` of project `p`. -/
def waiterFor (client : aivenClient Unit) (topicName : String) :
    kafkaTopicAvailabilityWaiter (aivenClient Unit) :=
  { Client := client, Project := "p", ServiceName := "s", TopicName := topicName }

/-- The state with the given cache, the permit free and no backend call made. -/
def worldOf (cache : kafkaTopicCache) : World Unit :=
  { cache := cache, semHeld := false, backend := (), calls := [] }

/-- A cache in which topic `a` of `(p, s)` is stored, in the missing list and in the V1
listing. -/
def cacheStoredAndMissing : kafkaTopicCache :=
  { internal := [("ps", [("a", topicRecord "a" "ACTIVE")])], inQueue := [],
    missing := [("ps", ["a"])], v1list := [("ps", ["a"])] }

/-- A cache in which topic `a` of `(p, s)` is stored and in the V1 listing, and nothing is
queued or missing. -/
def cacheStoredAndListed : kafkaTopicCache :=
  { internal := [("ps", [("a", topicRecord "a" "ACTIVE")])], inQueue := [],
    missing := [], v1list := [("ps", ["a"])] }

/-- A cache with the V1 listing `[c]` for `(p, s)` and the names `a` and `b` left in the
pending queue by earlier refreshes: the state after `SetV1List(p, s, [c])`,
`AddToQueue(p, s, a)` and `AddToQueue(p, s, b)` on the freshly initialised cache. -/
def cacheTwoQueued : kafkaTopicCache :=
  { internal := [], inQueue := [("ps", ["a", "b"])], missing := [],
    v1list := [("ps", ["c"])] }

/-- A cache with the V1 listing `[t]` for `(p, s)` and nothing else. -/
def cacheListed : kafkaTopicCache :=
  { internal := [], inQueue := [], missing := [], v1list := [("ps", ["t"])] }

/-- The 404 answer of the batched lookup: the endpoint does not say which names are missing. -/
def notFoundAnswer : Except ClientError (List KafkaTopic) :=
  Except.error (ClientError.api 404 "Topic not found")

/-- A backend that counts its calls: the first batched lookup answers with the record of
topic `a` alone, every later one fails with status 500. -/
def storeThenFailClient : aivenClient Nat :=
  { KafkaTopicsList := fun b _ _ => (Except.ok [], b + 1),
    KafkaTopicsV2List := fun b _ _ _ =>
      if b = 0 then (Except.ok [topicRecord "a" "ACTIVE"], b + 1)
      else (Except.error (ClientError.api 500 "server error"), b + 1) }

/-- The waiter for topic `c` of `(p, s)` on the backend `storeThenFailClient`. -/
def storeThenFailWaiter : kafkaTopicAvailabilityWaiter (aivenClient Nat) :=
  { Client := storeThenFailClient, Project := "p", ServiceName := "s", TopicName := "c" }

/-- The number of V1 list calls in a log of backend calls. -/
def listCalls : List ApiCall → Nat
  | [] => 0
  | ApiCall.KafkaTopicsList _ _ :: rest => listCalls rest + 1
  | ApiCall.KafkaTopicsV2List _ _ _ :: rest => listCalls rest

/-- The backend answers every name: whenever a batched lookup for the waiter's service
succeeds, the answer holds a record for each requested name. -/
def AnswersEveryName {σ : Type} (waiter : kafkaTopicAvailabilityWaiter (aivenClient σ)) :
    Prop :=
  ∀ (b b' : σ) (names : List String) (topics : List KafkaTopic),
    waiter.Client.KafkaTopicsV2List b waiter.Project waiter.ServiceName names
      = (Except.ok topics, b') →
    ∀ n, n ∈ names → n ∈ topics.map KafkaTopic.TopicName

/-- Every batch of the run of the loop of `refresh` that starts in `w` succeeds: at every
loop head reached after stored batches, the batched lookup for the queue found there, if the
queue is not empty, answers with records. -/
def EveryBatchSucceeds {σ : Type} (waiter : kafkaTopicAvailabilityWaiter (aivenClient σ))
    (w : World σ) : Prop :=
  ∀ (n : Nat) (w0 : World σ), loopAfter waiter n w = some w0 →
    GetQueue w0.cache waiter.Project waiter.ServiceName ≠ [] →
    ∃ topics backend',
      waiter.Client.KafkaTopicsV2List w0.backend waiter.Project waiter.ServiceName
          (GetQueue w0.cache waiter.Project waiter.ServiceName)
        = (Except.ok topics, backend')

/-- A backend without state that answers every batched lookup with an ACTIVE record for
each requested name, and every V1 list call with the given listing. -/
def echoClient (listing : List KafkaListTopic) : aivenClient Unit :=
  { KafkaTopicsList := fun b _ _ => (Except.ok listing, b),
    KafkaTopicsV2List := fun b _ _ names =>
      (Except.ok (names.map (fun n => topicRecord n "ACTIVE")), b) }

/-- A state in which the permit is taken by the waiter for topic `u` of `(p, s)`, which is at
the head of the loop of its `refresh`: the V1 listing is `[t, u]`, and the pending queue
holds `t`, left there by an earlier refresh, and `u`, enqueued by the holder. -/
def worldHolderAtLoopHead : World Unit :=
  { cache :=
      { internal := [], inQueue := [("ps", ["t", "u"])], missing := [],
        v1list := [("ps", ["t", "u"])] },
    semHeld := true, backend := (), calls := [] }

/-- The holder of the permit, the waiter for topic `u` on the backend that answers every
name, runs one iteration of the loop of its `refresh` between the return of the `refresh` of
the poll step and the second `LoadByTopicName`; nothing else happens during the step. -/
def holderIterates : Others Unit :=
  { beforeMissingCheck := fun w => w,
    beforeLoad := fun w => w,
    beforeRefresh := fun w => w,
    beforeRecheck := fun w =>
      match refreshIteration (waiterFor (echoClient []) "u") w with
      | LoopStep.again w' => w'
      | LoopStep.exit _ w' => w'
      | LoopStep.panic => w }

/-- A cache with the V1 listing `[c]` for `(p, s)` and the names `a`, `b` and `c` in the
pending queue: the state after `SetV1List(p, s, [c])` and three calls of `AddToQueue` on the
freshly initialised cache. -/
def cacheThreeQueued : kafkaTopicCache :=
  { internal := [], inQueue := [("ps", ["a", "b", "c"])], missing := [],
    v1list := [("ps", ["c"])] }

end kafka

/-! ## Package schemautil: helpers of `internal/schemautil/helpers.go` -/

namespace schemautil

/-- The organization record `client.Organization.Get` returns; `NormalizeOrganizationID`
reads its `AccountID`. -/
structure OrganizationInfo where
  ID : String
  Name : String
  AccountID : String
deriving DecidableEq

/-- The account record inside the response of `client.Accounts.Get`;
`DetermineMixedOrganizationConstraintIDToStore` reads its `OrganizationId`. -/
structure Account where
  Id : String
  Name : String
  OrganizationId : String
deriving DecidableEq

/-- The two API calls the helpers make: `client.Organization.Get(id)` and
`client.Accounts.Get(id)`, each answering with a record or an error. -/
structure Client where
  OrganizationGet : String → Except kafka.ClientError OrganizationInfo
  AccountsGet : String → Except kafka.ClientError Account

/-- A call made to the API, with its argument. -/
inductive ApiCall where
  | OrganizationGet (id : String)
  | AccountsGet (id : String)
deriving DecidableEq

/-- What a helper returns, Go `(string, error)` with `none` for a nil error, together with the
API calls it made, oldest first. -/
structure IDResult where
  id : String
  err : Option kafka.ClientError
  calls : List ApiCall
deriving DecidableEq

/-- Function `isStringAnOrganizationID`: Go `strings.HasPrefix(s, "org")`, which compares
the first three bytes of `s` with `org`. -/
def isStringAnOrganizationID (s : String) : Bool :=
  decide (s.data.take 3 = ['o', 'r', 'g'])

/-- Function `NormalizeOrganizationID`. -/
def NormalizeOrganizationID (client : Client) (id : String) : IDResult :=
  if isStringAnOrganizationID id then
    match client.OrganizationGet id with
    | Except.error err => { id := "", err := some err, calls := [ApiCall.OrganizationGet id] }
    | Except.ok r => { id := r.AccountID, err := none, calls := [ApiCall.OrganizationGet id] }
  else { id := id, err := none, calls := [] }

/-- Function `DetermineMixedOrganizationConstraintIDToStore`. -/
def DetermineMixedOrganizationConstraintIDToStore (client : Client)
    (stateID accountID : String) : IDResult :=
  if kafka.len accountID = 0 then { id := "", err := none, calls := [] }
  else if !isStringAnOrganizationID stateID then { id := accountID, err := none, calls := [] }
  else
    match client.AccountsGet accountID with
    | Except.error err =>
      { id := "", err := some err, calls := [ApiCall.AccountsGet accountID] }
    | Except.ok r =>
      if kafka.len r.OrganizationId = 0 then
        { id := accountID, err := none, calls := [ApiCall.AccountsGet accountID] }
      else
        { id := r.OrganizationId, err := none, calls := [ApiCall.AccountsGet accountID] }

/-- The first `/` of a string: the characters before it and the characters after it, `none`
when the string has no `/`. -/
def splitAtSlash : List Char → Option (List Char × List Char)
  | [] => none
  | c :: cs =>
    if c = '/' then some ([], cs)
    else (splitAtSlash cs).map (fun r => (c :: r.1, r.2))

/-- Go `strings.SplitN(s, "/", 2)` of the standard library: the string itself when it has no
`/`, otherwise the part before the first `/` and the part after it. -/
def SplitN2 (s : String) : List String :=
  match splitAtSlash s.data with
  | none => [s]
  | some (a, b) => [String.mk a, String.mk b]

/-- Function `GetProjectVPCIdPointer`; `d` gives the string stored under a key
(`d.Get(key).(string)`), the result is the pointer (`none` for nil) or the error. -/
def GetProjectVPCIdPointer (d : String → String) : Except String (Option String) :=
  if kafka.len (d "project_vpc_id") = 0 then Except.ok none
  else if (SplitN2 (d "project_vpc_id")).length ≠ 2 then
    Except.error ("invalid project_vpc_id, should have the following format "
      ++ "\x7bproject_name\x7d/\x7bproject_vpc_id\x7d")
  else Except.ok ((SplitN2 (d "project_vpc_id"))[1]?)

/-- A client whose account `a123` belongs to organization `org456`. -/
def exampleClient : Client :=
  { OrganizationGet := fun id =>
      if id = "org456" then Except.ok { ID := "org456", Name := "acme", AccountID := "a123" }
      else Except.error (kafka.ClientError.api 404 "organization not found"),
    AccountsGet := fun id =>
      if id = "a123" then Except.ok { Id := "a123", Name := "acme", OrganizationId := "org456" }
      else Except.error (kafka.ClientError.api 404 "account not found") }

end schemautil

namespace kafka

/-! ## Facts about maps -/

theorem mapIndex_mapAssign {V : Type} (m : GoMap V) (k k' : String) (v : V) :
    mapIndex (mapAssign m k v) k' = if k = k' then some v else mapIndex m k' := by
  induction m with
  | nil => simp [mapAssign, mapIndex]
  | cons e m ih =>
    obtain ⟨a, b⟩ := e
    simp only [mapAssign, mapIndex]
    split_ifs <;> simp_all [mapIndex]

theorem mapIndex_mapDelete {V : Type} (m : GoMap V) (k k' : String) :
    mapIndex (mapDelete m k) k' = if k = k' then none else mapIndex m k' := by
  induction m with
  | nil => simp [mapDelete, mapIndex]
  | cons e m ih =>
    obtain ⟨a, b⟩ := e
    simp only [mapDelete, mapIndex]
    split_ifs <;> simp_all [mapIndex]

theorem sliceIndex_mapAssign (m : GoMap (List String)) (k k' : String) (v : List String) :
    sliceIndex (mapAssign m k v) k' = if k = k' then v else sliceIndex m k' := by
  unfold sliceIndex
  rw [mapIndex_mapAssign]
  split <;> rfl

theorem sliceIndex_mapDelete (m : GoMap (List String)) (k k' : String) :
    sliceIndex (mapDelete m k) k' = if k = k' then [] else sliceIndex m k' := by
  unfold sliceIndex
  rw [mapIndex_mapDelete]
  split <;> rfl

theorem mapIndex_eq_none_iff {V : Type} (m : GoMap V) (k : String) :
    mapIndex m k = none ↔ k ∉ mapKeys m := by
  induction m with
  | nil => simp [mapIndex, mapKeys]
  | cons e m ih =>
    obtain ⟨a, b⟩ := e
    unfold mapKeys at ih ⊢
    by_cases h : a = k
    · simp [mapIndex, h]
    · have h' : ¬ k = a := fun e => h e.symm
      simp [mapIndex, h, h', ih]

/-! ## Facts about the deletion loop -/

theorem without_of_not_mem (x : String) (q : List String) (h : x ∉ q) : without x q = q := by
  unfold without
  rw [List.filter_eq_self]
  intro a ha
  have : a ≠ x := fun e => h (e ▸ ha)
  simpa using this

theorem mem_without (x n : String) (q : List String) : n ∈ without x q ↔ n ∈ q ∧ n ≠ x := by
  simp [without]

theorem rangeDelete_no_match (x : String) (todo : Nat) :
    ∀ (i : Nat) (arr : List String) (len : Nat),
      (∀ j, i ≤ j → j < i + todo → arr[j]? ≠ some x) →
      rangeDelete x todo i arr len = some (arr, len) := by
  induction todo with
  | zero => intro i arr len _; rfl
  | succ todo ih =>
    intro i arr len h
    have h0 : arr[i]? ≠ some x := h i (le_refl i) (by omega)
    rw [rangeDelete, if_neg h0]
    exact ih (i + 1) arr len (fun j h1 h2 => h j (by omega) (by omega))

theorem spliceOut_append (pre r : List String) (y : String) :
    spliceOut (pre ++ y :: r) (pre.length + (r.length + 1)) pre.length
      = pre ++ (r ++ (y :: r).drop r.length) := by
  unfold spliceOut
  have h1 : (pre ++ y :: r).take pre.length = pre := List.take_left pre (y :: r)
  have h2 : (pre ++ y :: r).drop (pre.length + 1) = r := by
    rw [List.drop_append]
    rfl
  have h3 : pre.length + (r.length + 1) - (pre.length + 1) = r.length := by omega
  have h4 : (pre ++ y :: r).drop (pre.length + (r.length + 1) - 1) = (y :: r).drop r.length := by
    have e : pre.length + (r.length + 1) - 1 = pre.length + r.length := by omega
    rw [e, List.drop_append]
  rw [h1, h2, h3, h4, List.take_length, List.append_assoc]

theorem stale_cells_mem (pre r : List String) (y z : String) (j : Nat)
    (h1 : pre.length + 1 ≤ j) (h2 : j < pre.length + 1 + r.length)
    (h : (pre ++ (r ++ (y :: r).drop r.length))[j]? = some z) : z ∈ r := by
  rw [List.getElem?_append_right (by omega)] at h
  cases r with
  | nil => simp at h2; omega
  | cons a r' =>
    have e : (y :: a :: r').drop (a :: r').length = (a :: r').drop r'.length := by
      simp [List.drop]
    rw [e] at h
    have hm : z ∈ a :: r' ++ (a :: r').drop r'.length := List.getElem?_mem h
    rcases List.mem_append.mp hm with hm | hm
    · exact hm
    · exact List.mem_of_mem_drop hm

theorem rangeDelete_nodup (x : String) (rest : List String) :
    ∀ pre : List String, x ∉ pre → rest.Nodup →
      ∃ arr len,
        rangeDelete x rest.length pre.length (pre ++ rest) (pre.length + rest.length)
          = some (arr, len)
        ∧ arr.take len = pre ++ without x rest := by
  induction rest with
  | nil =>
    intro pre _ _
    exact ⟨pre ++ [], pre.length + 0, rfl, by simp [without]⟩
  | cons y r ih =>
    intro pre hpre hnd
    obtain ⟨hy, hr⟩ := List.nodup_cons.mp hnd
    have hget : (pre ++ y :: r)[pre.length]? = some y := by
      rw [List.getElem?_append_right (le_refl _)]
      simp
    by_cases hyx : y = x
    · subst hyx
      refine ⟨pre ++ (r ++ (y :: r).drop r.length), pre.length + r.length, ?_, ?_⟩
      · rw [List.length_cons, rangeDelete, if_pos hget, if_pos (by omega), spliceOut_append]
        have e : pre.length + (r.length + 1) - 1 = pre.length + r.length := by omega
        rw [e]
        apply rangeDelete_no_match
        intro j h1 h2 hj
        exact hy (stale_cells_mem pre r y y j h1 h2 hj)
      · have hw : without y (y :: r) = r := by
          have : without y (y :: r) = without y r := by simp [without]
          rw [this, without_of_not_mem y r hy]
        rw [hw, ← List.append_assoc, List.take_append_of_le_length (by simp)]
        have : pre.length + r.length = (pre ++ r).length := by simp
        rw [this, List.take_length]
    · have hne : (pre ++ y :: r)[pre.length]? ≠ some x := by
        rw [hget]
        intro e
        exact hyx (Option.some.inj e)
      have hpre' : x ∉ pre ++ [y] := by
        intro hm
        rcases List.mem_append.mp hm with hm | hm
        · exact hpre hm
        · exact hyx (List.mem_singleton.mp hm).symm
      obtain ⟨arr, len, h1, h2⟩ := ih (pre ++ [y]) hpre' hr
      refine ⟨arr, len, ?_, ?_⟩
      · rw [List.length_cons, rangeDelete, if_neg hne]
        have e1 : (pre ++ [y]).length = pre.length + 1 := by simp
        have e2 : pre ++ [y] ++ r = pre ++ y :: r := by simp
        have e3 : pre.length + 1 + r.length = pre.length + (r.length + 1) := by omega
        rw [e1, e2, e3] at h1
        exact h1
      · rw [h2]
        have : without x (y :: r) = y :: without x r := by simp [without, hyx]
        rw [this]
        simp

theorem rangeDelete_of_nodup (x : String) (q : List String) (h : q.Nodup) :
    ∃ arr len, rangeDelete x q.length 0 q q.length = some (arr, len)
      ∧ arr.take len = without x q := by
  have := rangeDelete_nodup x q [] (by simp) h
  simpa using this

theorem deleteFromQueue_frame (m m' : GoMap (List String)) (key x : String)
    (h : deleteFromQueue m key x = some m') (k : String) (hk : key ≠ k) :
    mapIndex m' k = mapIndex m k := by
  unfold deleteFromQueue at h
  split at h
  · cases h; rfl
  · split at h
    · cases h
    · cases h
      rw [mapIndex_mapAssign, if_neg hk]

theorem deleteFromQueue_nodup (m : GoMap (List String)) (key x : String)
    (h : (sliceIndex m key).Nodup) :
    ∃ m', deleteFromQueue m key x = some m' ∧
      ∀ k, sliceIndex m' k = if key = k then without x (sliceIndex m key) else sliceIndex m k := by
  unfold deleteFromQueue
  cases hq : mapIndex m key with
  | none =>
    refine ⟨m, rfl, ?_⟩
    intro k
    split
    · next e =>
      subst e
      simp [sliceIndex, hq, without]
    · rfl
  | some q =>
    have hq' : sliceIndex m key = q := by simp [sliceIndex, hq]
    rw [hq'] at h
    obtain ⟨arr, len, h1, h2⟩ := rangeDelete_of_nodup x q h
    refine ⟨mapAssign m key (arr.take len), ?_, ?_⟩
    · simp only [h1]
    · intro k
      rw [sliceIndex_mapAssign, h2, hq']

theorem without_withoutAll (x : String) (names q : List String) :
    withoutAll names (without x q) = withoutAll (x :: names) q := by
  unfold withoutAll without
  rw [List.filter_filter]
  apply List.filter_congr
  intro n _
  by_cases h1 : n = x <;> by_cases h2 : n ∈ names <;> simp [h1, h2]

theorem nodup_without (x : String) (q : List String) (h : q.Nodup) : (without x q).Nodup :=
  List.Nodup.filter _ h

theorem stored_eq_of_internal (t t' : kafkaTopicCache) (k : String)
    (h : mapIndex t'.internal k = mapIndex t.internal k) (n : String) :
    stored t' k n = stored t k n := by
  unfold stored
  rw [h]

theorem storeOne_spec (key : String) (t : kafkaTopicCache) (topic : KafkaTopic)
    (h : (sliceIndex t.inQueue key).Nodup) :
    ∃ t', storeOne key t topic = some t' ∧
      (∀ k, sliceIndex t'.inQueue k
        = if key = k then without topic.TopicName (sliceIndex t.inQueue key)
          else sliceIndex t.inQueue k) ∧
      (∀ n, stored t' key n = if topic.TopicName = n then some topic else stored t key n) ∧
      (∀ k, key ≠ k → mapIndex t'.internal k = mapIndex t.internal k) ∧
      t'.missing = t.missing ∧ t'.v1list = t.v1list := by
  obtain ⟨m', h1, h2⟩ := deleteFromQueue_nodup t.inQueue key topic.TopicName h
  unfold storeOne
  rw [h1]
  refine ⟨_, rfl, h2, ?_, ?_, rfl, rfl⟩
  · intro n
    simp only [stored, mapIndex_mapAssign, if_true, Option.bind]
    cases mapIndex t.internal key <;> simp [mapIndex]
  · intro k hk
    simp only [mapIndex_mapAssign, if_neg hk]

theorem storeFold_spec (key : String) (list : List KafkaTopic) :
    ∀ t : kafkaTopicCache, (sliceIndex t.inQueue key).Nodup →
    ∃ t', list.foldlM (storeOne key) t = some t' ∧
      (∀ k, sliceIndex t'.inQueue k
        = if key = k then withoutAll (list.map KafkaTopic.TopicName) (sliceIndex t.inQueue key)
          else sliceIndex t.inQueue k) ∧
      (∀ n, stored t' key n
        = match list.reverse.find? (fun r => decide (r.TopicName = n)) with
          | some r => some r
          | none => stored t key n) ∧
      (∀ k, key ≠ k → mapIndex t'.internal k = mapIndex t.internal k) ∧
      t'.missing = t.missing ∧ t'.v1list = t.v1list := by
  induction list with
  | nil =>
    intro t _
    refine ⟨t, rfl, ?_, ?_, ?_, rfl, rfl⟩
    · intro k
      split
      · next e => subst e; simp [withoutAll]
      · rfl
    · intro n; simp
    · intro k _; rfl
  | cons x rest ih =>
    intro t h
    obtain ⟨t1, a1, a2, a3, a4, a5, a6⟩ := storeOne_spec key t x h
    have hnd : (sliceIndex t1.inQueue key).Nodup := by
      rw [a2 key, if_pos rfl]
      exact nodup_without _ _ h
    obtain ⟨t2, b1, b2, b3, b4, b5, b6⟩ := ih t1 hnd
    refine ⟨t2, ?_, ?_, ?_, ?_, b5.trans a5, b6.trans a6⟩
    · rw [List.foldlM_cons, a1]
      exact b1
    · intro k
      rw [b2 k]
      split
      · rw [a2 key, if_pos rfl, List.map_cons, without_withoutAll]
      · next hk => rw [a2 k, if_neg hk]
    · intro n
      rw [b3 n, List.reverse_cons, List.find?_append]
      cases hf : List.find? (fun r => decide (r.TopicName = n)) rest.reverse with
      | some r => simp
      | none =>
        rw [a3 n]
        by_cases hx : x.TopicName = n <;> simp [hx]
    · intro k hk
      rw [b4 k hk, a4 k hk]

/-! ## The deletion loop on a backing array that is shared with another slice -/

theorem spliceOut_length (arr : List String) (len i : Nat) (h1 : i + 1 ≤ len)
    (h2 : len ≤ arr.length) : (spliceOut arr len i).length = arr.length := by
  unfold spliceOut
  simp only [List.length_append, List.length_take, List.length_drop]
  omega

theorem spliceOut_append_cells (a e : List String) (len i : Nat) (h1 : i + 1 ≤ len)
    (h2 : len ≤ a.length) : spliceOut (a ++ e) len i = spliceOut a len i ++ e := by
  unfold spliceOut
  rw [List.take_append_of_le_length (by omega), List.drop_append_of_le_length (by omega),
    List.take_append_of_le_length (by simp only [List.length_drop]; omega),
    List.drop_append_of_le_length (by omega)]
  simp only [List.append_assoc]

theorem rangeDelete_length (x : String) (todo : Nat) :
    ∀ (i : Nat) (arr : List String) (len : Nat) (arr' : List String) (len' : Nat),
      len ≤ arr.length → rangeDelete x todo i arr len = some (arr', len') →
      arr'.length = arr.length ∧ len' ≤ len := by
  induction todo with
  | zero =>
    intro i arr len arr' len' _ h
    simp only [rangeDelete, Option.some.injEq, Prod.mk.injEq] at h
    obtain ⟨h1, h2⟩ := h
    subst h1
    subst h2
    exact ⟨rfl, le_refl _⟩
  | succ todo ih =>
    intro i arr len arr' len' hlen h
    rw [rangeDelete] at h
    split at h
    · split at h
      · next hi =>
        have := ih (i + 1) (spliceOut arr len i) (len - 1) arr' len'
          (by rw [spliceOut_length arr len i hi hlen]; omega) h
        rw [spliceOut_length arr len i hi hlen] at this
        exact ⟨this.1, by omega⟩
      · cases h
    · exact ih (i + 1) arr len arr' len' hlen h

theorem rangeDelete_append_cells (x : String) (e : List String) (todo : Nat) :
    ∀ (i : Nat) (a : List String) (len : Nat),
      i + todo ≤ a.length → len ≤ a.length →
      rangeDelete x todo i (a ++ e) len
        = (rangeDelete x todo i a len).map (fun r => (r.1 ++ e, r.2)) := by
  induction todo with
  | zero => intro i a len _ _; rfl
  | succ todo ih =>
    intro i a len hi hlen
    have hget : (a ++ e)[i]? = a[i]? := List.getElem?_append_left (by omega)
    rw [rangeDelete, rangeDelete, hget]
    split
    · split
      · next h1 =>
        rw [spliceOut_append_cells a e len i h1 hlen]
        exact ih (i + 1) (spliceOut a len i) (len - 1)
          (by rw [spliceOut_length a len i h1 hlen]; omega)
          (by rw [spliceOut_length a len i h1 hlen]; omega)
      · rfl
    · exact ih (i + 1) a len (by omega) hlen

theorem deleteFromQueueShared_of_nodup (m : GoMap (List String)) (key x : String)
    (arr : List String) (hnd : (sliceIndex m key).Nodup)
    (hpre : arr.take (sliceIndex m key).length = sliceIndex m key) :
    ∃ m' arr', deleteFromQueueShared m key x arr = some (m', arr') ∧
      deleteFromQueue m key x = some m' ∧
      arr'.length = arr.length ∧
      arr'.take (sliceIndex m' key).length = sliceIndex m' key ∧
      (∀ k, sliceIndex m' k
        = if key = k then without x (sliceIndex m key) else sliceIndex m k) := by
  obtain ⟨m0, h0, hq⟩ := deleteFromQueue_nodup m key x hnd
  cases hm : mapIndex m key with
  | none =>
    have e0 : deleteFromQueue m key x = some m := by simp [deleteFromQueue, hm]
    have e1 : deleteFromQueueShared m key x arr = some (m, arr) := by
      simp [deleteFromQueueShared, hm]
    rw [e0] at h0
    cases h0
    exact ⟨m, arr, e1, e0, rfl, hpre, hq⟩
  | some q =>
    have hq' : sliceIndex m key = q := by simp [sliceIndex, hm]
    rw [hq'] at hpre hnd
    obtain ⟨a1, len1, h1, h2⟩ := rangeDelete_of_nodup x q hnd
    obtain ⟨hl1, hl2⟩ := rangeDelete_length x q.length 0 q q.length a1 len1 (le_refl _) h1
    have harr : arr = q ++ arr.drop q.length := by
      conv_lhs => rw [← List.take_append_drop q.length arr, hpre]
    have hshared : rangeDelete x q.length 0 arr q.length
        = some (a1 ++ arr.drop q.length, len1) := by
      conv_lhs => rw [harr]
      rw [rangeDelete_append_cells x _ q.length 0 q q.length (by omega) (le_refl _), h1]
      simp
    have htake : (a1 ++ arr.drop q.length).take len1 = a1.take len1 :=
      List.take_append_of_le_length (by omega)
    have e0 : deleteFromQueue m key x = some (mapAssign m key (a1.take len1)) := by
      simp [deleteFromQueue, hm, h1]
    have e1 : deleteFromQueueShared m key x arr
        = some (mapAssign m key (a1.take len1), a1 ++ arr.drop q.length) := by
      simp [deleteFromQueueShared, hm, hshared, htake]
    rw [e0] at h0
    cases h0
    refine ⟨_, _, e1, e0, ?_, ?_, hq⟩
    · rw [List.length_append, hl1]
      conv_rhs => rw [harr, List.length_append]
    · have hs : sliceIndex (mapAssign m key (a1.take len1)) key = a1.take len1 := by
        rw [sliceIndex_mapAssign, if_pos rfl]
      rw [hs, List.length_take, Nat.min_eq_left (by omega), htake]

/-! ## Facts about the single operations -/

theorem LoadByTopicName_eq (t : kafkaTopicCache) (p s n : String) :
    LoadByTopicName t p s n
      = match stored t (p ++ s) n with
        | some r => (r, true)
        | none => ({ KafkaTopic.zero with State := "CONFIGURING" }, false) := by
  unfold LoadByTopicName stored
  cases mapIndex t.internal (p ++ s) with
  | none => rfl
  | some topics => simp only [Option.bind]

theorem LoadByTopicName_found_iff (t : kafkaTopicCache) (p s n : String) :
    (LoadByTopicName t p s n).2 = true ↔ (stored t (p ++ s) n).isSome = true := by
  rw [LoadByTopicName_eq]
  cases stored t (p ++ s) n <;> simp

theorem inCache_eq (t : kafkaTopicCache) (key n : String) :
    inCache t key n = (stored t key n).isSome := by
  unfold inCache stored
  cases mapIndex t.internal key <;> rfl

theorem isFoundInQueue_eq (q : List String) (n : String) :
    isFoundInQueue q n = decide (n ∈ q) := by
  unfold isFoundInQueue
  have gen : ∀ (b : Bool),
      q.foldl (fun isFound name => if name = n then true else isFound) b
        = (b || decide (n ∈ q)) := by
    induction q with
    | nil => intro b; simp
    | cons a q ih =>
      intro b
      rw [List.foldl_cons, ih]
      by_cases h : a = n
      · subst h; simp
      · have h' : ¬ n = a := fun e => h e.symm
        simp [h, h']
  simpa using gen false

theorem AddToQueue_of_new (t : kafkaTopicCache) (p s n : String)
    (h1 : n ∉ sliceIndex t.inQueue (p ++ s)) (h2 : stored t (p ++ s) n = none) :
    AddToQueue t p s n
      = { t with
          inQueue := mapAssign t.inQueue (p ++ s) (sliceIndex t.inQueue (p ++ s) ++ [n]) } := by
  unfold AddToQueue
  rw [isFoundInQueue_eq, inCache_eq, h2]
  simp [h1]

theorem AddToQueue_of_known (t : kafkaTopicCache) (p s n : String)
    (h : n ∈ sliceIndex t.inQueue (p ++ s) ∨ (stored t (p ++ s) n).isSome = true) :
    AddToQueue t p s n = t := by
  unfold AddToQueue
  rw [isFoundInQueue_eq, inCache_eq]
  rcases h with h | h <;> simp [h]

theorem SetV1List_fields (list : List KafkaListTopic) (p s : String) :
    ∀ t : kafkaTopicCache,
      (SetV1List t p s list).internal = t.internal ∧
      (SetV1List t p s list).inQueue = t.inQueue ∧
      (SetV1List t p s list).missing = t.missing ∧
      (∀ k, sliceIndex (SetV1List t p s list).v1list k
        = if p ++ s = k then sliceIndex t.v1list k ++ list.map KafkaListTopic.TopicName
          else sliceIndex t.v1list k) := by
  induction list with
  | nil =>
    intro t
    refine ⟨rfl, rfl, rfl, ?_⟩
    intro k
    simp [SetV1List]
  | cons v rest ih =>
    intro t
    unfold SetV1List at ih ⊢
    rw [List.foldl_cons]
    obtain ⟨a1, a2, a3, a4⟩ := ih
      { t with
        v1list := mapAssign t.v1list (p ++ s) (sliceIndex t.v1list (p ++ s) ++ [v.TopicName]) }
    refine ⟨a1, a2, a3, ?_⟩
    intro k
    rw [a4 k]
    simp only [sliceIndex_mapAssign]
    split
    · next e => subst e; simp
    · rfl

theorem flushKey_queue (c : kafkaTopicCache) (k0 k : String) :
    sliceIndex (flushKey c k0).inQueue k = if k0 = k then [] else sliceIndex c.inQueue k :=
  sliceIndex_mapDelete c.inQueue k0 k

theorem flushKey_missing (c : kafkaTopicCache) (k0 k : String) :
    sliceIndex (flushKey c k0).missing k = if k0 = k then [] else sliceIndex c.missing k :=
  sliceIndex_mapDelete c.missing k0 k

theorem flushKey_stored (c : kafkaTopicCache) (k0 k n : String) :
    stored (flushKey c k0) k n = if k0 = k then none else stored c k n := by
  unfold stored flushKey
  simp only [mapIndex_mapDelete]
  split <;> rfl

theorem flush_preserves (P : kafkaTopicCache → Prop)
    (hP : ∀ c k, P c → P (flushKey c k)) (ks : List String) :
    ∀ c, P c → P (ks.foldl flushKey c) := by
  induction ks with
  | nil => intro c h; exact h
  | cons k ks ih => intro c h; exact ih _ (hP c k h)

theorem flushKey_internal (c : kafkaTopicCache) (k0 k : String) :
    mapIndex (flushKey c k0).internal k = if k0 = k then none else mapIndex c.internal k :=
  mapIndex_mapDelete c.internal k0 k

theorem flushKey_v1list (c : kafkaTopicCache) (k0 k : String) :
    sliceIndex (flushKey c k0).v1list k = if k0 = k then [] else sliceIndex c.v1list k :=
  sliceIndex_mapDelete c.v1list k0 k

theorem flush_fold_spec (ks : List String) :
    ∀ c : kafkaTopicCache,
      (∀ k, mapIndex (ks.foldl flushKey c).internal k
        = if k ∈ ks then none else mapIndex c.internal k) ∧
      (∀ k, sliceIndex (ks.foldl flushKey c).inQueue k
        = if k ∈ ks then [] else sliceIndex c.inQueue k) ∧
      (∀ k, sliceIndex (ks.foldl flushKey c).missing k
        = if k ∈ ks then [] else sliceIndex c.missing k) ∧
      (∀ k, sliceIndex (ks.foldl flushKey c).v1list k
        = if k ∈ ks then [] else sliceIndex c.v1list k) := by
  induction ks with
  | nil => intro c; simp
  | cons k0 ks ih =>
    intro c
    obtain ⟨h1, h2, h3, h4⟩ := ih (flushKey c k0)
    rw [List.foldl_cons]
    refine ⟨?_, ?_, ?_, ?_⟩
    · intro k
      rw [h1 k, flushKey_internal]
      by_cases e1 : k ∈ ks <;> by_cases e2 : k0 = k <;> simp [e1, e2, eq_comm]
    · intro k
      rw [h2 k, flushKey_queue]
      by_cases e1 : k ∈ ks <;> by_cases e2 : k0 = k <;> simp [e1, e2, eq_comm]
    · intro k
      rw [h3 k, flushKey_missing]
      by_cases e1 : k ∈ ks <;> by_cases e2 : k0 = k <;> simp [e1, e2, eq_comm]
    · intro k
      rw [h4 k, flushKey_v1list]
      by_cases e1 : k ∈ ks <;> by_cases e2 : k0 = k <;> simp [e1, e2, eq_comm]

/-- What `FlushTopicCache` does on every cache: no key has stored topics afterwards; a key that
had stored topics has an empty queue, missing list and V1 listing afterwards; a key that had
none keeps its queue, missing list and V1 listing. -/
theorem FlushTopicCache_spec (t : kafkaTopicCache) (p s : String) :
    LoadByProjectAndServiceName (FlushTopicCache t) p s = ([], false) ∧
    (∀ n, (LoadByTopicName (FlushTopicCache t) p s n).2 = false) ∧
    ((LoadByProjectAndServiceName t p s).2 = true →
      GetQueue (FlushTopicCache t) p s = [] ∧ GetMissing (FlushTopicCache t) p s = [] ∧
      GetV1List (FlushTopicCache t) p s = []) ∧
    ((LoadByProjectAndServiceName t p s).2 = false →
      GetQueue (FlushTopicCache t) p s = GetQueue t p s ∧
      GetMissing (FlushTopicCache t) p s = GetMissing t p s ∧
      GetV1List (FlushTopicCache t) p s = GetV1List t p s) := by
  obtain ⟨h1, h2, h3, h4⟩ := flush_fold_spec (mapKeys t.internal) t
  have hnone : mapIndex (FlushTopicCache t).internal (p ++ s) = none := by
    unfold FlushTopicCache
    rw [h1]
    split
    · rfl
    · next hk => exact (mapIndex_eq_none_iff _ _).mpr hk
  refine ⟨?_, ?_, ?_, ?_⟩
  · unfold LoadByProjectAndServiceName
    rw [hnone]
  · intro n
    unfold LoadByTopicName
    rw [hnone]
  · intro hfound
    have hk : p ++ s ∈ mapKeys t.internal := by
      by_contra hk
      unfold LoadByProjectAndServiceName at hfound
      rw [(mapIndex_eq_none_iff _ _).mpr hk] at hfound
      cases hfound
    unfold GetQueue GetMissing GetV1List FlushTopicCache
    simp [h2, h3, h4, hk]
  · intro hfound
    have hk : p ++ s ∉ mapKeys t.internal := by
      rw [← mapIndex_eq_none_iff]
      unfold LoadByProjectAndServiceName at hfound
      cases hm : mapIndex t.internal (p ++ s) with
      | none => rfl
      | some r => rw [hm] at hfound; cases hfound
    unfold GetQueue GetMissing GetV1List FlushTopicCache
    simp [h2, h3, h4, hk]

/-! ## The invariant of the pending queues -/

theorem QueueInv_init : QueueInv initTopicCache := by
  intro key
  simp [initTopicCache, sliceIndex, mapIndex]

theorem QueueInv_flushKey (c : kafkaTopicCache) (k0 : String) (h : QueueInv c) :
    QueueInv (flushKey c k0) := by
  intro key
  rw [flushKey_queue]
  split
  · simp
  · next hk =>
    refine ⟨(h key).1, ?_⟩
    intro n hn
    rw [flushKey_stored, if_neg hk]
    exact (h key).2 n hn

theorem QueueInv_AddToQueue (t : kafkaTopicCache) (p s n : String) (h : QueueInv t) :
    QueueInv (AddToQueue t p s n) := by
  by_cases hk : n ∈ sliceIndex t.inQueue (p ++ s) ∨ (stored t (p ++ s) n).isSome = true
  · rw [AddToQueue_of_known t p s n hk]
    exact h
  · have h1 : n ∉ sliceIndex t.inQueue (p ++ s) := fun e => hk (Or.inl e)
    have h2 : stored t (p ++ s) n = none := by
      cases hs : stored t (p ++ s) n with
      | none => rfl
      | some r => exact absurd (Or.inr (by simp [hs])) hk
    rw [AddToQueue_of_new t p s n h1 h2]
    intro key
    simp only [sliceIndex_mapAssign]
    split
    · next e =>
      subst e
      constructor
      · rw [List.nodup_append]
        refine ⟨(h _).1, List.nodup_singleton n, ?_⟩
        intro a ha hb
        exact h1 (List.mem_singleton.mp hb ▸ ha)
      · intro m hm
        rcases List.mem_append.mp hm with hm | hm
        · exact (h _).2 m hm
        · rw [List.mem_singleton.mp hm]
          exact h2
    · exact h key

theorem QueueInv_run (c : Call) (t t' : kafkaTopicCache) (h : QueueInv t)
    (hrun : c.run t = some t') : QueueInv t' := by
  cases c with
  | LoadByProjectAndServiceName p s => cases hrun; exact h
  | LoadByTopicName p s n => cases hrun; exact h
  | GetMissing p s => cases hrun; exact h
  | GetQueue p s => cases hrun; exact h
  | GetV1List p s => cases hrun; exact h
  | DeleteByProjectAndServiceName p s =>
    cases hrun
    intro key
    refine ⟨(h key).1, ?_⟩
    intro n hn
    have := (h key).2 n hn
    unfold stored DeleteByProjectAndServiceName at *
    simp only [mapIndex_mapDelete]
    split
    · rfl
    · exact this
  | StoreByProjectAndServiceName p s list =>
    simp only [Call.run, StoreByProjectAndServiceName] at hrun
    split at hrun
    · cases hrun; exact h
    · obtain ⟨t2, b1, b2, b3, b4, _, _⟩ := storeFold_spec (p ++ s) list t (h _).1
      rw [b1] at hrun
      cases hrun
      intro key
      rw [b2 key]
      split
      · next e =>
        subst e
        refine ⟨List.Nodup.filter _ (h _).1, ?_⟩
        intro n hn
        have hn' : n ∈ sliceIndex t.inQueue (p ++ s) ∧ n ∉ list.map KafkaTopic.TopicName := by
          simpa [withoutAll] using hn
        rw [b3 n]
        have hf : List.find? (fun r => decide (r.TopicName = n)) list.reverse = none := by
          rw [List.find?_eq_none]
          intro r hr
          have : r.TopicName ≠ n := by
            intro e
            exact hn'.2 (List.mem_map.mpr ⟨r, List.mem_reverse.mp hr, e⟩)
          simpa using this
        rw [hf]
        exact (h _).2 n hn'.1
      · next hk =>
        refine ⟨(h key).1, ?_⟩
        intro n hn
        rw [stored_eq_of_internal t _ key (b4 key hk)]
        exact (h key).2 n hn
  | AddToQueue p s n =>
    cases hrun
    exact QueueInv_AddToQueue t p s n h
  | DeleteFromQueueAndMarkMissing p s n =>
    simp only [Call.run, DeleteFromQueueAndMarkMissing] at hrun
    obtain ⟨m', h1, h2⟩ := deleteFromQueue_nodup t.inQueue (p ++ s) n (h _).1
    rw [h1] at hrun
    cases hrun
    intro key
    simp only [h2 key]
    split
    · next e =>
      subst e
      refine ⟨nodup_without _ _ (h _).1, ?_⟩
      intro m hm
      exact (h _).2 m ((mem_without n m _).mp hm).1
    · exact h key
  | FlushTopicCache =>
    cases hrun
    exact flush_preserves QueueInv QueueInv_flushKey _ t h
  | SetV1List p s list =>
    cases hrun
    obtain ⟨a1, a2, _, _⟩ := SetV1List_fields list p s t
    intro key
    rw [a2]
    refine ⟨(h key).1, ?_⟩
    intro n hn
    rw [stored_eq_of_internal t _ key (by rw [a1])]
    exact (h key).2 n hn

theorem QueueInv_of_reachable (t : kafkaTopicCache) (h : Reachable t) : QueueInv t := by
  induction h with
  | init => exact QueueInv_init
  | step c _ hrun ih => exact QueueInv_run c _ _ ih hrun

theorem run_returns (c : Call) (t : kafkaTopicCache) (h : QueueInv t) :
    ∃ t', c.run t = some t' := by
  cases c with
  | StoreByProjectAndServiceName p s list =>
    simp only [Call.run, StoreByProjectAndServiceName]
    split
    · exact ⟨t, rfl⟩
    · obtain ⟨t2, b1, _⟩ := storeFold_spec (p ++ s) list t (h _).1
      exact ⟨t2, b1⟩
  | DeleteFromQueueAndMarkMissing p s n =>
    simp only [Call.run, DeleteFromQueueAndMarkMissing]
    obtain ⟨m', h1, _⟩ := deleteFromQueue_nodup t.inQueue (p ++ s) n (h _).1
    rw [h1]
    exact ⟨_, rfl⟩
  | _ => exact ⟨_, rfl⟩

theorem GetQueue_subset (t : kafkaTopicCache) (p s n : String) (h : n ∈ GetQueue t p s) :
    n ∈ sliceIndex t.inQueue (p ++ s) := by
  unfold GetQueue at h
  split at h
  · exact List.mem_of_mem_take h
  · exact h

theorem cacheStoredAndQueued_reachable : Reachable cacheStoredAndQueued :=
  Reachable.step (Call.StoreByProjectAndServiceName "p" "s" [topicRecord "a" "ACTIVE"])
    (Reachable.step (Call.AddToQueue "p" "s" "b")
      (Reachable.step (Call.AddToQueue "p" "s" "a") Reachable.init rfl) rfl)
    (by decide)

theorem enqueue_all (p s : String) (names : List String) :
    ∀ t : kafkaTopicCache, names.Nodup →
      (∀ n, n ∈ names → n ∉ sliceIndex t.inQueue (p ++ s) ∧ stored t (p ++ s) n = none) →
      sliceIndex (names.foldl (fun c n => AddToQueue c p s n) t).inQueue (p ++ s)
        = sliceIndex t.inQueue (p ++ s) ++ names := by
  induction names with
  | nil => intro t _ _; simp
  | cons a rest ih =>
    intro t hnd hnew
    obtain ⟨ha, hrest⟩ := List.nodup_cons.mp hnd
    obtain ⟨h1, h2⟩ := hnew a (List.mem_cons_self a rest)
    rw [List.foldl_cons, ih (AddToQueue t p s a) hrest]
    · rw [AddToQueue_of_new t p s a h1 h2]
      simp [sliceIndex_mapAssign]
    · intro n hn
      rw [AddToQueue_of_new t p s a h1 h2]
      obtain ⟨h3, h4⟩ := hnew n (List.mem_cons_of_mem a hn)
      constructor
      · simp only [sliceIndex_mapAssign, if_true]
        intro hm
        rcases List.mem_append.mp hm with hm | hm
        · exact h3 hm
        · exact ha (List.mem_singleton.mp hm ▸ hn)
      · exact h4

/-! ## The missing list and the pending queue -/

theorem reachable_of_guarded (t : kafkaTopicCache) (h : ReachableGuarded t) : Reachable t := by
  induction h with
  | init => exact Reachable.init
  | step c _ _ hrun ih => exact Reachable.step c ih hrun

theorem MissingInv_flushKey (c : kafkaTopicCache) (k0 : String) (h : MissingInv c) :
    MissingInv (flushKey c k0) := by
  intro key n hn
  rw [flushKey_missing] at hn
  rw [flushKey_queue]
  split
  · simp
  · next hk =>
    rw [if_neg hk] at hn
    exact h key n hn

theorem MissingInv_run (c : Call) (t t' : kafkaTopicCache) (hq : QueueInv t)
    (h : MissingInv t) (hg : c.respectsMissing t = true) (hrun : c.run t = some t') :
    MissingInv t' := by
  cases c with
  | LoadByProjectAndServiceName p s => cases hrun; exact h
  | LoadByTopicName p s n => cases hrun; exact h
  | GetMissing p s => cases hrun; exact h
  | GetQueue p s => cases hrun; exact h
  | GetV1List p s => cases hrun; exact h
  | DeleteByProjectAndServiceName p s => cases hrun; exact h
  | StoreByProjectAndServiceName p s list =>
    simp only [Call.run, StoreByProjectAndServiceName] at hrun
    split at hrun
    · cases hrun; exact h
    · obtain ⟨t2, b1, b2, _, _, b5, _⟩ := storeFold_spec (p ++ s) list t (hq _).1
      rw [b1] at hrun
      cases hrun
      intro key n hn
      rw [b5] at hn
      rw [b2 key]
      split
      · next e =>
        subst e
        intro hm
        have hm' : n ∈ sliceIndex t.inQueue (p ++ s) := List.mem_of_mem_filter hm
        exact h _ n hn hm'
      · exact h key n hn
  | AddToQueue p s n =>
    cases hrun
    have hg' : n ∉ sliceIndex t.missing (p ++ s) := by
      simpa [Call.respectsMissing, GetMissing] using hg
    by_cases hk : n ∈ sliceIndex t.inQueue (p ++ s) ∨ (stored t (p ++ s) n).isSome = true
    · simp only [Call.run] at *
      rw [AddToQueue_of_known t p s n hk]
      exact h
    · have h1 : n ∉ sliceIndex t.inQueue (p ++ s) := fun e => hk (Or.inl e)
      have h2 : stored t (p ++ s) n = none := by
        cases hs : stored t (p ++ s) n with
        | none => rfl
        | some r => exact absurd (Or.inr (by simp [hs])) hk
      rw [AddToQueue_of_new t p s n h1 h2]
      intro key m hm
      simp only [sliceIndex_mapAssign]
      split
      · next e =>
        subst e
        intro hm'
        rcases List.mem_append.mp hm' with hm' | hm'
        · exact h _ m hm hm'
        · exact hg' (List.mem_singleton.mp hm' ▸ hm)
      · exact h key m hm
  | DeleteFromQueueAndMarkMissing p s n =>
    simp only [Call.run, DeleteFromQueueAndMarkMissing] at hrun
    obtain ⟨m', h1, h2⟩ := deleteFromQueue_nodup t.inQueue (p ++ s) n (hq _).1
    rw [h1] at hrun
    cases hrun
    intro key m hm
    simp only [sliceIndex_mapAssign] at hm
    simp only [h2 key]
    split
    · next e =>
      subst e
      rw [if_pos rfl] at hm
      intro hm'
      obtain ⟨hm1, hm2⟩ := (mem_without n m _).mp hm'
      rcases List.mem_append.mp hm with hm | hm
      · exact h _ m hm hm1
      · exact hm2 (List.mem_singleton.mp hm)
    · next hk =>
      rw [if_neg hk] at hm
      exact h key m hm
  | FlushTopicCache =>
    cases hrun
    exact flush_preserves MissingInv MissingInv_flushKey _ t h
  | SetV1List p s list =>
    cases hrun
    obtain ⟨_, a2, a3, _⟩ := SetV1List_fields list p s t
    intro key n hn
    rw [a3] at hn
    rw [a2]
    exact h key n hn

theorem MissingInv_of_guarded (t : kafkaTopicCache) (h : ReachableGuarded t) :
    MissingInv t := by
  induction h with
  | init =>
    intro key n hn
    simp [initTopicCache, sliceIndex, mapIndex] at hn
  | step c hreach hg hrun ih =>
    exact MissingInv_run c _ _ (QueueInv_of_reachable _ (reachable_of_guarded _ hreach))
      ih hg hrun

theorem cacheMissingAndQueued_reachable : Reachable cacheMissingAndQueued :=
  Reachable.step (Call.AddToQueue "p" "s" "t")
    (Reachable.step (Call.DeleteFromQueueAndMarkMissing "p" "s" "t") Reachable.init rfl)
    (by decide)

theorem cacheWithoutStoredTopic_reachable : Reachable cacheWithoutStoredTopic := by
  have h1 : Reachable (SetV1List initTopicCache "p" "s" [{ State := "ACTIVE", TopicName := "a" }]) :=
    Reachable.step (Call.SetV1List "p" "s" [{ State := "ACTIVE", TopicName := "a" }])
      Reachable.init rfl
  have h2 : Reachable (AddToQueue
      (SetV1List initTopicCache "p" "s" [{ State := "ACTIVE", TopicName := "a" }])
      "p" "s" "t") :=
    Reachable.step (Call.AddToQueue "p" "s" "t") h1 rfl
  exact Reachable.step (Call.DeleteFromQueueAndMarkMissing "p" "s" "gone") h2 (by decide)

theorem cacheStoredAndQueued_guarded : ReachableGuarded cacheStoredAndQueued := by
  have h1 : ReachableGuarded (AddToQueue initTopicCache "p" "s" "a") :=
    ReachableGuarded.step (Call.AddToQueue "p" "s" "a") ReachableGuarded.init (by decide) rfl
  have h2 : ReachableGuarded (AddToQueue (AddToQueue initTopicCache "p" "s" "a") "p" "s" "b") :=
    ReachableGuarded.step (Call.AddToQueue "p" "s" "b") h1 (by decide) rfl
  exact ReachableGuarded.step
    (Call.StoreByProjectAndServiceName "p" "s" [topicRecord "a" "ACTIVE"]) h2 rfl (by decide)

theorem cacheMarkedAndQueued_guarded : ReachableGuarded cacheMarkedAndQueued := by
  have h1 : ReachableGuarded (AddToQueue initTopicCache "p" "s" "a") :=
    ReachableGuarded.step (Call.AddToQueue "p" "s" "a") ReachableGuarded.init (by decide) rfl
  have h2 : ReachableGuarded (AddToQueue (AddToQueue initTopicCache "p" "s" "a") "p" "s" "b") :=
    ReachableGuarded.step (Call.AddToQueue "p" "s" "b") h1 (by decide) rfl
  have h3 : ReachableGuarded
      { internal := [], inQueue := [("ps", ["b"])], missing := [("ps", ["a"])], v1list := [] } :=
    ReachableGuarded.step (Call.DeleteFromQueueAndMarkMissing "p" "s" "a") h2 (by decide)
      (by decide)
  exact ReachableGuarded.step (Call.AddToQueue "p" "s" "c") h3 (by decide) (by decide)

/-! ## Calls on another key -/

theorem sameAt_refl (k : String) (t : kafkaTopicCache) : sameAt k t t :=
  ⟨rfl, rfl, rfl, rfl⟩

theorem sameAt_trans (k : String) (t1 t2 t3 : kafkaTopicCache) (h1 : sameAt k t1 t2)
    (h2 : sameAt k t2 t3) : sameAt k t1 t3 :=
  ⟨h2.1.trans h1.1, h2.2.1.trans h1.2.1, h2.2.2.1.trans h1.2.2.1, h2.2.2.2.trans h1.2.2.2⟩

theorem sliceIndex_deleteFromQueue_frame (m m' : GoMap (List String)) (key x : String)
    (h : deleteFromQueue m key x = some m') (k : String) (hk : key ≠ k) :
    sliceIndex m' k = sliceIndex m k := by
  unfold sliceIndex
  rw [deleteFromQueue_frame m m' key x h k hk]

theorem storeOne_frame (key : String) (t t' : kafkaTopicCache) (topic : KafkaTopic)
    (h : storeOne key t topic = some t') (k : String) (hk : key ≠ k) : sameAt k t t' := by
  unfold storeOne at h
  cases hd : deleteFromQueue t.inQueue key topic.TopicName with
  | none => rw [hd] at h; cases h
  | some q =>
    rw [hd] at h
    cases h
    refine ⟨?_, sliceIndex_deleteFromQueue_frame _ _ _ _ hd k hk, rfl, rfl⟩
    simp only [mapIndex_mapAssign, if_neg hk]

theorem storeFold_frame (key : String) (list : List KafkaTopic) (k : String) (hk : key ≠ k) :
    ∀ t t' : kafkaTopicCache, list.foldlM (storeOne key) t = some t' → sameAt k t t' := by
  induction list with
  | nil =>
    intro t t' h
    cases h
    exact sameAt_refl k t
  | cons x rest ih =>
    intro t t' h
    rw [List.foldlM_cons] at h
    cases h1 : storeOne key t x with
    | none => rw [h1] at h; cases h
    | some t1 =>
      rw [h1] at h
      exact sameAt_trans k t t1 t' (storeOne_frame key t t1 x h1 k hk) (ih t1 t' h)

theorem writeAt_frame (p s : String) (c : Call) (hw : WriteAt p s c) (k : String)
    (hk : p ++ s ≠ k) (t t' : kafkaTopicCache) (hrun : c.run t = some t') : sameAt k t t' := by
  cases hw with
  | store list =>
    simp only [Call.run, StoreByProjectAndServiceName] at hrun
    split at hrun
    · cases hrun; exact sameAt_refl k t
    · exact storeFold_frame (p ++ s) list k hk t t' hrun
  | enqueue n =>
    cases hrun
    unfold AddToQueue
    split
    · refine ⟨rfl, ?_, rfl, rfl⟩
      simp only [sliceIndex_mapAssign, if_neg hk]
    · exact sameAt_refl k t
  | markMissing n =>
    simp only [Call.run, DeleteFromQueueAndMarkMissing] at hrun
    cases hd : deleteFromQueue t.inQueue (p ++ s) n with
    | none => rw [hd] at hrun; cases hrun
    | some q =>
      rw [hd] at hrun
      cases hrun
      refine ⟨rfl, sliceIndex_deleteFromQueue_frame _ _ _ _ hd k hk, ?_, rfl⟩
      simp only [sliceIndex_mapAssign, if_neg hk]
  | setV1List list =>
    cases hrun
    obtain ⟨a1, a2, a3, a4⟩ := SetV1List_fields list p s t
    refine ⟨by rw [a1], by rw [a2], by rw [a3], ?_⟩
    rw [a4 k, if_neg hk]
  | delete =>
    cases hrun
    refine ⟨?_, rfl, rfl, rfl⟩
    simp only [DeleteByProjectAndServiceName, mapIndex_mapDelete, if_neg hk]

theorem reads_of_sameAt (p s : String) (t t' : kafkaTopicCache) (h : sameAt (p ++ s) t t') :
    LoadByProjectAndServiceName t' p s = LoadByProjectAndServiceName t p s ∧
    (∀ n, LoadByTopicName t' p s n = LoadByTopicName t p s n) ∧
    GetQueue t' p s = GetQueue t p s ∧
    GetMissing t' p s = GetMissing t p s ∧
    GetV1List t' p s = GetV1List t p s := by
  obtain ⟨h1, h2, h3, h4⟩ := h
  refine ⟨?_, ?_, ?_, ?_, ?_⟩
  · unfold LoadByProjectAndServiceName; rw [h1]
  · intro n; unfold LoadByTopicName; rw [h1]
  · unfold GetQueue; rw [h2]
  · unfold GetMissing; rw [h3]
  · unfold GetV1List; rw [h4]

/-! ## Facts about the constructor of the waiter -/

theorem wrapInt_eq_zero_iff (n : Int) : wrapInt n = 0 ↔ n % 18446744073709551616 = 0 := by
  unfold wrapInt
  omega

theorem wrapInt_of_small (n : Int) (h0 : 0 ≤ n) (h : n < 9223372036854775808) :
    wrapInt n = n := by
  unfold wrapInt
  omega

theorem utf8ByteSize_go_replicate (n : Nat) :
    String.utf8ByteSize.go (List.replicate n 'a') = n := by
  induction n with
  | zero => rfl
  | succ n ih =>
    rw [List.replicate_succ, String.utf8ByteSize.go, ih]
    rfl

theorem len_lettersA (n : Nat) : len (lettersA n) = (n : Int) := by
  unfold len lettersA
  show ((String.utf8ByteSize.go (List.replicate n 'a') : Nat) : Int) = n
  rw [utf8ByteSize_go_replicate]

theorem len_eq_zero_iff (x : String) : len x = 0 ↔ x = "" := by
  obtain ⟨cs⟩ := x
  unfold len
  show ((String.utf8ByteSize.go cs : Nat) : Int) = 0 ↔ _
  cases cs with
  | nil => simp [String.utf8ByteSize.go]
  | cons c cs =>
    have := Char.utf8Size_pos c
    constructor
    · intro h
      rw [String.utf8ByteSize.go] at h
      omega
    · intro h
      have : (c :: cs) = [] := congrArg String.data h
      cases this

theorem len_nonneg (x : String) : 0 ≤ len x := by
  unfold len
  omega

theorem lettersA_injective : Function.Injective lettersA := by
  intro n m h
  have := congrArg len h
  rw [len_lettersA, len_lettersA] at this
  exact Int.ofNat.inj this

theorem names150_nodup : names150.Nodup :=
  List.Nodup.map lettersA_injective (List.nodup_range 150)

/-! ## The refresh cycle -/

theorem keepsStored_refl (t : kafkaTopicCache) : keepsStored t t :=
  fun _ _ h => h

theorem keepsStored_trans (t1 t2 t3 : kafkaTopicCache) (h1 : keepsStored t1 t2)
    (h2 : keepsStored t2 t3) : keepsStored t1 t3 :=
  fun k n h => h2 k n (h1 k n h)

theorem keepsStored_of_internal (t t' : kafkaTopicCache) (h : t'.internal = t.internal) :
    keepsStored t t' := by
  intro k n hs
  unfold stored at *
  rw [h]
  exact hs

theorem markMissingShared_fields (t t' : kafkaTopicCache) (p s x : String)
    (arr arr' : List String)
    (h : DeleteFromQueueAndMarkMissingShared t p s x arr = some (t', arr')) :
    t'.internal = t.internal ∧ t'.v1list = t.v1list := by
  unfold DeleteFromQueueAndMarkMissingShared at h
  cases hd : deleteFromQueueShared t.inQueue (p ++ s) x arr with
  | none => rw [hd] at h; cases h
  | some r =>
    obtain ⟨q, a1⟩ := r
    rw [hd] at h
    cases h
    exact ⟨rfl, rfl⟩

theorem reconcileLoop_fields (p s : String) (todo : Nat) :
    ∀ (i : Nat) (t : kafkaTopicCache) (arr : List String) (t' : kafkaTopicCache)
      (arr' : List String),
      reconcileLoop p s todo i t arr = some (t', arr') →
      t'.internal = t.internal ∧ t'.v1list = t.v1list := by
  induction todo with
  | zero =>
    intro i t arr t' arr' h
    simp only [reconcileLoop, Option.some.injEq, Prod.mk.injEq] at h
    rw [← h.1]
    exact ⟨rfl, rfl⟩
  | succ todo ih =>
    intro i t arr t' arr' h
    rw [reconcileLoop] at h
    cases hg : arr[i]? with
    | none => rw [hg] at h; cases h
    | some name =>
      rw [hg] at h
      simp only at h
      split at h
      · exact ih (i + 1) t arr t' arr' h
      · cases hm : DeleteFromQueueAndMarkMissingShared t p s name arr with
        | none => rw [hm] at h; cases h
        | some r =>
          obtain ⟨t1, a1⟩ := r
          rw [hm] at h
          obtain ⟨e1, e2⟩ := markMissingShared_fields t t1 p s name arr a1 hm
          obtain ⟨e3, e4⟩ := ih (i + 1) t1 a1 t' arr' h
          exact ⟨e3.trans e1, e4.trans e2⟩

theorem markMissingShared_of_inv (t : kafkaTopicCache) (p s x : String) (arr : List String)
    (hinv : QueueInv t)
    (hpre : arr.take (sliceIndex t.inQueue (p ++ s)).length = sliceIndex t.inQueue (p ++ s)) :
    ∃ t' arr', DeleteFromQueueAndMarkMissingShared t p s x arr = some (t', arr') ∧
      DeleteFromQueueAndMarkMissing t p s x = some t' ∧
      arr'.length = arr.length ∧
      arr'.take (sliceIndex t'.inQueue (p ++ s)).length = sliceIndex t'.inQueue (p ++ s) := by
  obtain ⟨m', a1, h1, h2, h3, h4, _⟩ :=
    deleteFromQueueShared_of_nodup t.inQueue (p ++ s) x arr (hinv _).1 hpre
  refine ⟨{ t with
      inQueue := m',
      missing := mapAssign t.missing (p ++ s) (sliceIndex t.missing (p ++ s) ++ [x]) },
    a1, ?_, ?_, h3, h4⟩
  · simp [DeleteFromQueueAndMarkMissingShared, h1]
  · simp [DeleteFromQueueAndMarkMissing, h2]

theorem reconcileLoop_of_inv (p s : String) (todo : Nat) :
    ∀ (i : Nat) (t : kafkaTopicCache) (arr : List String),
      QueueInv t →
      arr.take (sliceIndex t.inQueue (p ++ s)).length = sliceIndex t.inQueue (p ++ s) →
      i + todo ≤ arr.length →
      ∃ t' arr', reconcileLoop p s todo i t arr = some (t', arr') ∧ QueueInv t' := by
  induction todo with
  | zero =>
    intro i t arr hinv _ _
    exact ⟨t, arr, rfl, hinv⟩
  | succ todo ih =>
    intro i t arr hinv hpre hlen
    have hi : i < arr.length := by omega
    rw [reconcileLoop, List.getElem?_eq_getElem hi]
    simp only
    split
    · exact ih (i + 1) t arr hinv hpre (by omega)
    · obtain ⟨t1, a1, h1, h2, h3, h4⟩ := markMissingShared_of_inv t p s arr[i] arr hinv hpre
      rw [h1]
      have hinv1 : QueueInv t1 :=
        QueueInv_run (Call.DeleteFromQueueAndMarkMissing p s arr[i]) t t1 hinv h2
      exact ih (i + 1) t1 a1 hinv1 h4 (by omega)

theorem reconcile_fields (t t' : kafkaTopicCache) (p s : String) (queue : List String)
    (h : reconcile t p s queue = some t') :
    t'.internal = t.internal ∧ t'.v1list = t.v1list := by
  unfold reconcile at h
  cases hr : reconcileLoop p s queue.length 0 t (sliceIndex t.inQueue (p ++ s)) with
  | none => rw [hr] at h; cases h
  | some r =>
    obtain ⟨t1, a1⟩ := r
    rw [hr] at h
    cases h
    exact reconcileLoop_fields p s queue.length 0 t _ t1 a1 hr

theorem GetQueue_length_le (t : kafkaTopicCache) (p s : String) :
    (GetQueue t p s).length ≤ (sliceIndex t.inQueue (p ++ s)).length := by
  unfold GetQueue
  split
  · rw [List.length_take]
    omega
  · exact le_refl _

theorem reconcile_of_inv (t : kafkaTopicCache) (p s : String) (hinv : QueueInv t) :
    ∃ t', reconcile t p s (GetQueue t p s) = some t' ∧ QueueInv t' := by
  obtain ⟨t1, a1, h1, h2⟩ := reconcileLoop_of_inv p s (GetQueue t p s).length 0 t
    (sliceIndex t.inQueue (p ++ s)) hinv (List.take_length _)
    (by have := GetQueue_length_le t p s; omega)
  refine ⟨t1, ?_, h2⟩
  unfold reconcile
  rw [h1]
  rfl

theorem storeOne_stored (key : String) (t t' : kafkaTopicCache) (topic : KafkaTopic)
    (h : storeOne key t topic = some t') :
    keepsStored t t' ∧ (stored t' key topic.TopicName).isSome = true := by
  unfold storeOne at h
  cases hd : deleteFromQueue t.inQueue key topic.TopicName with
  | none => rw [hd] at h; cases h
  | some q =>
    rw [hd] at h
    cases h
    constructor
    · intro k n hs
      unfold stored at *
      simp only [mapIndex_mapAssign]
      by_cases hk : key = k
      · subst hk
        simp only [if_true, Option.bind]
        rw [mapIndex_mapAssign]
        by_cases hn : topic.TopicName = n
        · rw [if_pos hn]
          rfl
        · rw [if_neg hn]
          cases hm : mapIndex t.internal key with
          | none => rw [hm] at hs; cases hs
          | some inner =>
            rw [hm] at hs
            exact hs
      · rw [if_neg hk]
        exact hs
    · simp [stored, mapIndex_mapAssign]

theorem storeFold_stored (key : String) (list : List KafkaTopic) :
    ∀ t t' : kafkaTopicCache, list.foldlM (storeOne key) t = some t' →
      keepsStored t t' ∧
      ∀ topic, topic ∈ list → (stored t' key topic.TopicName).isSome = true := by
  induction list with
  | nil =>
    intro t t' h
    cases h
    exact ⟨keepsStored_refl t, by simp⟩
  | cons x rest ih =>
    intro t t' h
    rw [List.foldlM_cons] at h
    cases h1 : storeOne key t x with
    | none => rw [h1] at h; cases h
    | some t1 =>
      rw [h1] at h
      obtain ⟨a1, a2⟩ := storeOne_stored key t t1 x h1
      obtain ⟨b1, b2⟩ := ih t1 t' h
      refine ⟨keepsStored_trans t t1 t' a1 b1, ?_⟩
      intro topic hmem
      rcases List.mem_cons.mp hmem with e | e
      · subst e
        exact b1 _ _ a2
      · exact b2 topic e

theorem Store_stored (t t' : kafkaTopicCache) (p s : String) (list : List KafkaTopic)
    (h : StoreByProjectAndServiceName t p s list = some t') :
    keepsStored t t' ∧
    ∀ topic, topic ∈ list → (LoadByTopicName t' p s topic.TopicName).2 = true := by
  unfold StoreByProjectAndServiceName at h
  split at h
  · next hl =>
    cases h
    have : list = [] := List.length_eq_zero.mp hl
    subst this
    exact ⟨keepsStored_refl t, by simp⟩
  · obtain ⟨a1, a2⟩ := storeFold_stored (p ++ s) list t t' h
    refine ⟨a1, ?_⟩
    intro topic hmem
    rw [LoadByTopicName_found_iff]
    exact a2 topic hmem

theorem refreshIteration_error {σ : Type}
    (waiter : kafkaTopicAvailabilityWaiter (aivenClient σ)) (w : World σ)
    (err : ClientError) (backend' : σ)
    (hq : GetQueue w.cache waiter.Project waiter.ServiceName ≠ [])
    (hv : waiter.Client.KafkaTopicsV2List w.backend waiter.Project waiter.ServiceName
        (GetQueue w.cache waiter.Project waiter.ServiceName) = (Except.error err, backend'))
    (hnf : IsNotFound err = false) :
    refreshIteration waiter w
      = LoopStep.exit (some err)
          { w with
            backend := backend',
            calls := w.calls ++ [ApiCall.KafkaTopicsV2List waiter.Project waiter.ServiceName
              (GetQueue w.cache waiter.Project waiter.ServiceName)] } := by
  unfold refreshIteration
  rw [if_neg (by simpa using hq), hv]
  simp [hnf]

theorem refreshIteration_notFound {σ : Type}
    (waiter : kafkaTopicAvailabilityWaiter (aivenClient σ)) (w : World σ)
    (err : ClientError) (backend' : σ)
    (hq : GetQueue w.cache waiter.Project waiter.ServiceName ≠ [])
    (hv : waiter.Client.KafkaTopicsV2List w.backend waiter.Project waiter.ServiceName
        (GetQueue w.cache waiter.Project waiter.ServiceName) = (Except.error err, backend'))
    (hnf : IsNotFound err = true) :
    refreshIteration waiter w
      = match reconcile w.cache waiter.Project waiter.ServiceName
            (GetQueue w.cache waiter.Project waiter.ServiceName) with
        | none => LoopStep.panic
        | some cache' =>
          LoopStep.exit none
            { w with
              cache := cache', backend := backend',
              calls := w.calls ++ [ApiCall.KafkaTopicsV2List waiter.Project waiter.ServiceName
                (GetQueue w.cache waiter.Project waiter.ServiceName)] } := by
  unfold refreshIteration
  rw [if_neg (by simpa using hq), hv]
  simp [hnf]

theorem refreshIteration_ok {σ : Type}
    (waiter : kafkaTopicAvailabilityWaiter (aivenClient σ)) (w : World σ)
    (v2Topics : List KafkaTopic) (backend' : σ)
    (hq : GetQueue w.cache waiter.Project waiter.ServiceName ≠ [])
    (hv : waiter.Client.KafkaTopicsV2List w.backend waiter.Project waiter.ServiceName
        (GetQueue w.cache waiter.Project waiter.ServiceName) = (Except.ok v2Topics, backend')) :
    refreshIteration waiter w
      = match StoreByProjectAndServiceName w.cache waiter.Project waiter.ServiceName
            v2Topics with
        | none => LoopStep.panic
        | some cache' =>
          LoopStep.again
            { w with
              cache := cache', backend := backend',
              calls := w.calls ++ [ApiCall.KafkaTopicsV2List waiter.Project waiter.ServiceName
                (GetQueue w.cache waiter.Project waiter.ServiceName)] } := by
  unfold refreshIteration
  rw [if_neg (by simpa using hq), hv]

theorem refreshIteration_empty {σ : Type}
    (waiter : kafkaTopicAvailabilityWaiter (aivenClient σ)) (w : World σ)
    (hq : GetQueue w.cache waiter.Project waiter.ServiceName = []) :
    refreshIteration waiter w = LoopStep.exit none w := by
  unfold refreshIteration
  rw [if_pos (by simp [hq])]

theorem refreshIteration_keeps {σ : Type}
    (waiter : kafkaTopicAvailabilityWaiter (aivenClient σ)) (w w' : World σ)
    (h : (refreshIteration waiter w).world = some w') : keepsStored w.cache w'.cache := by
  by_cases hq : GetQueue w.cache waiter.Project waiter.ServiceName = []
  · rw [refreshIteration_empty waiter w hq] at h
    cases h
    exact keepsStored_refl _
  · cases hv : waiter.Client.KafkaTopicsV2List w.backend waiter.Project waiter.ServiceName
        (GetQueue w.cache waiter.Project waiter.ServiceName) with
    | mk resp backend' =>
      cases resp with
      | error err =>
        cases hnf : IsNotFound err with
        | false =>
          rw [refreshIteration_error waiter w err backend' hq hv hnf] at h
          cases h
          exact keepsStored_refl _
        | true =>
          rw [refreshIteration_notFound waiter w err backend' hq hv hnf] at h
          cases hr : reconcile w.cache waiter.Project waiter.ServiceName
              (GetQueue w.cache waiter.Project waiter.ServiceName) with
          | none => rw [hr] at h; cases h
          | some cache' =>
            rw [hr] at h
            cases h
            exact keepsStored_of_internal _ _ (reconcile_fields _ _ _ _ _ hr).1
      | ok v2Topics =>
        rw [refreshIteration_ok waiter w v2Topics backend' hq hv] at h
        cases hst : StoreByProjectAndServiceName w.cache waiter.Project waiter.ServiceName
            v2Topics with
        | none => rw [hst] at h; cases h
        | some cache' =>
          rw [hst] at h
          cases h
          exact (Store_stored _ _ _ _ _ hst).1

theorem refreshIteration_of_inv {σ : Type}
    (waiter : kafkaTopicAvailabilityWaiter (aivenClient σ)) (w : World σ)
    (hinv : QueueInv w.cache) :
    ∃ w', (refreshIteration waiter w).world = some w' ∧ QueueInv w'.cache := by
  by_cases hq : GetQueue w.cache waiter.Project waiter.ServiceName = []
  · rw [refreshIteration_empty waiter w hq]
    exact ⟨w, rfl, hinv⟩
  · cases hv : waiter.Client.KafkaTopicsV2List w.backend waiter.Project waiter.ServiceName
        (GetQueue w.cache waiter.Project waiter.ServiceName) with
    | mk resp backend' =>
      cases resp with
      | error err =>
        cases hnf : IsNotFound err with
        | false =>
          rw [refreshIteration_error waiter w err backend' hq hv hnf]
          exact ⟨_, rfl, hinv⟩
        | true =>
          rw [refreshIteration_notFound waiter w err backend' hq hv hnf]
          obtain ⟨t', h1, h2⟩ := reconcile_of_inv w.cache waiter.Project waiter.ServiceName hinv
          rw [h1]
          exact ⟨_, rfl, h2⟩
      | ok v2Topics =>
        rw [refreshIteration_ok waiter w v2Topics backend' hq hv]
        obtain ⟨t', h1⟩ := run_returns
          (Call.StoreByProjectAndServiceName waiter.Project waiter.ServiceName v2Topics)
          w.cache hinv
        have h2 := QueueInv_run _ _ _ hinv h1
        simp only [Call.run] at h1
        rw [h1]
        exact ⟨_, rfl, h2⟩

theorem refreshLoop_keeps {σ : Type} (waiter : kafkaTopicAvailabilityWaiter (aivenClient σ))
    (fuel : Nat) :
    ∀ w w' : World σ, (refreshLoop waiter fuel w).world = some w' →
      keepsStored w.cache w'.cache := by
  induction fuel with
  | zero =>
    intro w w' h
    cases h
    exact keepsStored_refl _
  | succ fuel ih =>
    intro w w' h
    rw [refreshLoop] at h
    cases hstep : refreshIteration waiter w with
    | exit err w1 =>
      have hk := refreshIteration_keeps waiter w w1 (by rw [hstep]; rfl)
      rw [hstep] at h
      cases h
      exact hk
    | again w1 =>
      rw [hstep] at h
      exact keepsStored_trans _ _ _
        (refreshIteration_keeps waiter w w1 (by rw [hstep]; rfl)) (ih w1 w' h)
    | panic => rw [hstep] at h; cases h

theorem refreshLoop_of_inv {σ : Type} (waiter : kafkaTopicAvailabilityWaiter (aivenClient σ))
    (fuel : Nat) :
    ∀ w : World σ, QueueInv w.cache →
      ∃ w', (refreshLoop waiter fuel w).world = some w' ∧ QueueInv w'.cache := by
  induction fuel with
  | zero =>
    intro w hinv
    exact ⟨w, rfl, hinv⟩
  | succ fuel ih =>
    intro w hinv
    obtain ⟨w1, h1, h2⟩ := refreshIteration_of_inv waiter w hinv
    rw [refreshLoop]
    cases hstep : refreshIteration waiter w with
    | exit err w2 =>
      rw [hstep] at h1
      cases h1
      exact ⟨_, rfl, h2⟩
    | again w2 =>
      rw [hstep] at h1
      cases h1
      exact ih _ h2
    | panic => rw [hstep] at h1; cases h1

theorem releaseOnReturn_world {σ α : Type} (r : Run σ α) (w' : World σ)
    (h : (releaseOnReturn r).world = some w') :
    ∃ w1, r.world = some w1 ∧ w'.cache = w1.cache := by
  cases r with
  | returned value w1 =>
    cases h
    exact ⟨w1, rfl, rfl⟩
  | panicked => cases h
  | unfinished w1 =>
    cases h
    exact ⟨_, rfl, rfl⟩

theorem refresh_keeps {σ : Type} (waiter : kafkaTopicAvailabilityWaiter (aivenClient σ))
    (fuel : Nat) (w w' : World σ) (h : (refresh waiter fuel w).world = some w') :
    keepsStored w.cache w'.cache := by
  unfold refresh at h
  split at h
  · cases h
    exact keepsStored_refl _
  · obtain ⟨w1, h1, h2⟩ := releaseOnReturn_world _ w' h
    intro k n hs
    unfold stored
    rw [h2]
    revert hs
    split at h1
    · cases h1
      exact fun hs => hs
    · have := refreshLoop_keeps waiter fuel _ w1 h1
      intro hs
      apply this k n
      have e : (AddToQueue w.cache waiter.Project waiter.ServiceName
          waiter.TopicName).internal = w.cache.internal := by
        unfold AddToQueue
        split <;> rfl
      exact keepsStored_of_internal _ _ e k n hs

theorem refresh_of_inv {σ : Type} (waiter : kafkaTopicAvailabilityWaiter (aivenClient σ))
    (fuel : Nat) (w : World σ) (hinv : QueueInv w.cache) :
    ∃ w', (refresh waiter fuel w).world = some w' ∧ QueueInv w'.cache := by
  unfold refresh
  split
  · exact ⟨w, rfl, hinv⟩
  · split
    · exact ⟨_, rfl, hinv⟩
    · obtain ⟨w1, h1, h2⟩ := refreshLoop_of_inv waiter fuel
        { w with
          semHeld := true,
          cache := AddToQueue w.cache waiter.Project waiter.ServiceName waiter.TopicName }
        (QueueInv_AddToQueue _ _ _ _ hinv)
      cases hr : refreshLoop waiter fuel
        { w with
          semHeld := true,
          cache := AddToQueue w.cache waiter.Project waiter.ServiceName waiter.TopicName } with
      | returned value w2 =>
        rw [hr] at h1
        cases h1
        exact ⟨_, rfl, h2⟩
      | panicked => rw [hr] at h1; cases h1
      | unfinished w2 =>
        rw [hr] at h1
        cases h1
        exact ⟨_, rfl, h2⟩

theorem refreshLoop_after {σ : Type} (waiter : kafkaTopicAvailabilityWaiter (aivenClient σ))
    (n : Nat) :
    ∀ (w w0 : World σ), loopAfter waiter n w = some w0 →
      ∀ k, refreshLoop waiter (n + k) w = refreshLoop waiter k w0 := by
  induction n with
  | zero =>
    intro w w0 h k
    cases h
    rw [Nat.zero_add]
  | succ n ih =>
    intro w w0 h k
    rw [loopAfter] at h
    have e : n + 1 + k = (n + k) + 1 := by omega
    rw [e, refreshLoop]
    cases hstep : refreshIteration waiter w with
    | exit err w1 => rw [hstep] at h; cases h
    | again w1 =>
      rw [hstep] at h
      exact ih w1 w0 h k
    | panic => rw [hstep] at h; cases h

theorem loopAfter_keeps {σ : Type} (waiter : kafkaTopicAvailabilityWaiter (aivenClient σ))
    (n : Nat) :
    ∀ (w w0 : World σ), loopAfter waiter n w = some w0 → keepsStored w.cache w0.cache := by
  induction n with
  | zero =>
    intro w w0 h
    cases h
    exact keepsStored_refl _
  | succ n ih =>
    intro w w0 h
    rw [loopAfter] at h
    cases hstep : refreshIteration waiter w with
    | exit err w1 => rw [hstep] at h; cases h
    | again w1 =>
      rw [hstep] at h
      exact keepsStored_trans _ _ _
        (refreshIteration_keeps waiter w w1 (by rw [hstep]; rfl)) (ih w1 w0 h)
    | panic => rw [hstep] at h; cases h

theorem markMissing_fields (t t' : kafkaTopicCache) (p s x : String) (hinv : QueueInv t)
    (h : DeleteFromQueueAndMarkMissing t p s x = some t') :
    sliceIndex t'.inQueue (p ++ s) = without x (sliceIndex t.inQueue (p ++ s)) ∧
    sliceIndex t'.missing (p ++ s) = sliceIndex t.missing (p ++ s) ++ [x] ∧
    t'.internal = t.internal ∧ t'.v1list = t.v1list := by
  obtain ⟨m', h1, h2⟩ := deleteFromQueue_nodup t.inQueue (p ++ s) x (hinv _).1
  unfold DeleteFromQueueAndMarkMissing at h
  rw [h1] at h
  cases h
  refine ⟨?_, ?_, rfl, rfl⟩
  · rw [h2, if_pos rfl]
  · simp [sliceIndex_mapAssign]

theorem reconcileLoop_sound (p s : String) (todo : Nat) :
    ∀ (i : Nat) (t : kafkaTopicCache) (arr : List String),
      QueueInv t →
      arr.take (sliceIndex t.inQueue (p ++ s)).length = sliceIndex t.inQueue (p ++ s) →
      i + todo ≤ arr.length →
      ∃ t' arr', reconcileLoop p s todo i t arr = some (t', arr') ∧
        (∀ n, n ∈ sliceIndex t.inQueue (p ++ s) → n ∈ GetV1List t p s →
          n ∈ sliceIndex t'.inQueue (p ++ s)) ∧
        (∀ n, n ∈ sliceIndex t'.inQueue (p ++ s) → n ∈ sliceIndex t.inQueue (p ++ s)) ∧
        (∀ n, n ∈ GetMissing t' p s → n ∈ GetMissing t p s ∨ n ∉ GetV1List t p s) := by
  induction todo with
  | zero =>
    intro i t arr _ _ _
    exact ⟨t, arr, rfl, fun _ h _ => h, fun _ h => h, fun _ h => Or.inl h⟩
  | succ todo ih =>
    intro i t arr hinv hpre hlen
    have hi : i < arr.length := by omega
    rw [reconcileLoop, List.getElem?_eq_getElem hi]
    simp only
    split
    · exact ih (i + 1) t arr hinv hpre (by omega)
    · next hnot =>
      obtain ⟨t1, a1, h1, h2, h3, h4⟩ := markMissingShared_of_inv t p s arr[i] arr hinv hpre
      rw [h1]
      have hinv1 : QueueInv t1 :=
        QueueInv_run (Call.DeleteFromQueueAndMarkMissing p s arr[i]) t t1 hinv h2
      obtain ⟨f1, f2, _, f4⟩ := markMissing_fields t t1 p s arr[i] hinv h2
      have hv1 : GetV1List t1 p s = GetV1List t p s := by
        unfold GetV1List
        rw [f4]
      obtain ⟨t2, a2, g1, g2, g3, g4⟩ := ih (i + 1) t1 a1 hinv1 h4 (by omega)
      refine ⟨t2, a2, g1, ?_, ?_, ?_⟩
      · intro n hq hl
        apply g2 n
        · rw [f1, mem_without]
          refine ⟨hq, ?_⟩
          intro e
          exact hnot (e ▸ hl)
        · rw [hv1]
          exact hl
      · intro n hq
        have := g3 n hq
        rw [f1, mem_without] at this
        exact this.1
      · intro n hm
        rcases g4 n hm with hm1 | hm1
        · unfold GetMissing at hm1
          rw [f2] at hm1
          rcases List.mem_append.mp hm1 with hm2 | hm2
          · exact Or.inl hm2
          · right
            rw [List.mem_singleton.mp hm2]
            exact hnot
        · right
          rw [← hv1]
          exact hm1

/-- What the reconciliation after a 404 does on a cache whose pending queues hold no name
twice and no stored name: it returns; the stored topics and the V1 listing are unchanged;
every queued name that is in the V1 listing stays queued; no name is added to the queue; and
every name added to the missing list is absent from the V1 listing. (It need not mark every
queued name that is absent from the V1 listing.) -/
theorem reconcile_sound (t : kafkaTopicCache) (p s : String) (hinv : QueueInv t) :
    ∃ t', reconcile t p s (GetQueue t p s) = some t' ∧
      t'.internal = t.internal ∧ GetV1List t' p s = GetV1List t p s ∧
      (∀ n, n ∈ sliceIndex t.inQueue (p ++ s) → n ∈ GetV1List t p s →
        n ∈ sliceIndex t'.inQueue (p ++ s)) ∧
      (∀ n, n ∈ sliceIndex t'.inQueue (p ++ s) → n ∈ sliceIndex t.inQueue (p ++ s)) ∧
      (∀ n, n ∈ GetMissing t' p s → n ∈ GetMissing t p s ∨ n ∉ GetV1List t p s) := by
  obtain ⟨t1, a1, h1, h2, h3, h4⟩ := reconcileLoop_sound p s (GetQueue t p s).length 0 t
    (sliceIndex t.inQueue (p ++ s)) hinv (List.take_length _)
    (by have := GetQueue_length_le t p s; omega)
  have hr : reconcile t p s (GetQueue t p s) = some t1 := by
    unfold reconcile
    rw [h1]
    rfl
  obtain ⟨e1, e2⟩ := reconcile_fields t t1 p s _ hr
  refine ⟨t1, hr, e1, ?_, h2, h3, h4⟩
  unfold GetV1List
  rw [e2]

theorem cacheTwoQueued_reachable : Reachable cacheTwoQueued := by
  have h1 : Reachable (SetV1List initTopicCache "p" "s" [{ State := "ACTIVE", TopicName := "c" }]) :=
    Reachable.step (Call.SetV1List "p" "s" [{ State := "ACTIVE", TopicName := "c" }])
      Reachable.init rfl
  have h2 : Reachable (AddToQueue
      (SetV1List initTopicCache "p" "s" [{ State := "ACTIVE", TopicName := "c" }])
      "p" "s" "a") :=
    Reachable.step (Call.AddToQueue "p" "s" "a") h1 rfl
  exact Reachable.step (Call.AddToQueue "p" "s" "b") h2 (by decide)

theorem refresh_batch_error {σ : Type}
    (waiter : kafkaTopicAvailabilityWaiter (aivenClient σ)) (w1 w0 : World σ) (n : Nat)
    (err : ClientError) (backend' : σ)
    (hst : (LoadByTopicName w1.cache waiter.Project waiter.ServiceName waiter.TopicName).2
      = false)
    (hsem : w1.semHeld = false)
    (hloop : loopAfter waiter n (loopStart waiter w1) = some w0)
    (hq : GetQueue w0.cache waiter.Project waiter.ServiceName ≠ [])
    (hv : waiter.Client.KafkaTopicsV2List w0.backend waiter.Project waiter.ServiceName
        (GetQueue w0.cache waiter.Project waiter.ServiceName) = (Except.error err, backend'))
    (hnf : IsNotFound err = false) (fuel : Nat) (hfuel : n < fuel) :
    refresh waiter fuel w1
      = Run.returned (some err)
          { w0 with
            semHeld := false, backend := backend',
            calls := w0.calls ++ [ApiCall.KafkaTopicsV2List waiter.Project waiter.ServiceName
              (GetQueue w0.cache waiter.Project waiter.ServiceName)] } := by
  obtain ⟨k, rfl⟩ : ∃ k, fuel = n + (k + 1) := ⟨fuel - n - 1, by omega⟩
  unfold refresh
  rw [hsem, hst]
  simp only [Bool.false_eq_true, if_false]
  have hl := refreshLoop_after waiter n (loopStart waiter w1) w0 hloop (k + 1)
  unfold loopStart at hl
  rw [hl, refreshLoop, refreshIteration_error waiter w0 err backend' hq hv hnf]
  rfl

theorem poll_after_refresh_error {σ : Type}
    (waiter : kafkaTopicAvailabilityWaiter (aivenClient σ)) (w w1 w2 : World σ)
    (err : ClientError) (fuel : Nat)
    (hstep : v1ListStep waiter w = V1Step.ready w1)
    (hm : waiter.TopicName ∉ GetMissing w1.cache waiter.Project waiter.ServiceName)
    (hst : (LoadByTopicName w1.cache waiter.Project waiter.ServiceName waiter.TopicName).2
      = false)
    (hr : refresh waiter fuel w1 = Run.returned (some err) w2) :
    RefreshFunc waiter fuel w = Run.returned (afterRefreshError err) w2 := by
  unfold RefreshFunc
  rw [hstep]
  simp only [if_neg hm]
  cases hl : LoadByTopicName w1.cache waiter.Project waiter.ServiceName waiter.TopicName with
  | mk topic found =>
    rw [hl] at hst
    simp only at hst
    subst hst
    simp only [hr]

theorem poll_after_refresh_nil {σ : Type}
    (waiter : kafkaTopicAvailabilityWaiter (aivenClient σ)) (w w1 w2 : World σ) (fuel : Nat)
    (hstep : v1ListStep waiter w = V1Step.ready w1)
    (hm : waiter.TopicName ∉ GetMissing w1.cache waiter.Project waiter.ServiceName)
    (hst : (LoadByTopicName w1.cache waiter.Project waiter.ServiceName waiter.TopicName).2
      = false)
    (hr : refresh waiter fuel w1 = Run.returned none w2)
    (hst2 : (LoadByTopicName w2.cache waiter.Project waiter.ServiceName waiter.TopicName).2
      = false) :
    RefreshFunc waiter fuel w
      = Run.returned { result := none, state := "CONFIGURING", err := none } w2 := by
  unfold RefreshFunc
  rw [hstep]
  simp only [if_neg hm]
  cases hl : LoadByTopicName w1.cache waiter.Project waiter.ServiceName waiter.TopicName with
  | mk topic found =>
    rw [hl] at hst
    simp only at hst
    subst hst
    simp only [hr]
    cases hl2 : LoadByTopicName w2.cache waiter.Project waiter.ServiceName
        waiter.TopicName with
    | mk topic2 found2 =>
      rw [hl2] at hst2
      simp only at hst2
      subst hst2
      rfl

theorem v1ListStep_ready_fields {σ : Type}
    (waiter : kafkaTopicAvailabilityWaiter (aivenClient σ)) (w w1 : World σ)
    (h : v1ListStep waiter w = V1Step.ready w1) :
    w1.cache.internal = w.cache.internal ∧ w1.cache.inQueue = w.cache.inQueue ∧
    w1.cache.missing = w.cache.missing ∧ w1.semHeld = w.semHeld := by
  unfold v1ListStep at h
  split at h
  · cases hl : waiter.Client.KafkaTopicsList w.backend waiter.Project waiter.ServiceName with
    | mk resp backend' =>
      rw [hl] at h
      cases resp with
      | error err => cases h
      | ok list =>
        simp only [V1Step.ready.injEq] at h
        subst h
        obtain ⟨a1, a2, a3, _⟩ :=
          SetV1List_fields list waiter.Project waiter.ServiceName w.cache
        exact ⟨a1, a2, a3, rfl⟩
  · simp only [V1Step.ready.injEq] at h
    subst h
    exact ⟨rfl, rfl, rfl, rfl⟩

theorem v1ListStep_ready_reads {σ : Type}
    (waiter : kafkaTopicAvailabilityWaiter (aivenClient σ)) (w w1 : World σ)
    (h : v1ListStep waiter w = V1Step.ready w1) (p s : String) :
    GetMissing w1.cache p s = GetMissing w.cache p s ∧
    (∀ n, LoadByTopicName w1.cache p s n = LoadByTopicName w.cache p s n) := by
  obtain ⟨a1, _, a3, _⟩ := v1ListStep_ready_fields waiter w w1 h
  refine ⟨?_, ?_⟩
  · unfold GetMissing
    rw [a3]
  · intro n
    unfold LoadByTopicName
    rw [a1]

theorem poll_batch_error {σ : Type}
    (waiter : kafkaTopicAvailabilityWaiter (aivenClient σ)) (w w1 w0 : World σ) (n : Nat)
    (err : ClientError) (backend' : σ) (fuel : Nat)
    (hstep : v1ListStep waiter w = V1Step.ready w1)
    (hm : waiter.TopicName ∉ GetMissing w.cache waiter.Project waiter.ServiceName)
    (hst : (LoadByTopicName w.cache waiter.Project waiter.ServiceName waiter.TopicName).2
      = false)
    (hsem : w.semHeld = false)
    (hloop : loopAfter waiter n (loopStart waiter w1) = some w0)
    (hq : GetQueue w0.cache waiter.Project waiter.ServiceName ≠ [])
    (hv : waiter.Client.KafkaTopicsV2List w0.backend waiter.Project waiter.ServiceName
        (GetQueue w0.cache waiter.Project waiter.ServiceName) = (Except.error err, backend'))
    (hnf : IsNotFound err = false) (hfuel : n < fuel) :
    refresh waiter fuel w1
      = Run.returned (some err)
          { w0 with
            semHeld := false, backend := backend',
            calls := w0.calls ++ [ApiCall.KafkaTopicsV2List waiter.Project waiter.ServiceName
              (GetQueue w0.cache waiter.Project waiter.ServiceName)] } ∧
    RefreshFunc waiter fuel w
      = Run.returned (afterRefreshError err)
          { w0 with
            semHeld := false, backend := backend',
            calls := w0.calls ++ [ApiCall.KafkaTopicsV2List waiter.Project waiter.ServiceName
              (GetQueue w0.cache waiter.Project waiter.ServiceName)] } := by
  obtain ⟨r1, r2⟩ := v1ListStep_ready_reads waiter w w1 hstep waiter.Project waiter.ServiceName
  obtain ⟨_, _, _, r4⟩ := v1ListStep_ready_fields waiter w w1 hstep
  have hm1 : waiter.TopicName ∉ GetMissing w1.cache waiter.Project waiter.ServiceName := by
    rw [r1]; exact hm
  have hst1 : (LoadByTopicName w1.cache waiter.Project waiter.ServiceName
      waiter.TopicName).2 = false := by
    rw [r2]; exact hst
  have hr := refresh_batch_error waiter w1 w0 n err backend' hst1 (r4.trans hsem) hloop hq hv
    hnf fuel hfuel
  exact ⟨hr, poll_after_refresh_error waiter w w1 _ err fuel hstep hm1 hst1 hr⟩

theorem cacheListed_reachable : Reachable cacheListed :=
  Reachable.step (Call.SetV1List "p" "s" [{ State := "ACTIVE", TopicName := "t" }])
    Reachable.init rfl

/-- What `SetV1List` does on every cache: it appends the topic names of `list` to the V1
listing of the key; on a key whose listing is empty the listing becomes exactly those names. -/
theorem SetV1List_appends (t : kafkaTopicCache) (p s : String) (list : List KafkaListTopic) :
    GetV1List (SetV1List t p s list) p s
      = GetV1List t p s ++ list.map KafkaListTopic.TopicName ∧
    (GetV1List t p s = [] →
      GetV1List (SetV1List t p s list) p s = list.map KafkaListTopic.TopicName) := by
  have h : GetV1List (SetV1List t p s list) p s
      = GetV1List t p s ++ list.map KafkaListTopic.TopicName := by
    unfold GetV1List
    rw [(SetV1List_fields list p s t).2.2.2 (p ++ s), if_pos rfl]
  refine ⟨h, ?_⟩
  intro he
  rw [h, he, List.nil_append]

/-! ## The claims -/

/-- C1: in every cache state reachable from the freshly initialised cache by calls of the
cache methods, no topic name of a (project, service) key is both stored in the cache
(`LoadByTopicName` reports found) and present in the pending queue of that key, nor in the
list `GetQueue` returns for it. -/
theorem C1_stored_topic_not_queued (t : kafkaTopicCache) (h : Reachable t)
    (p s n : String) :
    ¬ ((LoadByTopicName t p s n).2 = true ∧ n ∈ sliceIndex t.inQueue (p ++ s)) ∧
    ¬ ((LoadByTopicName t p s n).2 = true ∧ n ∈ GetQueue t p s) := by
  have hinv := QueueInv_of_reachable t h
  have key : ¬ ((LoadByTopicName t p s n).2 = true ∧ n ∈ sliceIndex t.inQueue (p ++ s)) := by
    rintro ⟨h1, h2⟩
    rw [LoadByTopicName_found_iff, (hinv (p ++ s)).2 n h2] at h1
    simp at h1
  exact ⟨key, fun h' => key ⟨h'.1, GetQueue_subset t p s n h'.2⟩⟩

/-- Witness of C1 at the reachable cache in which `a` is stored and `b` is queued. -/
theorem C1_stored_topic_not_queued_witness :
    Reachable cacheStoredAndQueued ∧
    (LoadByTopicName cacheStoredAndQueued "p" "s" "a").2 = true ∧
    ¬ ((LoadByTopicName cacheStoredAndQueued "p" "s" "a").2 = true
        ∧ "a" ∈ sliceIndex cacheStoredAndQueued.inQueue ("p" ++ "s")) :=
  ⟨cacheStoredAndQueued_reachable, by decide,
    (C1_stored_topic_not_queued cacheStoredAndQueued cacheStoredAndQueued_reachable
      "p" "s" "a").1⟩

/-- C2: from a reachable cache, `StoreByProjectAndServiceName(project, service, batch)` with a
non-empty batch returns, and afterwards: for every topic name of the batch `LoadByTopicName`
reports found with the record of the last batch element of that name; the pending queue of
the key holds no name of the batch; and the queue is the old queue with exactly the names of
the batch taken out, the other names in their order. -/
theorem C2_store_batch (t : kafkaTopicCache) (h : Reachable t) (p s : String)
    (batch : List KafkaTopic) (hb : batch ≠ []) :
    ∃ t', StoreByProjectAndServiceName t p s batch = some t' ∧
      (∀ topic, topic ∈ batch →
        ∃ r, batch.reverse.find? (fun r => decide (r.TopicName = topic.TopicName)) = some r ∧
          LoadByTopicName t' p s topic.TopicName = (r, true)) ∧
      (∀ topic, topic ∈ batch → topic.TopicName ∉ sliceIndex t'.inQueue (p ++ s)) ∧
      sliceIndex t'.inQueue (p ++ s)
        = (sliceIndex t.inQueue (p ++ s)).filter
            (fun n => decide (n ∉ batch.map KafkaTopic.TopicName)) := by
  have hinv := QueueInv_of_reachable t h
  obtain ⟨t2, b1, b2, b3, _, _, _⟩ := storeFold_spec (p ++ s) batch t (hinv _).1
  have hq : sliceIndex t2.inQueue (p ++ s)
      = (sliceIndex t.inQueue (p ++ s)).filter
          (fun n => decide (n ∉ batch.map KafkaTopic.TopicName)) := by
    rw [b2, if_pos rfl]
    rfl
  refine ⟨t2, ?_, ?_, ?_, hq⟩
  · unfold StoreByProjectAndServiceName
    rw [if_neg (by simpa using hb)]
    exact b1
  · intro topic hmem
    cases hf : batch.reverse.find? (fun r => decide (r.TopicName = topic.TopicName)) with
    | none =>
      rw [List.find?_eq_none] at hf
      have := hf topic (List.mem_reverse.mpr hmem)
      simp at this
    | some r =>
      refine ⟨r, rfl, ?_⟩
      rw [LoadByTopicName_eq, b3, hf]
  · intro topic hmem hq'
    rw [hq] at hq'
    have := (List.mem_filter.mp hq').2
    simp only [decide_eq_true_eq] at this
    exact this (List.mem_map.mpr ⟨topic, hmem, rfl⟩)

/-- Witness of C2: a batch that stores `b` twice (CONFIGURING, then ACTIVE) into the reachable
cache in which `b` is queued. -/
theorem C2_store_batch_witness :
    Reachable cacheStoredAndQueued ∧
    [topicRecord "b" "CONFIGURING", topicRecord "b" "ACTIVE"] ≠ [] ∧
    ∃ t', StoreByProjectAndServiceName cacheStoredAndQueued "p" "s"
        [topicRecord "b" "CONFIGURING", topicRecord "b" "ACTIVE"] = some t' ∧
      LoadByTopicName t' "p" "s" "b" = (topicRecord "b" "ACTIVE", true) ∧
      sliceIndex t'.inQueue ("p" ++ "s") = [] := by
  refine ⟨cacheStoredAndQueued_reachable, by decide, ?_⟩
  obtain ⟨t', h1, h2, _, h4⟩ := C2_store_batch cacheStoredAndQueued
    cacheStoredAndQueued_reachable "p" "s"
    [topicRecord "b" "CONFIGURING", topicRecord "b" "ACTIVE"] (by decide)
  refine ⟨t', h1, ?_, ?_⟩
  · obtain ⟨r, hr, hl⟩ := h2 (topicRecord "b" "ACTIVE") (by decide)
    have : r = topicRecord "b" "ACTIVE" := by
      have e : List.find? (fun r => decide (r.TopicName = (topicRecord "b" "ACTIVE").TopicName))
          [topicRecord "b" "CONFIGURING", topicRecord "b" "ACTIVE"].reverse
          = some (topicRecord "b" "ACTIVE") := by decide
      rw [e] at hr
      exact (Option.some.inj hr).symm
    rw [this] at hl
    exact hl
  · rw [h4]
    decide

/-- C3: `AddToQueue` is idempotent on every cache state: a second call with the same arguments
changes nothing. When the topic is neither stored nor queued, the call appends the name at the
end of the pending queue, which then holds it exactly once; when the topic is stored or queued
already, the call leaves the cache (and so the queue) unchanged. -/
theorem C3_AddToQueue_idempotent (t : kafkaTopicCache) (p s n : String) :
    AddToQueue (AddToQueue t p s n) p s n = AddToQueue t p s n ∧
    (((LoadByTopicName t p s n).2 = false ∧ n ∉ sliceIndex t.inQueue (p ++ s)) →
      sliceIndex (AddToQueue t p s n).inQueue (p ++ s) = sliceIndex t.inQueue (p ++ s) ++ [n] ∧
      (sliceIndex (AddToQueue t p s n).inQueue (p ++ s)).count n = 1) ∧
    (((LoadByTopicName t p s n).2 = true ∨ n ∈ sliceIndex t.inQueue (p ++ s)) →
      AddToQueue t p s n = t) := by
  have hnew : (LoadByTopicName t p s n).2 = false → stored t (p ++ s) n = none := by
    intro h
    cases hs : stored t (p ++ s) n with
    | none => rfl
    | some r =>
      have := (LoadByTopicName_found_iff t p s n).mpr (by simp [hs])
      rw [h] at this
      cases this
  have hknown : ((LoadByTopicName t p s n).2 = true ∨ n ∈ sliceIndex t.inQueue (p ++ s)) →
      AddToQueue t p s n = t := by
    intro h
    apply AddToQueue_of_known
    rcases h with h | h
    · exact Or.inr ((LoadByTopicName_found_iff t p s n).mp h)
    · exact Or.inl h
  refine ⟨?_, ?_, hknown⟩
  · by_cases hk : (LoadByTopicName t p s n).2 = true ∨ n ∈ sliceIndex t.inQueue (p ++ s)
    · rw [hknown hk, hknown hk]
    · have h1 : n ∉ sliceIndex t.inQueue (p ++ s) := fun e => hk (Or.inr e)
      have h2 : (LoadByTopicName t p s n).2 = false := by
        cases hl : (LoadByTopicName t p s n).2 with
        | false => rfl
        | true => exact absurd (Or.inl hl) hk
      apply AddToQueue_of_known
      left
      rw [AddToQueue_of_new t p s n h1 (hnew h2)]
      simp [sliceIndex_mapAssign]
  · rintro ⟨h2, h1⟩
    rw [AddToQueue_of_new t p s n h1 (hnew h2)]
    simp only [sliceIndex_mapAssign, if_true, true_and]
    rw [List.count_append, List.count_eq_zero_of_not_mem h1]
    simp

/-- C4: on every cache state `GetQueue` returns the first `min n 99` names of the pending queue
of the key (`n` its length), in queue order, so never more than 99 names; calling it leaves
the cache as it is; and after 150 distinct names have been enqueued for one service of the
freshly initialised cache, `GetQueue` returns the first 99 of them. -/
theorem C4_GetQueue_first_99 (t : kafkaTopicCache) (p s : String) :
    GetQueue t p s
      = (sliceIndex t.inQueue (p ++ s)).take (min (sliceIndex t.inQueue (p ++ s)).length 99) ∧
    (GetQueue t p s).length ≤ 99 ∧
    (Call.GetQueue p s).run t = some t ∧
    (∀ names : List String, names.Nodup → names.length = 150 →
      GetQueue (names.foldl (fun c n => AddToQueue c p s n) initTopicCache) p s
        = names.take 99 ∧
      (GetQueue (names.foldl (fun c n => AddToQueue c p s n) initTopicCache) p s).length
        = 99) := by
  have h1 : GetQueue t p s
      = (sliceIndex t.inQueue (p ++ s)).take
          (min (sliceIndex t.inQueue (p ++ s)).length 99) := by
    unfold GetQueue
    split
    · next h => rw [Nat.min_eq_right (by omega)]
    · next h =>
      rw [Nat.min_eq_left (by omega), List.take_length]
  refine ⟨h1, ?_, rfl, ?_⟩
  · rw [h1, List.length_take]
    omega
  · intro names hnd hlen
    have hq := enqueue_all p s names initTopicCache hnd (by
      intro n _
      simp [initTopicCache, sliceIndex, mapIndex, stored])
    have hq0 : sliceIndex initTopicCache.inQueue (p ++ s) = [] := by
      simp [initTopicCache, sliceIndex, mapIndex]
    rw [hq0, List.nil_append] at hq
    have h2 : GetQueue (names.foldl (fun c n => AddToQueue c p s n) initTopicCache) p s
        = names.take 99 := by
      unfold GetQueue
      rw [hq, if_pos (by omega)]
    refine ⟨h2, ?_⟩
    rw [h2, List.length_take]
    omega

/-- Witness of C4: the 150 distinct names `names150` enqueued for the service `(p, s)` of the
freshly initialised cache; `GetQueue` returns 99 names. -/
theorem C4_GetQueue_first_99_witness :
    names150.Nodup ∧ names150.length = 150 ∧
    (GetQueue (names150.foldl (fun c n => AddToQueue c "p" "s" n) initTopicCache) "p" "s").length
      = 99 :=
  ⟨names150_nodup, by simp [names150],
    ((C4_GetQueue_first_99 initTopicCache "p" "s").2.2.2 names150 names150_nodup
      (by simp [names150])).2⟩

/-- C5: from a reachable cache `DeleteFromQueueAndMarkMissing(project, service, topic)`
returns, and afterwards the pending queue of the key does not hold the topic name, `GetMissing`
of the key holds it, the queue is the old queue with that name taken out (the other names in
their order), and `LoadByTopicName` gives what it gave before for every project, service and
topic. -/
theorem C5_mark_missing (t : kafkaTopicCache) (h : Reachable t) (p s n : String) :
    ∃ t', DeleteFromQueueAndMarkMissing t p s n = some t' ∧
      n ∉ sliceIndex t'.inQueue (p ++ s) ∧
      n ∉ GetQueue t' p s ∧
      n ∈ GetMissing t' p s ∧
      sliceIndex t'.inQueue (p ++ s)
        = (sliceIndex t.inQueue (p ++ s)).filter (fun m => decide (m ≠ n)) ∧
      (∀ p2 s2 m, LoadByTopicName t' p2 s2 m = LoadByTopicName t p2 s2 m) := by
  have hinv := QueueInv_of_reachable t h
  obtain ⟨m', h1, h2⟩ := deleteFromQueue_nodup t.inQueue (p ++ s) n (hinv _).1
  have hq : sliceIndex m' (p ++ s)
      = (sliceIndex t.inQueue (p ++ s)).filter (fun m => decide (m ≠ n)) := by
    rw [h2, if_pos rfl]
    rfl
  have hn : n ∉ sliceIndex m' (p ++ s) := by
    rw [hq]
    simp
  refine ⟨{ t with
      inQueue := m',
      missing := mapAssign t.missing (p ++ s) (sliceIndex t.missing (p ++ s) ++ [n]) },
    ?_, hn, ?_, ?_, hq, ?_⟩
  · unfold DeleteFromQueueAndMarkMissing
    rw [h1]
  · intro hm
    exact hn (GetQueue_subset _ p s n hm)
  · simp [GetMissing, sliceIndex_mapAssign]
  · intro p2 s2 m
    rfl

/-- Witness of C5: marking the queued name `b` missing in the reachable cache in which `a` is
stored and `b` is queued. -/
theorem C5_mark_missing_witness :
    Reachable cacheStoredAndQueued ∧
    ∃ t', DeleteFromQueueAndMarkMissing cacheStoredAndQueued "p" "s" "b" = some t' ∧
      "b" ∉ sliceIndex t'.inQueue ("p" ++ "s") ∧ "b" ∈ GetMissing t' "p" "s" :=
  ⟨cacheStoredAndQueued_reachable,
    (C5_mark_missing cacheStoredAndQueued cacheStoredAndQueued_reachable "p" "s" "b").imp
      (fun _ h => ⟨h.1, h.2.1, h.2.2.2.1⟩)⟩

/-- C6, as the claim states it, fails: after `DeleteFromQueueAndMarkMissing(p, s, t)` and then
`AddToQueue(p, s, t)` on the freshly initialised cache, `t` is in the missing list and in the
pending queue of the key. -/
theorem C6_missing_and_queued_counterexample :
    ¬ (∀ t : kafkaTopicCache, Reachable t → ∀ p s n : String,
        ¬ (n ∈ GetMissing t p s ∧ n ∈ sliceIndex t.inQueue (p ++ s))) := by
  intro h
  exact h cacheMissingAndQueued cacheMissingAndQueued_reachable "p" "s" "t" (by decide)

/-- C6, amended: in every cache state produced from the freshly initialised cache by calls of
the cache methods among which `AddToQueue` is never called for a name that is in the missing
list of its key at the time of the call, no topic name of a (project, service) key is both in
the missing list and in the pending queue of that key. -/
theorem C6_missing_not_queued (t : kafkaTopicCache) (h : ReachableGuarded t)
    (p s n : String) :
    ¬ (n ∈ GetMissing t p s ∧ n ∈ sliceIndex t.inQueue (p ++ s)) := by
  rintro ⟨h1, h2⟩
  exact MissingInv_of_guarded t h (p ++ s) n h1 h2

/-- Witness of the amended C6 at a cache in which a name was marked missing: after
`AddToQueue(p, s, a)`, `AddToQueue(p, s, b)`, `DeleteFromQueueAndMarkMissing(p, s, a)` and
`AddToQueue(p, s, c)` the name `a` is in the missing list, `b` and `c` are queued, the
condition on the calls rules out `AddToQueue(p, s, a)` as the next call and allows
`AddToQueue(p, s, d)`, and `a` is not both in the missing list and in the queue. -/
theorem C6_missing_not_queued_witness :
    ReachableGuarded cacheMarkedAndQueued ∧
    GetMissing cacheMarkedAndQueued "p" "s" = ["a"] ∧
    sliceIndex cacheMarkedAndQueued.inQueue ("p" ++ "s") = ["b", "c"] ∧
    (Call.AddToQueue "p" "s" "a").respectsMissing cacheMarkedAndQueued = false ∧
    (Call.AddToQueue "p" "s" "d").respectsMissing cacheMarkedAndQueued = true ∧
    ¬ ("a" ∈ GetMissing cacheMarkedAndQueued "p" "s"
        ∧ "a" ∈ sliceIndex cacheMarkedAndQueued.inQueue ("p" ++ "s")) :=
  ⟨cacheMarkedAndQueued_guarded, by decide, by decide, by decide, by decide,
    C6_missing_not_queued cacheMarkedAndQueued cacheMarkedAndQueued_guarded "p" "s" "a"⟩

/-- C7, the code at the failing input: the cache reached by `SetV1List(p, s, [a])`,
`AddToQueue(p, s, t)` and `DeleteFromQueueAndMarkMissing(p, s, gone)` has no stored topic, so
the loop of `FlushTopicCache` over the keys of `internal` runs zero times: the flushed cache
is the cache before, and `GetQueue`, `GetMissing` and `GetV1List` of the key still return
their entries, which they do not on the freshly initialised cache. -/
theorem C7_flush_skips_keys_without_stored_topic :
    Reachable cacheWithoutStoredTopic ∧
    FlushTopicCache cacheWithoutStoredTopic = cacheWithoutStoredTopic ∧
    GetQueue (FlushTopicCache cacheWithoutStoredTopic) "p" "s" = ["t"] ∧
    GetMissing (FlushTopicCache cacheWithoutStoredTopic) "p" "s" = ["gone"] ∧
    GetV1List (FlushTopicCache cacheWithoutStoredTopic) "p" "s" = ["a"] ∧
    GetQueue initTopicCache "p" "s" = [] ∧
    GetMissing initTopicCache "p" "s" = [] ∧
    GetV1List initTopicCache "p" "s" = [] :=
  ⟨cacheWithoutStoredTopic_reachable, by decide, by decide, by decide, by decide, by decide,
    by decide, by decide⟩

/-- C8: on every cache state `LoadByTopicName` returns a record with found = true exactly when
that record is stored for the topic under the key `projectName+serviceName`; when no record
is stored it returns found = false with the placeholder whose State is CONFIGURING and whose
other fields are zero values; and calling it leaves the cache as it is. -/
theorem C8_LoadByTopicName (t : kafkaTopicCache) (p s n : String) :
    (∀ r, LoadByTopicName t p s n = (r, true) ↔
      ∃ topics, mapIndex t.internal (p ++ s) = some topics ∧ mapIndex topics n = some r) ∧
    ((¬ ∃ topics r, mapIndex t.internal (p ++ s) = some topics ∧ mapIndex topics n = some r) →
      LoadByTopicName t p s n
        = ({ CleanupPolicy := "", MinimumInSyncReplicas := 0, Replication := 0,
             RetentionBytes := 0, State := "CONFIGURING", TopicName := "" }, false)) ∧
    (Call.LoadByTopicName p s n).run t = some t := by
  refine ⟨?_, ?_, rfl⟩
  · intro r
    unfold LoadByTopicName
    cases h1 : mapIndex t.internal (p ++ s) with
    | none => simp
    | some topics =>
      cases h2 : mapIndex topics n with
      | none => simp [h2]
      | some r' => simp [h2]
  · intro h
    unfold LoadByTopicName
    cases h1 : mapIndex t.internal (p ++ s) with
    | none => rfl
    | some topics =>
      cases h2 : mapIndex topics n with
      | none => simp [h2, KafkaTopic.zero]
      | some r' => exact absurd ⟨topics, r', h1, h2⟩ h

/-- C9, as the claim states it, fails: the pairs `(ab, c)` and `(a, bc)` are distinct and
share the key `abc`, so `AddToQueue(ab, c, t)` on the freshly initialised cache changes what
`GetQueue(a, bc)` returns. -/
theorem C9_distinct_pairs_share_key_counterexample :
    (("ab", "c") : String × String) ≠ ("a", "bc") ∧
    WriteAt "ab" "c" (Call.AddToQueue "ab" "c" "t") ∧
    (Call.AddToQueue "ab" "c" "t").run initTopicCache
      = some (AddToQueue initTopicCache "ab" "c" "t") ∧
    GetQueue initTopicCache "a" "bc" = [] ∧
    GetQueue (AddToQueue initTopicCache "ab" "c" "t") "a" "bc" = ["t"] :=
  ⟨by decide, WriteAt.enqueue "t", rfl, by decide, by decide⟩

/-- C9, amended: the cache is scoped by the key `projectName+serviceName`. For every two pairs
whose keys `p1 ++ s1` and `p2 ++ s2` differ, each of `StoreByProjectAndServiceName`,
`AddToQueue`, `DeleteFromQueueAndMarkMissing`, `SetV1List` and `DeleteByProjectAndServiceName`
applied to `(p1, s1)` returns on a reachable cache, and whenever it returns it leaves the
results of `LoadByProjectAndServiceName`, `LoadByTopicName`, `GetQueue`, `GetMissing` and
`GetV1List` for `(p2, s2)` unchanged. -/
theorem C9_other_key_unchanged (p1 s1 p2 s2 : String) (hk : p1 ++ s1 ≠ p2 ++ s2)
    (c : Call) (hw : WriteAt p1 s1 c) (t : kafkaTopicCache) :
    (Reachable t → ∃ t', c.run t = some t') ∧
    (∀ t', c.run t = some t' →
      LoadByProjectAndServiceName t' p2 s2 = LoadByProjectAndServiceName t p2 s2 ∧
      (∀ n, LoadByTopicName t' p2 s2 n = LoadByTopicName t p2 s2 n) ∧
      GetQueue t' p2 s2 = GetQueue t p2 s2 ∧
      GetMissing t' p2 s2 = GetMissing t p2 s2 ∧
      GetV1List t' p2 s2 = GetV1List t p2 s2) :=
  ⟨fun h => run_returns c t (QueueInv_of_reachable t h),
    fun t' hrun => reads_of_sameAt p2 s2 t t' (writeAt_frame p1 s1 c hw (p2 ++ s2) hk t t' hrun)⟩

/-- Witness of the amended C9: marking `b` missing for `(p, s)` in the reachable cache in which
`b` is queued for `(p, s)` leaves the reads for `(p, other)` as they were. -/
theorem C9_other_key_unchanged_witness :
    "p" ++ "s" ≠ "p" ++ "other" ∧
    WriteAt "p" "s" (Call.DeleteFromQueueAndMarkMissing "p" "s" "b") ∧
    (∃ t', (Call.DeleteFromQueueAndMarkMissing "p" "s" "b").run cacheStoredAndQueued = some t' ∧
      GetMissing t' "p" "other" = GetMissing cacheStoredAndQueued "p" "other") := by
  have h := C9_other_key_unchanged "p" "s" "p" "other" (by decide)
    (Call.DeleteFromQueueAndMarkMissing "p" "s" "b") (WriteAt.markMissing "b")
    cacheStoredAndQueued
  obtain ⟨t', ht'⟩ := h.1 cacheStoredAndQueued_reachable
  exact ⟨by decide, WriteAt.markMissing "b", t', ht', (h.2 t' ht').2.2.2.1⟩

/-- C10, the code at the failing input: for a project name of 2^22 bytes and a service name
and a topic name of 2^21 bytes each, none of them empty, the product of the three lengths is
2^64, which is 0 in the 64-bit `int`, and `newKafkaTopicAvailabilityWaiter` returns the
error and no waiter. -/
theorem C10_length_product_wraps_to_zero :
    lettersA 4194304 ≠ "" ∧ lettersA 2097152 ≠ "" ∧
    newKafkaTopicAvailabilityWaiter () (lettersA 4194304) (lettersA 2097152)
        (lettersA 2097152)
      = Except.error
          (waiterError.invalidInput (lettersA 4194304) (lettersA 2097152)
            (lettersA 2097152)) := by
  refine ⟨?_, ?_, ?_⟩
  · intro h
    have := (len_eq_zero_iff _).mpr h
    rw [len_lettersA] at this
    omega
  · intro h
    have := (len_eq_zero_iff _).mpr h
    rw [len_lettersA] at this
    omega
  · unfold newKafkaTopicAvailabilityWaiter
    rw [len_lettersA, len_lettersA]
    have : wrapInt (wrapInt (((4194304 : Nat) : Int) * ((2097152 : Nat) : Int))
        * ((2097152 : Nat) : Int)) = 0 := by
      unfold wrapInt
      norm_num
    rw [if_pos this]

/-- Away from the overflow the constructor does what C10 says: when the product of the three
lengths is below 2^63, it returns the error exactly when one of the three strings is empty,
and otherwise the waiter holding the three arguments. -/
theorem newKafkaTopicAvailabilityWaiter_without_overflow {C : Type} (client : C)
    (project serviceName topicName : String)
    (h : len project * len serviceName * len topicName < 9223372036854775808) :
    ((project = "" ∨ serviceName = "" ∨ topicName = "") →
      newKafkaTopicAvailabilityWaiter client project serviceName topicName
        = Except.error (waiterError.invalidInput project serviceName topicName)) ∧
    (¬ (project = "" ∨ serviceName = "" ∨ topicName = "") →
      newKafkaTopicAvailabilityWaiter client project serviceName topicName
        = Except.ok
            { Client := client, Project := project, ServiceName := serviceName,
              TopicName := topicName }) := by
  have hp := len_nonneg project
  have hs := len_nonneg serviceName
  have ht := len_nonneg topicName
  have hps : 0 ≤ len project * len serviceName := mul_nonneg hp hs
  have hzero : wrapInt (wrapInt (len project * len serviceName) * len topicName) = 0 ↔
      (project = "" ∨ serviceName = "" ∨ topicName = "") := by
    by_cases h0 : len topicName = 0
    · rw [h0, mul_zero]
      simp [wrapInt, (len_eq_zero_iff topicName).mp h0]
    · have ht1 : 1 ≤ len topicName := by omega
      have hle : len project * len serviceName ≤ len project * len serviceName * len topicName :=
        le_mul_of_one_le_right hps ht1
      rw [wrapInt_of_small _ hps (by omega),
        wrapInt_of_small _ (mul_nonneg hps ht) h]
      rw [mul_eq_zero, mul_eq_zero, len_eq_zero_iff, len_eq_zero_iff, len_eq_zero_iff, or_assoc]
  unfold newKafkaTopicAvailabilityWaiter
  constructor
  · intro he
    rw [if_pos (hzero.mpr he)]
  · intro he
    rw [if_neg (fun hz => he (hzero.mp hz))]

/-- Witness of the constructor away from the overflow: three short non-empty names. -/
theorem newKafkaTopicAvailabilityWaiter_without_overflow_witness :
    newKafkaTopicAvailabilityWaiter () "p" "s" "t"
      = Except.ok { Client := (), Project := "p", ServiceName := "s", TopicName := "t" } :=
  (newKafkaTopicAvailabilityWaiter_without_overflow () "p" "s" "t" (by decide)).2 (by decide)

/-- C11: in every state in which the cached V1 listing of the waiter's (project, service) is
not empty and the waiter's topic name is in the missing list, one poll step returns a nil
result, the state CONFIGURING and the API error with status 404, in the state it started in:
no call is made to the backend and the cache is unchanged. Nothing is assumed about the
stored topics, so this holds also when the topic is stored. -/
theorem C11_missing_topic_gives_404 {σ : Type}
    (waiter : kafkaTopicAvailabilityWaiter (aivenClient σ)) (fuel : Nat) (w : World σ)
    (hv1 : GetV1List w.cache waiter.Project waiter.ServiceName ≠ [])
    (hm : waiter.TopicName ∈ GetMissing w.cache waiter.Project waiter.ServiceName) :
    RefreshFunc waiter fuel w
      = Run.returned
          { result := none, state := "CONFIGURING",
            err := some (GoError.client
              (ClientError.api 404 ("Topic " ++ waiter.TopicName ++ " is not found"))) }
          w := by
  have hstep : v1ListStep waiter w = V1Step.ready w := by
    unfold v1ListStep
    rw [if_neg (by simpa using hv1)]
  unfold RefreshFunc
  rw [hstep]
  simp only [if_pos hm]

/-- Witness of C11: topic `a` is in the missing list and stored as well; the backend would
answer every call with a record, and is not called. -/
theorem C11_missing_topic_gives_404_witness :
    GetV1List cacheStoredAndMissing "p" "s" ≠ [] ∧
    "a" ∈ GetMissing cacheStoredAndMissing "p" "s" ∧
    (LoadByTopicName cacheStoredAndMissing "p" "s" "a").2 = true ∧
    RefreshFunc (waiterFor (constantClient (Except.ok []) (Except.ok [])) "a") 5
        (worldOf cacheStoredAndMissing)
      = Run.returned
          { result := none, state := "CONFIGURING",
            err := some (GoError.client (ClientError.api 404 "Topic a is not found")) }
          (worldOf cacheStoredAndMissing) :=
  ⟨by decide, by decide, by decide,
    C11_missing_topic_gives_404 (waiterFor (constantClient (Except.ok []) (Except.ok [])) "a")
      5 (worldOf cacheStoredAndMissing) (by decide) (by decide)⟩

/-- C12: in every state in which the cached V1 listing of the waiter's (project, service) is
not empty, the topic is not in the missing list and a record is stored for it, one poll step
returns that record, the record's State as the state, and no error, in the state it started
in: no call is made to the backend and the cache is unchanged. -/
theorem C12_stored_topic_is_reported {σ : Type}
    (waiter : kafkaTopicAvailabilityWaiter (aivenClient σ)) (fuel : Nat) (w : World σ)
    (topic : KafkaTopic)
    (hv1 : GetV1List w.cache waiter.Project waiter.ServiceName ≠ [])
    (hm : waiter.TopicName ∉ GetMissing w.cache waiter.Project waiter.ServiceName)
    (hst : LoadByTopicName w.cache waiter.Project waiter.ServiceName waiter.TopicName
      = (topic, true)) :
    RefreshFunc waiter fuel w
      = Run.returned { result := some topic, state := topic.State, err := none } w := by
  have hstep : v1ListStep waiter w = V1Step.ready w := by
    unfold v1ListStep
    rw [if_neg (by simpa using hv1)]
  unfold RefreshFunc
  rw [hstep]
  simp only [if_neg hm, hst]

/-- Witness of C12: topic `a` is stored in state ACTIVE; the backend would fail every call,
and is not called. -/
theorem C12_stored_topic_is_reported_witness :
    RefreshFunc
        (waiterFor (constantClient (Except.error (ClientError.other "down"))
          (Except.error (ClientError.other "down"))) "a") 5
        (worldOf cacheStoredAndListed)
      = Run.returned
          { result := some (topicRecord "a" "ACTIVE"), state := "ACTIVE", err := none }
          (worldOf cacheStoredAndListed) :=
  C12_stored_topic_is_reported
    (waiterFor (constantClient (Except.error (ClientError.other "down"))
      (Except.error (ClientError.other "down"))) "a") 5
    (worldOf cacheStoredAndListed) (topicRecord "a" "ACTIVE") (by decide) (by decide)
    (by decide)

/-- C13, the code at the failing input: the pending queue of `(p, s)` holds `a` and `b`, the
V1 listing is `[c]`, the waiter is for topic `c`, and the batched lookup answers 404. `refresh`
enqueues `c`, queries `[a, b, c]` and returns no error. Marking `a` missing moves `b` and `c`
one cell down in the backing array that the slice `queue` shares with the pending queue, so
the loop over `queue` reads `c` at index 1 and again at index 2 and never reads `b`: `b` is in
the queried snapshot and absent from the V1 listing, and after `refresh` it is not in the
missing list and is still in the pending queue. -/
theorem C13_reconciliation_skips_a_name :
    Reachable cacheTwoQueued ∧
    (∀ fuel : Nat,
      refresh (waiterFor (constantClient (Except.ok []) notFoundAnswer) "c") (fuel + 1)
          (worldOf cacheTwoQueued)
        = Run.returned none
            { cache :=
                { internal := [], inQueue := [("ps", ["b", "c"])],
                  missing := [("ps", ["a"])], v1list := [("ps", ["c"])] },
              semHeld := false, backend := (),
              calls := [ApiCall.KafkaTopicsV2List "p" "s" ["a", "b", "c"]] }) ∧
    "b" ∈ ["a", "b", "c"] ∧
    "b" ∉ GetV1List cacheTwoQueued "p" "s" ∧
    "b" ∉ GetMissing
      { internal := [], inQueue := [("ps", ["b", "c"])],
        missing := [("ps", ["a"])], v1list := [("ps", ["c"])] } "p" "s" ∧
    "b" ∈ GetQueue
      { internal := [], inQueue := [("ps", ["b", "c"])],
        missing := [("ps", ["a"])], v1list := [("ps", ["c"])] } "p" "s" := by
  refine ⟨cacheTwoQueued_reachable, ?_, by decide, by decide, by decide, by decide⟩
  intro fuel
  have hstep : refreshIteration (waiterFor (constantClient (Except.ok []) notFoundAnswer) "c")
      (loopStart (waiterFor (constantClient (Except.ok []) notFoundAnswer) "c")
        (worldOf cacheTwoQueued))
      = LoopStep.exit none
          { cache :=
              { internal := [], inQueue := [("ps", ["b", "c"])],
                missing := [("ps", ["a"])], v1list := [("ps", ["c"])] },
            semHeld := true, backend := (),
            calls := [ApiCall.KafkaTopicsV2List "p" "s" ["a", "b", "c"]] } := by
    decide
  have hfound : (LoadByTopicName (worldOf cacheTwoQueued).cache "p" "s" "c").2 = false := by
    decide
  unfold refresh
  have hsem : (worldOf cacheTwoQueued).semHeld = false := rfl
  rw [hsem]
  simp only [Bool.false_eq_true, if_false]
  have hw : (waiterFor (constantClient (Except.ok []) notFoundAnswer) "c").Project = "p" ∧
      (waiterFor (constantClient (Except.ok []) notFoundAnswer) "c").ServiceName = "s" ∧
      (waiterFor (constantClient (Except.ok []) notFoundAnswer) "c").TopicName = "c" :=
    ⟨rfl, rfl, rfl⟩
  rw [hw.1, hw.2.1, hw.2.2, hfound]
  simp only [Bool.false_eq_true, if_false]
  rw [refreshLoop]
  unfold loopStart at hstep
  rw [hw.1, hw.2.1, hw.2.2] at hstep
  rw [hstep]
  rfl

/-- C14: a poll step starts in state `w` with the topic neither stored nor in the missing
list and the permit free; `w1` is the state after the V1 listing step, and `w0` is the state
at the head of the loop of `refresh` after `n` stored batches. If the batched lookup made
there fails with an API error of status 501 or 502, then the poll step (allowed more than `n`
iterations) returns a nil result, the state CONFIGURING and no error. -/
theorem C14_transient_lookup_error_is_swallowed {σ : Type}
    (waiter : kafkaTopicAvailabilityWaiter (aivenClient σ)) (w w1 w0 : World σ) (n : Nat)
    (status : Int) (message : String) (backend' : σ) (fuel : Nat)
    (hstep : v1ListStep waiter w = V1Step.ready w1)
    (hm : waiter.TopicName ∉ GetMissing w.cache waiter.Project waiter.ServiceName)
    (hst : (LoadByTopicName w.cache waiter.Project waiter.ServiceName waiter.TopicName).2
      = false)
    (hsem : w.semHeld = false)
    (hloop : loopAfter waiter n (loopStart waiter w1) = some w0)
    (hq : GetQueue w0.cache waiter.Project waiter.ServiceName ≠ [])
    (hv : waiter.Client.KafkaTopicsV2List w0.backend waiter.Project waiter.ServiceName
        (GetQueue w0.cache waiter.Project waiter.ServiceName)
      = (Except.error (ClientError.api status message), backend'))
    (hstatus : status = 501 ∨ status = 502) (hfuel : n < fuel) :
    RefreshFunc waiter fuel w
      = Run.returned { result := none, state := "CONFIGURING", err := none }
          { w0 with
            semHeld := false, backend := backend',
            calls := w0.calls ++ [ApiCall.KafkaTopicsV2List waiter.Project waiter.ServiceName
              (GetQueue w0.cache waiter.Project waiter.ServiceName)] } := by
  have hnf : IsNotFound (ClientError.api status message) = false := by
    rcases hstatus with h | h <;> simp [IsNotFound, h]
  have h := (poll_batch_error waiter w w1 w0 n (ClientError.api status message) backend' fuel
    hstep hm hst hsem hloop hq hv hnf hfuel).2
  rw [h]
  simp [afterRefreshError, hstatus]

/-- Witness of C14: the first batched lookup for topic `t` fails with status 502. -/
theorem C14_transient_lookup_error_is_swallowed_witness :
    RefreshFunc
        (waiterFor (constantClient (Except.ok [])
          (Except.error (ClientError.api 502 "bad gateway"))) "t") 1
        (worldOf cacheListed)
      = Run.returned { result := none, state := "CONFIGURING", err := none }
          { cache :=
              { internal := [], inQueue := [("ps", ["t"])], missing := [],
                v1list := [("ps", ["t"])] },
            semHeld := false, backend := (),
            calls := [ApiCall.KafkaTopicsV2List "p" "s" ["t"]] } :=
  C14_transient_lookup_error_is_swallowed
    (waiterFor (constantClient (Except.ok [])
      (Except.error (ClientError.api 502 "bad gateway"))) "t")
    (worldOf cacheListed) (worldOf cacheListed)
    (loopStart (waiterFor (constantClient (Except.ok [])
      (Except.error (ClientError.api 502 "bad gateway"))) "t") (worldOf cacheListed))
    0 502 "bad gateway" () 1 (by decide) (by decide) (by decide) rfl rfl (by decide) rfl
    (Or.inr rfl) (by decide)

/-- C15, as the claim states it, fails: on the freshly initialised cache the V1 listing is
empty, the poll step calls the V1 list endpoint, the call fails with an API error of status
501, and the poll step returns that error, wrapped, instead of no error. -/
theorem C15_v1_list_error_is_returned_counterexample :
    RefreshFunc
        (waiterFor (constantClient (Except.error (ClientError.api 501 "not implemented"))
          (Except.ok [])) "t") 5
        (worldOf initTopicCache)
      = Run.returned
          { result := none, state := "CONFIGURING",
            err := some (GoError.v1ListFailed "p" "s"
              (ClientError.api 501 "not implemented")) }
          { cache := initTopicCache, semHeld := false, backend := (),
            calls := [ApiCall.KafkaTopicsList "p" "s"] } ∧
    (some (GoError.v1ListFailed "p" "s" (ClientError.api 501 "not implemented")))
      ≠ (none : Option GoError) := by
  constructor
  · decide
  · decide

/-- C15, amended: (1) when a batched lookup made during a poll step fails with an API error
of status 501 or 502, the poll step swallows it: it returns a nil result, the state
CONFIGURING and no error; (2) when the V1 listing call of a poll step fails, with any error
(an API error of status 501 or 502 included), the poll step returns a nil result, the state
CONFIGURING and that error wrapped as the V1 listing failure of the (project, service), and
makes no other call. -/
theorem C15_lookup_errors_swallowed_v1_errors_returned {σ : Type}
    (waiter : kafkaTopicAvailabilityWaiter (aivenClient σ)) :
    (∀ (w w1 w0 : World σ) (n : Nat) (status : Int) (message : String) (backend' : σ)
        (fuel : Nat),
      v1ListStep waiter w = V1Step.ready w1 →
      waiter.TopicName ∉ GetMissing w.cache waiter.Project waiter.ServiceName →
      (LoadByTopicName w.cache waiter.Project waiter.ServiceName waiter.TopicName).2 = false →
      w.semHeld = false →
      loopAfter waiter n (loopStart waiter w1) = some w0 →
      GetQueue w0.cache waiter.Project waiter.ServiceName ≠ [] →
      waiter.Client.KafkaTopicsV2List w0.backend waiter.Project waiter.ServiceName
          (GetQueue w0.cache waiter.Project waiter.ServiceName)
        = (Except.error (ClientError.api status message), backend') →
      (status = 501 ∨ status = 502) → n < fuel →
      RefreshFunc waiter fuel w
        = Run.returned { result := none, state := "CONFIGURING", err := none }
            { cache := w0.cache, semHeld := false, backend := backend',
              calls := w0.calls
                ++ [ApiCall.KafkaTopicsV2List waiter.Project waiter.ServiceName
                  (GetQueue w0.cache waiter.Project waiter.ServiceName)] }) ∧
    (∀ (w : World σ) (err : ClientError) (backend' : σ) (fuel : Nat),
      GetV1List w.cache waiter.Project waiter.ServiceName = [] →
      waiter.Client.KafkaTopicsList w.backend waiter.Project waiter.ServiceName
        = (Except.error err, backend') →
      RefreshFunc waiter fuel w
        = Run.returned
            { result := none, state := "CONFIGURING",
              err := some (GoError.v1ListFailed waiter.Project waiter.ServiceName err) }
            { w with
              backend := backend',
              calls := w.calls
                ++ [ApiCall.KafkaTopicsList waiter.Project waiter.ServiceName] }) := by
  constructor
  · intro w w1 w0 n status message backend' fuel hstep hm hst hsem hloop hq hv hstatus hfuel
    have hnf : IsNotFound (ClientError.api status message) = false := by
      rcases hstatus with h | h <;> simp [IsNotFound, h]
    have h := (poll_batch_error waiter w w1 w0 n (ClientError.api status message) backend'
      fuel hstep hm hst hsem hloop hq hv hnf hfuel).2
    rw [h]
    simp [afterRefreshError, hstatus]
  · intro w err backend' fuel hv1 hl
    have hstep : v1ListStep waiter w
        = V1Step.failed
            { result := none, state := "CONFIGURING",
              err := some (GoError.v1ListFailed waiter.Project waiter.ServiceName err) }
            { w with
              backend := backend',
              calls := w.calls
                ++ [ApiCall.KafkaTopicsList waiter.Project waiter.ServiceName] } := by
      unfold v1ListStep
      rw [if_pos (by simp [hv1]), hl]
    unfold RefreshFunc
    rw [hstep]

/-- Witness of the amended C15: a batched lookup failing with status 501 is swallowed, and a
V1 listing call failing with status 502 is returned wrapped. -/
theorem C15_lookup_errors_swallowed_v1_errors_returned_witness :
    RefreshFunc
        (waiterFor (constantClient (Except.error (ClientError.api 502 "bad gateway"))
          (Except.error (ClientError.api 501 "not implemented"))) "t") 1
        (worldOf cacheListed)
      = Run.returned { result := none, state := "CONFIGURING", err := none }
          { cache :=
              { internal := [], inQueue := [("ps", ["t"])], missing := [],
                v1list := [("ps", ["t"])] },
            semHeld := false, backend := (),
            calls := [ApiCall.KafkaTopicsV2List "p" "s" ["t"]] } ∧
    RefreshFunc
        (waiterFor (constantClient (Except.error (ClientError.api 502 "bad gateway"))
          (Except.error (ClientError.api 501 "not implemented"))) "t") 1
        (worldOf initTopicCache)
      = Run.returned
          { result := none, state := "CONFIGURING",
            err := some (GoError.v1ListFailed "p" "s" (ClientError.api 502 "bad gateway")) }
          { cache := initTopicCache, semHeld := false, backend := (),
            calls := [ApiCall.KafkaTopicsList "p" "s"] } :=
  ⟨(C15_lookup_errors_swallowed_v1_errors_returned
      (waiterFor (constantClient (Except.error (ClientError.api 502 "bad gateway"))
        (Except.error (ClientError.api 501 "not implemented"))) "t")).1
      (worldOf cacheListed) (worldOf cacheListed)
      (loopStart (waiterFor (constantClient (Except.error (ClientError.api 502 "bad gateway"))
        (Except.error (ClientError.api 501 "not implemented"))) "t") (worldOf cacheListed))
      0 501 "not implemented" () 1 (by decide) (by decide) (by decide) rfl rfl (by decide) rfl
      (Or.inl rfl) (by decide),
    (C15_lookup_errors_swallowed_v1_errors_returned
      (waiterFor (constantClient (Except.error (ClientError.api 502 "bad gateway"))
        (Except.error (ClientError.api 501 "not implemented"))) "t")).2
      (worldOf initTopicCache) (ClientError.api 502 "bad gateway") () 1 (by decide) rfl⟩

/-- C16: a poll step starts in state `w` with the topic neither stored nor in the missing
list and the permit free; `w1` is the state after the V1 listing step, and `w0` is the state
at the head of the loop of `refresh` after `n` stored batches. If the batched lookup made
there fails with an error that is not a 404 API error and not an API error of status 501 or
502, then `refresh` (allowed more than `n` iterations) returns that error, and the poll step
returns a nil result, the state CONFIGURING and that same error; both end in the state of
the failed lookup with the permit released, in which the failed lookup is the last call
made to the backend and the cache is as it was at that lookup. -/
theorem C16_other_lookup_error_is_returned {σ : Type}
    (waiter : kafkaTopicAvailabilityWaiter (aivenClient σ)) (w w1 w0 : World σ) (n : Nat)
    (err : ClientError) (backend' : σ) (fuel : Nat)
    (hstep : v1ListStep waiter w = V1Step.ready w1)
    (hm : waiter.TopicName ∉ GetMissing w.cache waiter.Project waiter.ServiceName)
    (hst : (LoadByTopicName w.cache waiter.Project waiter.ServiceName waiter.TopicName).2
      = false)
    (hsem : w.semHeld = false)
    (hloop : loopAfter waiter n (loopStart waiter w1) = some w0)
    (hq : GetQueue w0.cache waiter.Project waiter.ServiceName ≠ [])
    (hv : waiter.Client.KafkaTopicsV2List w0.backend waiter.Project waiter.ServiceName
        (GetQueue w0.cache waiter.Project waiter.ServiceName) = (Except.error err, backend'))
    (hnf : IsNotFound err = false)
    (htr : ∀ status message, err = ClientError.api status message →
      status ≠ 501 ∧ status ≠ 502)
    (hfuel : n < fuel) :
    refresh waiter fuel w1
      = Run.returned (some err)
          { cache := w0.cache, semHeld := false, backend := backend',
            calls := w0.calls ++ [ApiCall.KafkaTopicsV2List waiter.Project waiter.ServiceName
              (GetQueue w0.cache waiter.Project waiter.ServiceName)] } ∧
    RefreshFunc waiter fuel w
      = Run.returned
          { result := none, state := "CONFIGURING", err := some (GoError.client err) }
          { cache := w0.cache, semHeld := false, backend := backend',
            calls := w0.calls ++ [ApiCall.KafkaTopicsV2List waiter.Project waiter.ServiceName
              (GetQueue w0.cache waiter.Project waiter.ServiceName)] } := by
  obtain ⟨h1, h2⟩ := poll_batch_error waiter w w1 w0 n err backend' fuel hstep hm hst hsem
    hloop hq hv hnf hfuel
  refine ⟨h1, ?_⟩
  rw [h2]
  cases err with
  | other text => rfl
  | api status message =>
    obtain ⟨e1, e2⟩ := htr status message rfl
    simp [afterRefreshError, e1, e2]

/-- Witness of C16: the first batched lookup for topic `t` fails with status 500. -/
theorem C16_other_lookup_error_is_returned_witness :
    RefreshFunc
        (waiterFor (constantClient (Except.ok [])
          (Except.error (ClientError.api 500 "server error"))) "t") 1
        (worldOf cacheListed)
      = Run.returned
          { result := none, state := "CONFIGURING",
            err := some (GoError.client (ClientError.api 500 "server error")) }
          { cache :=
              { internal := [], inQueue := [("ps", ["t"])], missing := [],
                v1list := [("ps", ["t"])] },
            semHeld := false, backend := (),
            calls := [ApiCall.KafkaTopicsV2List "p" "s" ["t"]] } :=
  (C16_other_lookup_error_is_returned
    (waiterFor (constantClient (Except.ok [])
      (Except.error (ClientError.api 500 "server error"))) "t")
    (worldOf cacheListed) (worldOf cacheListed)
    (loopStart (waiterFor (constantClient (Except.ok [])
      (Except.error (ClientError.api 500 "server error"))) "t") (worldOf cacheListed))
    0 (ClientError.api 500 "server error") () 1 (by decide) (by decide) (by decide) rfl rfl
    (by decide) rfl (by decide)
    (by
      intro status message h
      cases h
      exact ⟨by decide, by decide⟩)
    (by decide)).2

/-- C17, as the claim states it, fails when the holder of the permit runs during the poll
step: the waiter for `u` holds the permit at the head of its loop, the queue is `[t, u]`, and
topic `t` is polled. `t` is not in the missing list and not stored when the step checks, and
the permit is taken when the step calls `refresh`; the holder then stores the records of `t`
and `u`, and the second `LoadByTopicName` of the step finds `t`: the step returns the record
and the state ACTIVE, not a nil result and CONFIGURING. -/
theorem C17_topic_stored_before_recheck_counterexample :
    ¬ (∀ (waiter : kafkaTopicAvailabilityWaiter (aivenClient Unit)) (fuel : Nat)
        (others : Others Unit) (w w1 wa wb wc : World Unit),
        v1ListStep waiter w = V1Step.ready w1 →
        wa = others.beforeMissingCheck w1 →
        waiter.TopicName ∉ GetMissing wa.cache waiter.Project waiter.ServiceName →
        wb = others.beforeLoad wa →
        (LoadByTopicName wb.cache waiter.Project waiter.ServiceName waiter.TopicName).2
          = false →
        wc = others.beforeRefresh wb →
        wc.semHeld = true →
        ∃ w2, RefreshFuncAmong waiter fuel others w
          = Run.returned { result := none, state := "CONFIGURING", err := none } w2) := by
  intro h
  obtain ⟨w2, h2⟩ := h (waiterFor (echoClient []) "t") 5 holderIterates
    worldHolderAtLoopHead worldHolderAtLoopHead worldHolderAtLoopHead worldHolderAtLoopHead
    worldHolderAtLoopHead (by decide) rfl (by decide) rfl (by decide) rfl rfl
  have h3 : RefreshFuncAmong (waiterFor (echoClient []) "t") 5 holderIterates
      worldHolderAtLoopHead
      = Run.returned
          { result := some (topicRecord "t" "ACTIVE"), state := "ACTIVE", err := none }
          { cache :=
              { internal :=
                  [("ps", [("t", topicRecord "t" "ACTIVE"), ("u", topicRecord "u" "ACTIVE")])],
                inQueue := [("ps", [])], missing := [], v1list := [("ps", ["t", "u"])] },
            semHeld := true, backend := (),
            calls := [ApiCall.KafkaTopicsV2List "p" "s" ["t", "u"]] } := by
    decide
  rw [h3] at h2
  simp only [Run.returned.injEq] at h2
  exact absurd h2.1 (by decide)

/-- C17, amended: (1) when the permit of the refresh guard is taken, `refresh` returns no
error in the state it was entered in: it makes no call to the backend and leaves the cache
(stored topics, pending queue, missing list, V1 listing) unchanged. (2) Take a poll step run
among other goroutines whose topic is not in the missing list when the step reads the list,
not stored when the step first looks it up, and which finds the permit taken when it calls
`refresh`. The step makes no call and no change of its own, and ends in the state `wd` the
other goroutines have reached when it looks the topic up again: if the topic is still not
stored there, the step returns a nil result, the state CONFIGURING and no error; if it is
stored there, the step returns the stored record, the state of that record and no error.
(3) When no other goroutine runs during the step, the step is `RefreshFunc`, and under the
same conditions it returns a nil result, CONFIGURING and no error in the state after its V1
listing step. -/
theorem C17_held_guard_recheck {σ : Type}
    (waiter : kafkaTopicAvailabilityWaiter (aivenClient σ)) (fuel : Nat) :
    (∀ w : World σ, w.semHeld = true → refresh waiter fuel w = Run.returned none w) ∧
    (∀ (others : Others σ) (w w1 wa wb wc wd : World σ),
      v1ListStep waiter w = V1Step.ready w1 →
      wa = others.beforeMissingCheck w1 →
      waiter.TopicName ∉ GetMissing wa.cache waiter.Project waiter.ServiceName →
      wb = others.beforeLoad wa →
      (LoadByTopicName wb.cache waiter.Project waiter.ServiceName waiter.TopicName).2 = false →
      wc = others.beforeRefresh wb →
      wc.semHeld = true →
      wd = others.beforeRecheck wc →
      ((LoadByTopicName wd.cache waiter.Project waiter.ServiceName waiter.TopicName).2 = false →
        RefreshFuncAmong waiter fuel others w
          = Run.returned { result := none, state := "CONFIGURING", err := none } wd) ∧
      ((LoadByTopicName wd.cache waiter.Project waiter.ServiceName waiter.TopicName).2 = true →
        RefreshFuncAmong waiter fuel others w
          = Run.returned
              { result := some (LoadByTopicName wd.cache waiter.Project waiter.ServiceName
                  waiter.TopicName).1,
                state := (LoadByTopicName wd.cache waiter.Project waiter.ServiceName
                  waiter.TopicName).1.State,
                err := none } wd)) ∧
    (∀ w : World σ, RefreshFuncAmong waiter fuel Others.quiet w = RefreshFunc waiter fuel w) ∧
    (∀ w w1 : World σ,
      v1ListStep waiter w = V1Step.ready w1 →
      waiter.TopicName ∉ GetMissing w.cache waiter.Project waiter.ServiceName →
      (LoadByTopicName w.cache waiter.Project waiter.ServiceName waiter.TopicName).2 = false →
      w.semHeld = true →
      RefreshFunc waiter fuel w
        = Run.returned { result := none, state := "CONFIGURING", err := none } w1) := by
  have hrefresh : ∀ w : World σ, w.semHeld = true →
      refresh waiter fuel w = Run.returned none w := by
    intro w h
    unfold refresh
    rw [if_pos h]
  refine ⟨hrefresh, ?_, ?_, ?_⟩
  · intro others w w1 wa wb wc wd hstep ha hm hb hst hc hsem hd
    subst ha hb hc hd
    have hr := hrefresh _ hsem
    constructor
    · intro hst2
      unfold RefreshFuncAmong
      rw [hstep]
      simp only [if_neg hm]
      cases hl : LoadByTopicName (others.beforeLoad (others.beforeMissingCheck w1)).cache
          waiter.Project waiter.ServiceName waiter.TopicName with
      | mk topic found =>
        rw [hl] at hst
        simp only at hst
        subst hst
        simp only [hr]
        cases hl2 : LoadByTopicName (others.beforeRecheck (others.beforeRefresh
            (others.beforeLoad (others.beforeMissingCheck w1)))).cache
            waiter.Project waiter.ServiceName waiter.TopicName with
        | mk topic2 found2 =>
          rw [hl2] at hst2
          simp only at hst2
          subst hst2
          rfl
    · intro hst2
      unfold RefreshFuncAmong
      rw [hstep]
      simp only [if_neg hm]
      cases hl : LoadByTopicName (others.beforeLoad (others.beforeMissingCheck w1)).cache
          waiter.Project waiter.ServiceName waiter.TopicName with
      | mk topic found =>
        rw [hl] at hst
        simp only at hst
        subst hst
        simp only [hr]
        cases hl2 : LoadByTopicName (others.beforeRecheck (others.beforeRefresh
            (others.beforeLoad (others.beforeMissingCheck w1)))).cache
            waiter.Project waiter.ServiceName waiter.TopicName with
        | mk topic2 found2 =>
          rw [hl2] at hst2
          simp only at hst2
          subst hst2
          rfl
  · intro w
    rfl
  · intro w w1 hstep hm hst hsem
    obtain ⟨r1, r2⟩ := v1ListStep_ready_reads waiter w w1 hstep waiter.Project waiter.ServiceName
    obtain ⟨_, _, _, r4⟩ := v1ListStep_ready_fields waiter w w1 hstep
    have hm1 : waiter.TopicName ∉ GetMissing w1.cache waiter.Project waiter.ServiceName := by
      rw [r1]; exact hm
    have hst1 : (LoadByTopicName w1.cache waiter.Project waiter.ServiceName
        waiter.TopicName).2 = false := by
      rw [r2]; exact hst
    exact poll_after_refresh_nil waiter w w1 w1 fuel hstep hm1 hst1
      (hrefresh w1 (r4.trans hsem)) hst1

/-- Witness of the amended C17 at the state in which the waiter for `u` holds the permit and
topic `t` is polled. When the holder runs an iteration of its loop before the step looks `t`
up again, the step returns the record the holder stored, with the state ACTIVE; when no other
goroutine runs, it returns a nil result and CONFIGURING. The state is the one in which the
`refresh` of the waiter for `u` enters its loop when `t` is queued and the permit is free. -/
theorem C17_held_guard_recheck_witness :
    loopStart (waiterFor (echoClient []) "u")
        (worldOf
          { internal := [], inQueue := [("ps", ["t"])], missing := [],
            v1list := [("ps", ["t", "u"])] })
      = worldHolderAtLoopHead ∧
    RefreshFuncAmong (waiterFor (echoClient []) "t") 5 holderIterates worldHolderAtLoopHead
      = Run.returned
          { result := some (topicRecord "t" "ACTIVE"), state := "ACTIVE", err := none }
          (holderIterates.beforeRecheck worldHolderAtLoopHead) ∧
    (LoadByTopicName (holderIterates.beforeRecheck worldHolderAtLoopHead).cache
      "p" "s" "t").2 = true ∧
    RefreshFuncAmong (waiterFor (echoClient []) "t") 5 Others.quiet worldHolderAtLoopHead
      = Run.returned { result := none, state := "CONFIGURING", err := none }
          worldHolderAtLoopHead :=
  ⟨by decide,
    ((C17_held_guard_recheck (waiterFor (echoClient []) "t") 5).2.1 holderIterates
      worldHolderAtLoopHead worldHolderAtLoopHead worldHolderAtLoopHead worldHolderAtLoopHead
      worldHolderAtLoopHead (holderIterates.beforeRecheck worldHolderAtLoopHead)
      (by decide) rfl (by decide) rfl (by decide) rfl rfl rfl).2 (by decide),
    by decide,
    ((C17_held_guard_recheck (waiterFor (echoClient []) "t") 5).2.1 Others.quiet
      worldHolderAtLoopHead worldHolderAtLoopHead worldHolderAtLoopHead worldHolderAtLoopHead
      worldHolderAtLoopHead worldHolderAtLoopHead
      (by decide) rfl (by decide) rfl (by decide) rfl rfl rfl).1 (by decide)⟩

/-- C18: a refresh cycle never removes a stored topic, for every state, every backend and
every number of iterations allowed to the loop. (1) In whatever state `refresh` ends, by
returning with or without an error or with its loop still running, every (project, service,
topic) that `LoadByTopicName` found before is found there. (2) On a cache whose pending
queues hold no name twice and no stored name, as every reachable cache does, `refresh` does
not panic. (3) The topics of a batch stored by an iteration of the loop are found right after
that iteration and in whatever state the rest of the loop ends, also when a later lookup
fails. -/
theorem C18_refresh_keeps_stored_topics {σ : Type}
    (waiter : kafkaTopicAvailabilityWaiter (aivenClient σ)) :
    (∀ (fuel : Nat) (w w' : World σ), (refresh waiter fuel w).world = some w' →
      ∀ p s n : String, (LoadByTopicName w.cache p s n).2 = true →
        (LoadByTopicName w'.cache p s n).2 = true) ∧
    (∀ (fuel : Nat) (w : World σ), QueueInv w.cache →
      ∃ w', (refresh waiter fuel w).world = some w') ∧
    (∀ (w0 w1 : World σ) (v2Topics : List KafkaTopic) (backend' : σ),
      GetQueue w0.cache waiter.Project waiter.ServiceName ≠ [] →
      waiter.Client.KafkaTopicsV2List w0.backend waiter.Project waiter.ServiceName
          (GetQueue w0.cache waiter.Project waiter.ServiceName)
        = (Except.ok v2Topics, backend') →
      refreshIteration waiter w0 = LoopStep.again w1 →
      (∀ topic, topic ∈ v2Topics →
        (LoadByTopicName w1.cache waiter.Project waiter.ServiceName topic.TopicName).2
          = true) ∧
      (∀ (fuel : Nat) (w' : World σ), (refreshLoop waiter fuel w1).world = some w' →
        ∀ topic, topic ∈ v2Topics →
          (LoadByTopicName w'.cache waiter.Project waiter.ServiceName topic.TopicName).2
            = true)) := by
  refine ⟨?_, ?_, ?_⟩
  · intro fuel w w' h p s n hfound
    rw [LoadByTopicName_found_iff] at hfound ⊢
    exact refresh_keeps waiter fuel w w' h (p ++ s) n hfound
  · intro fuel w hinv
    obtain ⟨w', h, _⟩ := refresh_of_inv waiter fuel w hinv
    exact ⟨w', h⟩
  · intro w0 w1 v2Topics backend' hq hv hstep
    rw [refreshIteration_ok waiter w0 v2Topics backend' hq hv] at hstep
    cases hst : StoreByProjectAndServiceName w0.cache waiter.Project waiter.ServiceName
        v2Topics with
    | none => rw [hst] at hstep; cases hstep
    | some cache' =>
      rw [hst] at hstep
      simp only [LoopStep.again.injEq] at hstep
      have hc : w1.cache = cache' := by rw [← hstep]
      have hfound := (Store_stored _ _ _ _ _ hst).2
      rw [← hc] at hfound
      refine ⟨hfound, ?_⟩
      intro fuel w' hloop topic hmem
      have := hfound topic hmem
      rw [LoadByTopicName_found_iff] at this ⊢
      exact refreshLoop_keeps waiter fuel w1 w' hloop _ _ this

/-- Witness of C18: with `a` and `b` queued, `refresh` for topic `c` stores the batch of its
first lookup (the record of `a`) and its second lookup fails with status 500; `a` is found
in the state `refresh` returns the error in. -/
theorem C18_refresh_keeps_stored_topics_witness :
    refresh storeThenFailWaiter 5
        { cache := cacheTwoQueued, semHeld := false, backend := 0, calls := [] }
      = Run.returned (some (ClientError.api 500 "server error"))
          { cache :=
              { internal := [("ps", [("a", topicRecord "a" "ACTIVE")])],
                inQueue := [("ps", ["b", "c"])], missing := [], v1list := [("ps", ["c"])] },
            semHeld := false, backend := 2,
            calls := [ApiCall.KafkaTopicsV2List "p" "s" ["a", "b", "c"],
              ApiCall.KafkaTopicsV2List "p" "s" ["b", "c"]] } ∧
    (LoadByTopicName
        { internal := [("ps", [("a", topicRecord "a" "ACTIVE")])],
          inQueue := [("ps", ["b", "c"])], missing := [], v1list := [("ps", ["c"])] }
        "p" "s" "a").2 = true := by
  have hrun : refresh storeThenFailWaiter 5
        { cache := cacheTwoQueued, semHeld := false, backend := 0, calls := [] }
      = Run.returned (some (ClientError.api 500 "server error"))
          { cache :=
              { internal := [("ps", [("a", topicRecord "a" "ACTIVE")])],
                inQueue := [("ps", ["b", "c"])], missing := [], v1list := [("ps", ["c"])] },
            semHeld := false, backend := 2,
            calls := [ApiCall.KafkaTopicsV2List "p" "s" ["a", "b", "c"],
              ApiCall.KafkaTopicsV2List "p" "s" ["b", "c"]] } := by
    decide
  refine ⟨hrun, ?_⟩
  have h := (C18_refresh_keeps_stored_topics storeThenFailWaiter).2.2
    (loopStart storeThenFailWaiter
      { cache := cacheTwoQueued, semHeld := false, backend := 0, calls := [] })
    { cache :=
        { internal := [("ps", [("a", topicRecord "a" "ACTIVE")])],
          inQueue := [("ps", ["b", "c"])], missing := [], v1list := [("ps", ["c"])] },
      semHeld := true, backend := 1,
      calls := [ApiCall.KafkaTopicsV2List "p" "s" ["a", "b", "c"]] }
    [topicRecord "a" "ACTIVE"] 1 (by decide) rfl (by decide)
  exact h.2 1
    { cache :=
        { internal := [("ps", [("a", topicRecord "a" "ACTIVE")])],
          inQueue := [("ps", ["b", "c"])], missing := [], v1list := [("ps", ["c"])] },
      semHeld := true, backend := 2,
      calls := [ApiCall.KafkaTopicsV2List "p" "s" ["a", "b", "c"],
        ApiCall.KafkaTopicsV2List "p" "s" ["b", "c"]] }
    (by decide) (topicRecord "a" "ACTIVE") (by decide)

/-- C19, the code at the failing input: the V1 listing of `(p, s)` is `[t]` (the cache after
`SetV1List(p, s, [t])` on the freshly initialised cache); `SetV1List(p, s, [u])` appends, so
`GetV1List(p, s)` returns `[t, u]`, which is not the list `[u]` of the topic names of the
argument. -/
theorem C19_SetV1List_appends_to_listing :
    Reachable cacheListed ∧
    GetV1List cacheListed "p" "s" = ["t"] ∧
    GetV1List (SetV1List cacheListed "p" "s" [{ State := "ACTIVE", TopicName := "u" }])
      "p" "s" = ["t", "u"] ∧
    GetV1List (SetV1List cacheListed "p" "s" [{ State := "ACTIVE", TopicName := "u" }])
      "p" "s" ≠ [({ State := "ACTIVE", TopicName := "u" } : KafkaListTopic)].map
        KafkaListTopic.TopicName :=
  ⟨cacheListed_reachable, by decide, by decide, by decide⟩

/-- C20: for every waiter and every timeout, `Conf(timeout)` returns the configuration whose
pending states are `[CONFIGURING]`, whose target states are `[ACTIVE]`, whose timeout is the
one supplied, whose poll interval is 5 seconds (5 000 000 000 ns) and whose cap on not-found
checks is 100, with the poll step of the waiter as the function to poll; these values are the
same for every other waiter, whatever its client, project, service and topic. -/
theorem C20_Conf_values {σ : Type}
    (waiter : kafkaTopicAvailabilityWaiter (aivenClient σ)) (timeout : Int) :
    (Conf waiter timeout).Pending = ["CONFIGURING"] ∧
    (Conf waiter timeout).Target = ["ACTIVE"] ∧
    (Conf waiter timeout).Timeout = timeout ∧
    (Conf waiter timeout).PollInterval = 5 * timeSecond ∧
    (Conf waiter timeout).PollInterval = 5000000000 ∧
    (Conf waiter timeout).NotFoundChecks = 100 ∧
    (Conf waiter timeout).Refresh = RefreshFunc waiter ∧
    (∀ other : kafkaTopicAvailabilityWaiter (aivenClient σ),
      (Conf other timeout).Pending = (Conf waiter timeout).Pending ∧
      (Conf other timeout).Target = (Conf waiter timeout).Target ∧
      (Conf other timeout).Timeout = (Conf waiter timeout).Timeout ∧
      (Conf other timeout).PollInterval = (Conf waiter timeout).PollInterval ∧
      (Conf other timeout).NotFoundChecks = (Conf waiter timeout).NotFoundChecks) :=
  ⟨rfl, rfl, rfl, rfl, by simp [Conf, timeSecond], rfl, rfl,
    fun _ => ⟨rfl, rfl, rfl, rfl, rfl⟩⟩

/-! ## The V1 listing and the log of calls during a poll step -/

theorem listCalls_append (a b : List ApiCall) :
    listCalls (a ++ b) = listCalls a + listCalls b := by
  induction a with
  | nil => simp [listCalls]
  | cons c a ih =>
    cases c with
    | KafkaTopicsList p s =>
      rw [List.cons_append, listCalls, listCalls, ih]
      omega
    | KafkaTopicsV2List p s names =>
      rw [List.cons_append, listCalls, listCalls, ih]

theorem storeOne_v1list (key : String) (t t' : kafkaTopicCache) (topic : KafkaTopic)
    (h : storeOne key t topic = some t') : t'.v1list = t.v1list := by
  unfold storeOne at h
  cases hd : deleteFromQueue t.inQueue key topic.TopicName with
  | none => rw [hd] at h; cases h
  | some q =>
    rw [hd] at h
    cases h
    rfl

theorem Store_v1list (t t' : kafkaTopicCache) (p s : String) (list : List KafkaTopic)
    (h : StoreByProjectAndServiceName t p s list = some t') : t'.v1list = t.v1list := by
  unfold StoreByProjectAndServiceName at h
  split at h
  · cases h; rfl
  · clear * - h
    induction list generalizing t with
    | nil => cases h; rfl
    | cons x rest ih =>
      rw [List.foldlM_cons] at h
      cases h1 : storeOne (p ++ s) t x with
      | none => rw [h1] at h; cases h
      | some t1 =>
        rw [h1] at h
        exact (ih t1 h).trans (storeOne_v1list _ _ _ _ h1)

theorem AddToQueue_v1list (t : kafkaTopicCache) (p s n : String) :
    (AddToQueue t p s n).v1list = t.v1list := by
  unfold AddToQueue
  split <;> rfl

theorem refreshIteration_listing {σ : Type}
    (waiter : kafkaTopicAvailabilityWaiter (aivenClient σ)) (w w' : World σ)
    (h : (refreshIteration waiter w).world = some w') :
    w'.cache.v1list = w.cache.v1list ∧ listCalls w'.calls = listCalls w.calls ∧
    w'.semHeld = w.semHeld := by
  by_cases hq : GetQueue w.cache waiter.Project waiter.ServiceName = []
  · rw [refreshIteration_empty waiter w hq] at h
    cases h
    exact ⟨rfl, rfl, rfl⟩
  · cases hv : waiter.Client.KafkaTopicsV2List w.backend waiter.Project waiter.ServiceName
        (GetQueue w.cache waiter.Project waiter.ServiceName) with
    | mk resp backend' =>
      cases resp with
      | error err =>
        cases hnf : IsNotFound err with
        | false =>
          rw [refreshIteration_error waiter w err backend' hq hv hnf] at h
          cases h
          exact ⟨rfl, by simp [listCalls_append, listCalls], rfl⟩
        | true =>
          rw [refreshIteration_notFound waiter w err backend' hq hv hnf] at h
          cases hr : reconcile w.cache waiter.Project waiter.ServiceName
              (GetQueue w.cache waiter.Project waiter.ServiceName) with
          | none => rw [hr] at h; cases h
          | some cache' =>
            rw [hr] at h
            cases h
            exact ⟨(reconcile_fields _ _ _ _ _ hr).2, by simp [listCalls_append, listCalls],
              rfl⟩
      | ok v2Topics =>
        rw [refreshIteration_ok waiter w v2Topics backend' hq hv] at h
        cases hst : StoreByProjectAndServiceName w.cache waiter.Project waiter.ServiceName
            v2Topics with
        | none => rw [hst] at h; cases h
        | some cache' =>
          rw [hst] at h
          cases h
          exact ⟨Store_v1list _ _ _ _ _ hst, by simp [listCalls_append, listCalls], rfl⟩

theorem refreshLoop_listing {σ : Type}
    (waiter : kafkaTopicAvailabilityWaiter (aivenClient σ)) (fuel : Nat) :
    ∀ w w' : World σ, (refreshLoop waiter fuel w).world = some w' →
      w'.cache.v1list = w.cache.v1list ∧ listCalls w'.calls = listCalls w.calls ∧
      w'.semHeld = w.semHeld := by
  induction fuel with
  | zero =>
    intro w w' h
    cases h
    exact ⟨rfl, rfl, rfl⟩
  | succ fuel ih =>
    intro w w' h
    rw [refreshLoop] at h
    cases hstep : refreshIteration waiter w with
    | exit err w1 =>
      have hk := refreshIteration_listing waiter w w1 (by rw [hstep]; rfl)
      rw [hstep] at h
      cases h
      exact hk
    | again w1 =>
      have hk := refreshIteration_listing waiter w w1 (by rw [hstep]; rfl)
      rw [hstep] at h
      obtain ⟨a1, a2, a3⟩ := ih w1 w' h
      exact ⟨a1.trans hk.1, a2.trans hk.2.1, a3.trans hk.2.2⟩
    | panic => rw [hstep] at h; cases h

theorem refresh_listing {σ : Type}
    (waiter : kafkaTopicAvailabilityWaiter (aivenClient σ)) (fuel : Nat) (w w' : World σ)
    (h : (refresh waiter fuel w).world = some w') :
    w'.cache.v1list = w.cache.v1list ∧ listCalls w'.calls = listCalls w.calls := by
  unfold refresh at h
  split at h
  · cases h
    exact ⟨rfl, rfl⟩
  · split at h
    · cases h
      exact ⟨rfl, rfl⟩
    · cases hr : refreshLoop waiter fuel
        { w with
          semHeld := true,
          cache := AddToQueue w.cache waiter.Project waiter.ServiceName waiter.TopicName } with
      | returned value w2 =>
        have hk := refreshLoop_listing waiter fuel _ w2 (by rw [hr]; rfl)
        rw [hr] at h
        cases h
        exact ⟨hk.1.trans (AddToQueue_v1list _ _ _ _), hk.2.1⟩
      | panicked => rw [hr] at h; cases h
      | unfinished w2 =>
        have hk := refreshLoop_listing waiter fuel _ w2 (by rw [hr]; rfl)
        rw [hr] at h
        cases h
        exact ⟨hk.1.trans (AddToQueue_v1list _ _ _ _), hk.2.1⟩

theorem RefreshFunc_listing {σ : Type}
    (waiter : kafkaTopicAvailabilityWaiter (aivenClient σ)) (fuel : Nat) (w w1 w2 : World σ)
    (hstep : v1ListStep waiter w = V1Step.ready w1)
    (h : (RefreshFunc waiter fuel w).world = some w2) :
    w2.cache.v1list = w1.cache.v1list ∧ listCalls w2.calls = listCalls w1.calls := by
  unfold RefreshFunc at h
  rw [hstep] at h
  simp only at h
  split at h
  · cases h
    exact ⟨rfl, rfl⟩
  · cases hl : LoadByTopicName w1.cache waiter.Project waiter.ServiceName waiter.TopicName with
    | mk topic found =>
      rw [hl] at h
      cases found with
      | true =>
        cases h
        exact ⟨rfl, rfl⟩
      | false =>
        simp only at h
        cases hr : refresh waiter fuel w1 with
        | panicked => rw [hr] at h; cases h
        | unfinished w3 =>
          have hk := refresh_listing waiter fuel w1 w3 (by rw [hr]; rfl)
          rw [hr] at h
          cases h
          exact hk
        | returned value w3 =>
          have hk := refresh_listing waiter fuel w1 w3 (by rw [hr]; rfl)
          rw [hr] at h
          cases value with
          | some err =>
            cases h
            exact hk
          | none =>
            simp only at h
            cases hl2 : LoadByTopicName w3.cache waiter.Project waiter.ServiceName
                waiter.TopicName with
            | mk topic2 found2 =>
              rw [hl2] at h
              cases found2 <;> (cases h; exact hk)

/-! ## Termination of the refresh loop -/

theorem GetQueue_take (t : kafkaTopicCache) (p s : String) :
    GetQueue t p s = (sliceIndex t.inQueue (p ++ s)).take (GetQueue t p s).length := by
  unfold GetQueue
  split
  · rw [List.length_take, Nat.min_eq_left (by omega)]
  · rw [List.take_length]

theorem GetQueue_length_le_99 (t : kafkaTopicCache) (p s : String) :
    (GetQueue t p s).length ≤ 99 := by
  unfold GetQueue
  split
  · rw [List.length_take]
    omega
  · omega

theorem GetQueue_eq_nil_iff (t : kafkaTopicCache) (p s : String) :
    GetQueue t p s = [] ↔ sliceIndex t.inQueue (p ++ s) = [] := by
  unfold GetQueue
  split
  · next h =>
    constructor
    · intro e
      have := congrArg List.length e
      rw [List.length_take] at this
      simp only [List.length_nil] at this
      omega
    · intro e
      rw [e] at h
      simp at h
  · exact Iff.rfl

theorem Store_queue (t t' : kafkaTopicCache) (p s : String) (list : List KafkaTopic)
    (hinv : QueueInv t) (h : StoreByProjectAndServiceName t p s list = some t') :
    sliceIndex t'.inQueue (p ++ s)
      = withoutAll (list.map KafkaTopic.TopicName) (sliceIndex t.inQueue (p ++ s)) := by
  unfold StoreByProjectAndServiceName at h
  split at h
  · next hl =>
    cases h
    have : list = [] := List.length_eq_zero.mp hl
    subst this
    simp [withoutAll]
  · obtain ⟨t2, b1, b2, _⟩ := storeFold_spec (p ++ s) list t (hinv _).1
    rw [b1] at h
    cases h
    rw [b2, if_pos rfl]

theorem withoutAll_length (names q : List String) (k : Nat)
    (h : ∀ n, n ∈ q.take k → n ∈ names) :
    (withoutAll names q).length + (q.take k).length ≤ q.length := by
  have hsplit : withoutAll names q
      = withoutAll names (q.take k) ++ withoutAll names (q.drop k) := by
    unfold withoutAll
    rw [← List.filter_append, List.take_append_drop]
  have hnil : withoutAll names (q.take k) = [] := by
    unfold withoutAll
    rw [List.filter_eq_nil_iff]
    intro n hn
    simp [h n hn]
  have hle : (withoutAll names (q.drop k)).length ≤ (q.drop k).length := by
    unfold withoutAll
    exact List.length_filter_le _ _
  rw [hsplit, hnil, List.nil_append]
  have : (q.take k).length + (q.drop k).length = q.length := by
    rw [← List.length_append, List.take_append_drop]
  omega

theorem refreshIteration_again_inv {σ : Type}
    (waiter : kafkaTopicAvailabilityWaiter (aivenClient σ)) (w w1 : World σ)
    (h : refreshIteration waiter w = LoopStep.again w1) :
    ∃ topics backend',
      GetQueue w.cache waiter.Project waiter.ServiceName ≠ [] ∧
      waiter.Client.KafkaTopicsV2List w.backend waiter.Project waiter.ServiceName
          (GetQueue w.cache waiter.Project waiter.ServiceName)
        = (Except.ok topics, backend') ∧
      StoreByProjectAndServiceName w.cache waiter.Project waiter.ServiceName topics
        = some w1.cache := by
  by_cases hq : GetQueue w.cache waiter.Project waiter.ServiceName = []
  · rw [refreshIteration_empty waiter w hq] at h
    cases h
  · cases hv : waiter.Client.KafkaTopicsV2List w.backend waiter.Project waiter.ServiceName
        (GetQueue w.cache waiter.Project waiter.ServiceName) with
    | mk resp backend' =>
      cases resp with
      | error err =>
        cases hnf : IsNotFound err with
        | false =>
          rw [refreshIteration_error waiter w err backend' hq hv hnf] at h
          cases h
        | true =>
          rw [refreshIteration_notFound waiter w err backend' hq hv hnf] at h
          cases hr : reconcile w.cache waiter.Project waiter.ServiceName
              (GetQueue w.cache waiter.Project waiter.ServiceName) with
          | none => rw [hr] at h; cases h
          | some cache' => rw [hr] at h; cases h
      | ok v2Topics =>
        rw [refreshIteration_ok waiter w v2Topics backend' hq hv] at h
        cases hst : StoreByProjectAndServiceName w.cache waiter.Project waiter.ServiceName
            v2Topics with
        | none => rw [hst] at h; cases h
        | some cache' =>
          rw [hst] at h
          simp only [LoopStep.again.injEq] at h
          refine ⟨v2Topics, backend', hq, rfl, ?_⟩
          rw [← h]
          exact hst

theorem refreshIteration_again_spec {σ : Type}
    (waiter : kafkaTopicAvailabilityWaiter (aivenClient σ)) (hans : AnswersEveryName waiter)
    (w w1 : World σ) (hinv : QueueInv w.cache)
    (h : refreshIteration waiter w = LoopStep.again w1) :
    QueueInv w1.cache ∧
    GetQueue w.cache waiter.Project waiter.ServiceName ≠ [] ∧
    (sliceIndex w1.cache.inQueue (waiter.Project ++ waiter.ServiceName)).length
        + (GetQueue w.cache waiter.Project waiter.ServiceName).length
      ≤ (sliceIndex w.cache.inQueue (waiter.Project ++ waiter.ServiceName)).length ∧
    keepsStored w.cache w1.cache ∧
    (∀ n, n ∈ sliceIndex w.cache.inQueue (waiter.Project ++ waiter.ServiceName) →
      n ∈ sliceIndex w1.cache.inQueue (waiter.Project ++ waiter.ServiceName) ∨
      (stored w1.cache (waiter.Project ++ waiter.ServiceName) n).isSome = true) := by
  obtain ⟨topics, backend', hq, hv, hst⟩ := refreshIteration_again_inv waiter w w1 h
  have hinv1 : QueueInv w1.cache :=
    QueueInv_run (Call.StoreByProjectAndServiceName waiter.Project waiter.ServiceName topics)
      w.cache w1.cache hinv hst
  have hqueue := Store_queue w.cache w1.cache waiter.Project waiter.ServiceName topics hinv hst
  obtain ⟨hkeep, hfound⟩ := Store_stored w.cache w1.cache waiter.Project waiter.ServiceName
    topics hst
  have hreq := hans w.backend backend' _ topics hv
  refine ⟨hinv1, hq, ?_, hkeep, ?_⟩
  · rw [hqueue]
    have := withoutAll_length (topics.map KafkaTopic.TopicName)
      (sliceIndex w.cache.inQueue (waiter.Project ++ waiter.ServiceName))
      (GetQueue w.cache waiter.Project waiter.ServiceName).length
      (by
        intro n hn
        rw [← GetQueue_take] at hn
        exact hreq n hn)
    rw [← GetQueue_take] at this
    exact this
  · intro n hn
    by_cases hmem : n ∈ topics.map KafkaTopic.TopicName
    · right
      obtain ⟨topic, ht, hname⟩ := List.mem_map.mp hmem
      have := hfound topic ht
      rw [hname, LoadByTopicName_found_iff] at this
      exact this
    · left
      rw [hqueue]
      unfold withoutAll
      rw [List.mem_filter]
      exact ⟨hn, by simpa using hmem⟩

theorem refreshIteration_not_panic {σ : Type}
    (waiter : kafkaTopicAvailabilityWaiter (aivenClient σ)) (w : World σ)
    (hinv : QueueInv w.cache) : refreshIteration waiter w ≠ LoopStep.panic := by
  obtain ⟨w', h, _⟩ := refreshIteration_of_inv waiter w hinv
  intro e
  rw [e] at h
  cases h

theorem refreshLoop_terminates {σ : Type}
    (waiter : kafkaTopicAvailabilityWaiter (aivenClient σ)) (hans : AnswersEveryName waiter)
    (fuel : Nat) :
    ∀ w : World σ, QueueInv w.cache →
      (sliceIndex w.cache.inQueue (waiter.Project ++ waiter.ServiceName)).length < fuel →
      ∃ r w', refreshLoop waiter fuel w = Run.returned r w' := by
  induction fuel with
  | zero => intro w _ h; omega
  | succ fuel ih =>
    intro w hinv hlen
    rw [refreshLoop]
    cases hstep : refreshIteration waiter w with
    | exit err w1 => exact ⟨err, w1, rfl⟩
    | again w1 =>
      obtain ⟨hinv1, hq, hshort, _, _⟩ := refreshIteration_again_spec waiter hans w w1 hinv hstep
      have hpos : 0 < (GetQueue w.cache waiter.Project waiter.ServiceName).length :=
        List.length_pos.mpr hq
      exact ih w1 hinv1 (by omega)
    | panic => exact absurd hstep (refreshIteration_not_panic waiter w hinv)

theorem EveryBatchSucceeds_again {σ : Type}
    (waiter : kafkaTopicAvailabilityWaiter (aivenClient σ)) (w w1 : World σ)
    (hstep : refreshIteration waiter w = LoopStep.again w1)
    (h : EveryBatchSucceeds waiter w) : EveryBatchSucceeds waiter w1 := by
  intro n w0 hloop hq
  apply h (n + 1) w0 _ hq
  rw [loopAfter, hstep]
  exact hloop

theorem refreshLoop_drains {σ : Type}
    (waiter : kafkaTopicAvailabilityWaiter (aivenClient σ)) (hans : AnswersEveryName waiter)
    (fuel : Nat) :
    ∀ w : World σ, QueueInv w.cache →
      (sliceIndex w.cache.inQueue (waiter.Project ++ waiter.ServiceName)).length < fuel →
      EveryBatchSucceeds waiter w →
      (waiter.TopicName ∈ sliceIndex w.cache.inQueue (waiter.Project ++ waiter.ServiceName) ∨
        (stored w.cache (waiter.Project ++ waiter.ServiceName) waiter.TopicName).isSome
          = true) →
      ∃ w', refreshLoop waiter fuel w = Run.returned none w' ∧
        sliceIndex w'.cache.inQueue (waiter.Project ++ waiter.ServiceName) = [] ∧
        (stored w'.cache (waiter.Project ++ waiter.ServiceName) waiter.TopicName).isSome
          = true ∧
        w'.semHeld = w.semHeld := by
  induction fuel with
  | zero => intro w _ h; omega
  | succ fuel ih =>
    intro w hinv hlen hall htopic
    rw [refreshLoop]
    by_cases hq : GetQueue w.cache waiter.Project waiter.ServiceName = []
    · rw [refreshIteration_empty waiter w hq]
      have hempty := (GetQueue_eq_nil_iff _ _ _).mp hq
      refine ⟨w, rfl, hempty, ?_, rfl⟩
      rcases htopic with h | h
      · rw [hempty] at h
        cases h
      · exact h
    · obtain ⟨topics, backend', hv⟩ := hall 0 w rfl hq
      have hok := refreshIteration_ok waiter w topics backend' hq hv
      obtain ⟨cache', hst⟩ := run_returns
        (Call.StoreByProjectAndServiceName waiter.Project waiter.ServiceName topics)
        w.cache hinv
      simp only [Call.run] at hst
      rw [hst] at hok
      rw [hok]
      simp only
      obtain ⟨hinv1, _, hshort, hkeep, hmove⟩ :=
        refreshIteration_again_spec waiter hans w _ hinv hok
      have hpos : 0 < (GetQueue w.cache waiter.Project waiter.ServiceName).length :=
        List.length_pos.mpr hq
      obtain ⟨w', h1, h2, h3, h4⟩ := ih _ hinv1 (by omega)
        (EveryBatchSucceeds_again waiter w _ hok hall)
        (by
          rcases htopic with h | h
          · exact hmove _ h
          · exact Or.inr (hkeep _ _ h))
      exact ⟨w', h1, h2, h3, h4⟩

theorem AddToQueue_queue_length (t : kafkaTopicCache) (p s n : String) :
    (sliceIndex (AddToQueue t p s n).inQueue (p ++ s)).length
      ≤ (sliceIndex t.inQueue (p ++ s)).length + 1 := by
  unfold AddToQueue
  split
  · simp [sliceIndex_mapAssign]
  · omega

theorem AddToQueue_mem (t : kafkaTopicCache) (p s n : String)
    (h : stored t (p ++ s) n = none) : n ∈ sliceIndex (AddToQueue t p s n).inQueue (p ++ s) := by
  by_cases hq : n ∈ sliceIndex t.inQueue (p ++ s)
  · rw [AddToQueue_of_known t p s n (Or.inl hq)]
    exact hq
  · rw [AddToQueue_of_new t p s n hq h]
    simp [sliceIndex_mapAssign]

theorem echoClient_answers (listing : List KafkaListTopic) (topicName : String) :
    AnswersEveryName (waiterFor (echoClient listing) topicName) := by
  intro b b' names topics h n hn
  simp only [waiterFor, echoClient, Prod.mk.injEq, Except.ok.injEq] at h
  rw [← h.1, List.map_map]
  exact List.mem_map.mpr ⟨n, hn, rfl⟩

theorem echoClient_succeeds (listing : List KafkaListTopic) (topicName : String)
    (w : World Unit) : EveryBatchSucceeds (waiterFor (echoClient listing) topicName) w := by
  intro n w0 _ _
  exact ⟨_, _, rfl⟩

theorem refresh_terminates {σ : Type}
    (waiter : kafkaTopicAvailabilityWaiter (aivenClient σ)) (hans : AnswersEveryName waiter)
    (w : World σ) (hinv : QueueInv w.cache) (fuel : Nat)
    (hfuel : (sliceIndex w.cache.inQueue (waiter.Project ++ waiter.ServiceName)).length + 1
      < fuel) :
    ∃ r w', refresh waiter fuel w = Run.returned r w' := by
  unfold refresh
  split
  · exact ⟨_, _, rfl⟩
  · split
    · exact ⟨_, _, rfl⟩
    · obtain ⟨r, w', h⟩ := refreshLoop_terminates waiter hans fuel
        { w with
          semHeld := true,
          cache := AddToQueue w.cache waiter.Project waiter.ServiceName waiter.TopicName }
        (QueueInv_AddToQueue _ _ _ _ hinv)
        (by
          have := AddToQueue_queue_length w.cache waiter.Project waiter.ServiceName
            waiter.TopicName
          simp only
          omega)
      rw [h]
      exact ⟨_, _, rfl⟩

theorem refresh_drains {σ : Type}
    (waiter : kafkaTopicAvailabilityWaiter (aivenClient σ)) (hans : AnswersEveryName waiter)
    (w : World σ) (hinv : QueueInv w.cache) (hsem : w.semHeld = false)
    (hst : (LoadByTopicName w.cache waiter.Project waiter.ServiceName waiter.TopicName).2
      = false)
    (hall : EveryBatchSucceeds waiter (loopStart waiter w)) (fuel : Nat)
    (hfuel : (sliceIndex w.cache.inQueue (waiter.Project ++ waiter.ServiceName)).length + 1
      < fuel) :
    ∃ w', refresh waiter fuel w = Run.returned none w' ∧
      sliceIndex w'.cache.inQueue (waiter.Project ++ waiter.ServiceName) = [] ∧
      (LoadByTopicName w'.cache waiter.Project waiter.ServiceName waiter.TopicName).2
        = true ∧
      w'.semHeld = false := by
  have hnone : stored w.cache (waiter.Project ++ waiter.ServiceName) waiter.TopicName
      = none := by
    cases hs : stored w.cache (waiter.Project ++ waiter.ServiceName) waiter.TopicName with
    | none => rfl
    | some r =>
      have := (LoadByTopicName_found_iff w.cache waiter.Project waiter.ServiceName
        waiter.TopicName).mpr (by simp [hs])
      rw [hst] at this
      cases this
  obtain ⟨w', h1, h2, h3, _⟩ := refreshLoop_drains waiter hans fuel (loopStart waiter w)
    (QueueInv_AddToQueue _ _ _ _ hinv)
    (by
      have := AddToQueue_queue_length w.cache waiter.Project waiter.ServiceName
        waiter.TopicName
      simp only [loopStart]
      omega)
    hall
    (Or.inl (AddToQueue_mem _ _ _ _ hnone))
  refine ⟨{ w' with semHeld := false }, ?_, h2, ?_, rfl⟩
  · unfold refresh
    rw [hsem, hst]
    simp only [Bool.false_eq_true, if_false]
    unfold loopStart at h1
    rw [h1]
    rfl
  · rw [LoadByTopicName_found_iff]
    exact h3

/-! ## The claims about the V1 listing step, termination, the queue and the guard -/

/-- C23, as the claim states it, fails: the V1 list call succeeds with an empty listing (a
service without topics), so the cached listing stays empty, and the next poll step for the
same service calls the V1 list endpoint again: two poll steps, two V1 list calls. -/
theorem C23_empty_listing_is_fetched_again_counterexample :
    RefreshFunc
        (waiterFor (constantClient (Except.ok [])
          (Except.error (ClientError.api 502 "bad gateway"))) "t") 1
        (worldOf initTopicCache)
      = Run.returned { result := none, state := "CONFIGURING", err := none }
          { cache := { internal := [], inQueue := [("ps", ["t"])], missing := [], v1list := [] },
            semHeld := false, backend := (),
            calls := [ApiCall.KafkaTopicsList "p" "s",
              ApiCall.KafkaTopicsV2List "p" "s" ["t"]] } ∧
    RefreshFunc
        (waiterFor (constantClient (Except.ok [])
          (Except.error (ClientError.api 502 "bad gateway"))) "t") 1
        { cache := { internal := [], inQueue := [("ps", ["t"])], missing := [], v1list := [] },
          semHeld := false, backend := (),
          calls := [ApiCall.KafkaTopicsList "p" "s",
            ApiCall.KafkaTopicsV2List "p" "s" ["t"]] }
      = Run.returned { result := none, state := "CONFIGURING", err := none }
          { cache := { internal := [], inQueue := [("ps", ["t"])], missing := [], v1list := [] },
            semHeld := false, backend := (),
            calls := [ApiCall.KafkaTopicsList "p" "s",
              ApiCall.KafkaTopicsV2List "p" "s" ["t"],
              ApiCall.KafkaTopicsList "p" "s",
              ApiCall.KafkaTopicsV2List "p" "s" ["t"]] } ∧
    listCalls [ApiCall.KafkaTopicsList "p" "s", ApiCall.KafkaTopicsV2List "p" "s" ["t"],
      ApiCall.KafkaTopicsList "p" "s", ApiCall.KafkaTopicsV2List "p" "s" ["t"]] = 2 := by
  refine ⟨by decide, by decide, by decide⟩

/-- C23, amended: the V1 listing step of a poll. (1) When the cached V1 listing of the
waiter's (project, service) is not empty, the poll step makes no V1 list call and leaves the
listing as it is. (2) When it is empty and the V1 list call succeeds, the poll step makes
exactly one V1 list call and the cached listing becomes the returned topic names, in order.
(3) When those names are not empty, a later poll step for the same service, of this or
another waiter, makes no further V1 list call; an empty answer leaves the cached listing
empty, and (2) applies again to the next poll step. (4) When the V1 list call fails, the
poll step returns a nil result, the state CONFIGURING and the error of the call, wrapped,
having made that one call, and the cache is unchanged. In (1) to (3) the state meant is the
one the poll step returns in or, if its refresh loop is still running, has reached. -/
theorem C23_v1_listing_step {σ : Type}
    (waiter : kafkaTopicAvailabilityWaiter (aivenClient σ)) (fuel : Nat) (w : World σ) :
    (GetV1List w.cache waiter.Project waiter.ServiceName ≠ [] →
      ∀ w', (RefreshFunc waiter fuel w).world = some w' →
        listCalls w'.calls = listCalls w.calls ∧
        GetV1List w'.cache waiter.Project waiter.ServiceName
          = GetV1List w.cache waiter.Project waiter.ServiceName) ∧
    (GetV1List w.cache waiter.Project waiter.ServiceName = [] →
      ∀ list backend',
        waiter.Client.KafkaTopicsList w.backend waiter.Project waiter.ServiceName
          = (Except.ok list, backend') →
        ∀ w', (RefreshFunc waiter fuel w).world = some w' →
          listCalls w'.calls = listCalls w.calls + 1 ∧
          GetV1List w'.cache waiter.Project waiter.ServiceName
            = list.map KafkaListTopic.TopicName ∧
          (list ≠ [] →
            ∀ (other : kafkaTopicAvailabilityWaiter (aivenClient σ)) (fuel2 : Nat)
              (w'' : World σ),
              other.Project = waiter.Project → other.ServiceName = waiter.ServiceName →
              (RefreshFunc other fuel2 w').world = some w'' →
              listCalls w''.calls = listCalls w'.calls)) ∧
    (GetV1List w.cache waiter.Project waiter.ServiceName = [] →
      ∀ err backend',
        waiter.Client.KafkaTopicsList w.backend waiter.Project waiter.ServiceName
          = (Except.error err, backend') →
        RefreshFunc waiter fuel w
          = Run.returned
              { result := none, state := "CONFIGURING",
                err := some (GoError.v1ListFailed waiter.Project waiter.ServiceName err) }
              { cache := w.cache, semHeld := w.semHeld, backend := backend',
                calls := w.calls
                  ++ [ApiCall.KafkaTopicsList waiter.Project waiter.ServiceName] }) := by
  have hkeep : ∀ (wt : kafkaTopicAvailabilityWaiter (aivenClient σ)) (f : Nat)
      (u u' : World σ), GetV1List u.cache wt.Project wt.ServiceName ≠ [] →
      (RefreshFunc wt f u).world = some u' →
      listCalls u'.calls = listCalls u.calls ∧
      GetV1List u'.cache wt.Project wt.ServiceName
        = GetV1List u.cache wt.Project wt.ServiceName := by
    intro wt f u u' hne h
    have hstep : v1ListStep wt u = V1Step.ready u := by
      unfold v1ListStep
      rw [if_neg (by simpa using hne)]
    obtain ⟨a1, a2⟩ := RefreshFunc_listing wt f u u u' hstep h
    refine ⟨a2, ?_⟩
    unfold GetV1List
    rw [a1]
  refine ⟨fun hne w' h => hkeep waiter fuel w w' hne h, ?_, ?_⟩
  · intro hempty list backend' hl w' h
    have hstep : v1ListStep waiter w
        = V1Step.ready
            { w with
              cache := SetV1List w.cache waiter.Project waiter.ServiceName list,
              backend := backend',
              calls := w.calls
                ++ [ApiCall.KafkaTopicsList waiter.Project waiter.ServiceName] } := by
      unfold v1ListStep
      rw [if_pos (by simp [hempty]), hl]
    obtain ⟨a1, a2⟩ := RefreshFunc_listing waiter fuel w _ w' hstep h
    have hlisting : GetV1List w'.cache waiter.Project waiter.ServiceName
        = list.map KafkaListTopic.TopicName := by
      have := (SetV1List_appends w.cache waiter.Project waiter.ServiceName list).2 hempty
      unfold GetV1List at this ⊢
      rw [a1]
      exact this
    refine ⟨?_, hlisting, ?_⟩
    · rw [a2, listCalls_append]
      rfl
    · intro hne other fuel2 w'' hp hs h2
      have hne' : GetV1List w'.cache other.Project other.ServiceName ≠ [] := by
        rw [hp, hs, hlisting]
        simpa using hne
      exact (hkeep other fuel2 w' w'' hne' h2).1
  · intro hempty err backend' hl
    have hstep : v1ListStep waiter w
        = V1Step.failed
            { result := none, state := "CONFIGURING",
              err := some (GoError.v1ListFailed waiter.Project waiter.ServiceName err) }
            { w with
              backend := backend',
              calls := w.calls
                ++ [ApiCall.KafkaTopicsList waiter.Project waiter.ServiceName] } := by
      unfold v1ListStep
      rw [if_pos (by simp [hempty]), hl]
    unfold RefreshFunc
    rw [hstep]

/-- Witness of the amended C23: the V1 list call answers with the listing `[t]`; the poll
step for topic `t` makes that one call, caches `[t]`, and the backend then stores `t`. -/
theorem C23_v1_listing_step_witness :
    RefreshFunc (waiterFor (echoClient [{ State := "ACTIVE", TopicName := "t" }]) "t") 3
        (worldOf initTopicCache)
      = Run.returned
          { result := some (topicRecord "t" "ACTIVE"), state := "ACTIVE", err := none }
          { cache :=
              { internal := [("ps", [("t", topicRecord "t" "ACTIVE")])],
                inQueue := [("ps", [])], missing := [], v1list := [("ps", ["t"])] },
            semHeld := false, backend := (),
            calls := [ApiCall.KafkaTopicsList "p" "s",
              ApiCall.KafkaTopicsV2List "p" "s" ["t"]] } ∧
    listCalls [ApiCall.KafkaTopicsList "p" "s", ApiCall.KafkaTopicsV2List "p" "s" ["t"]]
      = listCalls (worldOf initTopicCache).calls + 1 := by
  have hrun : RefreshFunc (waiterFor (echoClient [{ State := "ACTIVE", TopicName := "t" }]) "t")
        3 (worldOf initTopicCache)
      = Run.returned
          { result := some (topicRecord "t" "ACTIVE"), state := "ACTIVE", err := none }
          { cache :=
              { internal := [("ps", [("t", topicRecord "t" "ACTIVE")])],
                inQueue := [("ps", [])], missing := [], v1list := [("ps", ["t"])] },
            semHeld := false, backend := (),
            calls := [ApiCall.KafkaTopicsList "p" "s",
              ApiCall.KafkaTopicsV2List "p" "s" ["t"]] } := by
    decide
  refine ⟨hrun, ?_⟩
  have h := (C23_v1_listing_step
    (waiterFor (echoClient [{ State := "ACTIVE", TopicName := "t" }]) "t") 3
    (worldOf initTopicCache)).2.1 (by decide) [{ State := "ACTIVE", TopicName := "t" }] ()
    rfl
    { cache :=
        { internal := [("ps", [("t", topicRecord "t" "ACTIVE")])],
          inQueue := [("ps", [])], missing := [], v1list := [("ps", ["t"])] },
      semHeld := false, backend := (),
      calls := [ApiCall.KafkaTopicsList "p" "s", ApiCall.KafkaTopicsV2List "p" "s" ["t"]] }
    (by rw [hrun]; rfl)
  exact h.1

/-- C24, as the claim states it, fails, although the backend answers every requested name
and never fails: (1) the topic `a` of the waiter is stored on entry, so `refresh` returns at
once without a lookup and the name `b` stays in the pending queue; (2) the permit is taken
on entry, so `refresh` for topic `b` returns at once, `b` stays queued and is not stored.
In both the cache is the reachable one in which `a` is stored and `b` is queued. -/
theorem C24_early_return_leaves_queue_counterexample :
    Reachable cacheStoredAndQueued ∧
    AnswersEveryName (waiterFor (echoClient []) "a") ∧
    refresh (waiterFor (echoClient []) "a") 5 (worldOf cacheStoredAndQueued)
      = Run.returned none (worldOf cacheStoredAndQueued) ∧
    sliceIndex (worldOf cacheStoredAndQueued).cache.inQueue ("p" ++ "s") = ["b"] ∧
    refresh (waiterFor (echoClient []) "b") 5
        { cache := cacheStoredAndQueued, semHeld := true, backend := (), calls := [] }
      = Run.returned none
          { cache := cacheStoredAndQueued, semHeld := true, backend := (), calls := [] } ∧
    (LoadByTopicName cacheStoredAndQueued "p" "s" "b").2 = false :=
  ⟨cacheStoredAndQueued_reachable, echoClient_answers [] "a", by decide, by decide, by decide,
    by decide⟩

/-- C24, amended: on every reachable cache and with every backend whose successful batched
answers hold a record for each requested name: (1) `refresh` returns, whenever its loop is
allowed more iterations than the pending queue has names plus one; (2) each iteration that
stores a batch requested between 1 and 99 names and leaves the pending queue shorter by at
least the number of names requested; (3) when `refresh` takes the permit, the topic of
the waiter is not stored on entry and every batch of the run succeeds, `refresh` returns no
error, with the pending queue of the waiter's (project, service) empty, the topic of the
waiter stored and the permit released. -/
theorem C24_refresh_terminates {σ : Type}
    (waiter : kafkaTopicAvailabilityWaiter (aivenClient σ)) (hans : AnswersEveryName waiter)
    (w : World σ) (hreach : Reachable w.cache) :
    (∀ fuel : Nat,
      (sliceIndex w.cache.inQueue (waiter.Project ++ waiter.ServiceName)).length + 1 < fuel →
      ∃ r w', refresh waiter fuel w = Run.returned r w') ∧
    (∀ w0 w1 : World σ, Reachable w0.cache →
      refreshIteration waiter w0 = LoopStep.again w1 →
      1 ≤ (GetQueue w0.cache waiter.Project waiter.ServiceName).length ∧
      (GetQueue w0.cache waiter.Project waiter.ServiceName).length ≤ 99 ∧
      (sliceIndex w1.cache.inQueue (waiter.Project ++ waiter.ServiceName)).length
          + (GetQueue w0.cache waiter.Project waiter.ServiceName).length
        ≤ (sliceIndex w0.cache.inQueue (waiter.Project ++ waiter.ServiceName)).length) ∧
    (w.semHeld = false →
      (LoadByTopicName w.cache waiter.Project waiter.ServiceName waiter.TopicName).2 = false →
      EveryBatchSucceeds waiter (loopStart waiter w) →
      ∀ fuel : Nat,
        (sliceIndex w.cache.inQueue (waiter.Project ++ waiter.ServiceName)).length + 1
          < fuel →
        ∃ w', refresh waiter fuel w = Run.returned none w' ∧
          sliceIndex w'.cache.inQueue (waiter.Project ++ waiter.ServiceName) = [] ∧
          GetQueue w'.cache waiter.Project waiter.ServiceName = [] ∧
          (LoadByTopicName w'.cache waiter.Project waiter.ServiceName waiter.TopicName).2
            = true ∧
          w'.semHeld = false) := by
  have hinv := QueueInv_of_reachable w.cache hreach
  refine ⟨fun fuel hfuel => refresh_terminates waiter hans w hinv fuel hfuel, ?_, ?_⟩
  · intro w0 w1 hreach0 hstep
    obtain ⟨_, hq, hshort, _, _⟩ := refreshIteration_again_spec waiter hans w0 w1
      (QueueInv_of_reachable w0.cache hreach0) hstep
    exact ⟨List.length_pos.mpr hq, GetQueue_length_le_99 _ _ _, hshort⟩
  · intro hsem hst hall fuel hfuel
    obtain ⟨w', h1, h2, h3, h4⟩ := refresh_drains waiter hans w hinv hsem hst hall fuel hfuel
    exact ⟨w', h1, h2, (GetQueue_eq_nil_iff _ _ _).mpr h2, h3, h4⟩

/-- Witness of the amended C24: with `a` and `b` queued, `refresh` for topic `c` on a backend
that answers every name returns no error after one batch, with the queue empty and `c`
stored. -/
theorem C24_refresh_terminates_witness :
    AnswersEveryName (waiterFor (echoClient []) "c") ∧
    Reachable (worldOf cacheTwoQueued).cache ∧
    refresh (waiterFor (echoClient []) "c") 4 (worldOf cacheTwoQueued)
      = Run.returned none
          { cache :=
              { internal := [("ps", [("a", topicRecord "a" "ACTIVE"),
                  ("b", topicRecord "b" "ACTIVE"), ("c", topicRecord "c" "ACTIVE")])],
                inQueue := [("ps", [])], missing := [], v1list := [("ps", ["c"])] },
            semHeld := false, backend := (),
            calls := [ApiCall.KafkaTopicsV2List "p" "s" ["a", "b", "c"]] } ∧
    (∃ w', refresh (waiterFor (echoClient []) "c") 4 (worldOf cacheTwoQueued)
        = Run.returned none w' ∧
      sliceIndex w'.cache.inQueue ("p" ++ "s") = [] ∧
      (LoadByTopicName w'.cache "p" "s" "c").2 = true) := by
  refine ⟨echoClient_answers [] "c", cacheTwoQueued_reachable, by decide, ?_⟩
  obtain ⟨w', h1, h2, _, h4, _⟩ :=
    (C24_refresh_terminates (waiterFor (echoClient []) "c") (echoClient_answers [] "c")
      (worldOf cacheTwoQueued) cacheTwoQueued_reachable).2.2 rfl (by decide)
      (echoClient_succeeds [] "c" _) 4 (by decide)
  exact ⟨w', h1, h2, h4⟩

/-- C25: in every cache reachable from the freshly initialised cache by calls of the cache
methods, no pending queue holds a topic name twice; and on a queue that holds no name
twice the loop that deletes from the slice it ranges over never slices out of bounds, for
every name to delete, so that `StoreByProjectAndServiceName` and
`DeleteFromQueueAndMarkMissing` return on every cache whose queue for the key is such. -/
theorem C25_no_duplicates_no_out_of_bounds :
    (∀ t : kafkaTopicCache, Reachable t →
      ∀ p s : String, (sliceIndex t.inQueue (p ++ s)).Nodup) ∧
    (∀ (q : List String) (x : String), q.Nodup →
      ∃ arr len, rangeDelete x q.length 0 q q.length = some (arr, len) ∧
        arr.take len = q.filter (fun n => decide (n ≠ x))) ∧
    (∀ (t : kafkaTopicCache) (p s : String) (list : List KafkaTopic),
      (sliceIndex t.inQueue (p ++ s)).Nodup →
      ∃ t', StoreByProjectAndServiceName t p s list = some t') ∧
    (∀ (t : kafkaTopicCache) (p s n : String),
      (sliceIndex t.inQueue (p ++ s)).Nodup →
      ∃ t', DeleteFromQueueAndMarkMissing t p s n = some t') := by
  refine ⟨?_, ?_, ?_, ?_⟩
  · intro t h p s
    exact (QueueInv_of_reachable t h (p ++ s)).1
  · intro q x h
    exact rangeDelete_of_nodup x q h
  · intro t p s list h
    unfold StoreByProjectAndServiceName
    split
    · exact ⟨t, rfl⟩
    · obtain ⟨t', h1, _⟩ := storeFold_spec (p ++ s) list t h
      exact ⟨t', h1⟩
  · intro t p s n h
    obtain ⟨m', h1, _⟩ := deleteFromQueue_nodup t.inQueue (p ++ s) n h
    unfold DeleteFromQueueAndMarkMissing
    rw [h1]
    exact ⟨_, rfl⟩

/-- Witness of C25: in the reachable cache with `a` and `b` queued the loop deletes `a`
without panic; on the queue `[x, x]`, which no reachable cache holds, the same loop slices
out of bounds. -/
theorem C25_no_duplicates_no_out_of_bounds_witness :
    (sliceIndex cacheTwoQueued.inQueue ("p" ++ "s")).Nodup ∧
    (∃ t', DeleteFromQueueAndMarkMissing cacheTwoQueued "p" "s" "a" = some t') ∧
    rangeDelete "x" 2 0 ["x", "x"] 2 = none :=
  ⟨C25_no_duplicates_no_out_of_bounds.1 cacheTwoQueued cacheTwoQueued_reachable "p" "s",
    C25_no_duplicates_no_out_of_bounds.2.2.2 cacheTwoQueued "p" "s" "a" (by decide),
    by decide⟩

/-- C26, the code at the failing input: the pending queue of `(p, s)` is `[a, b, c]` and the
V1 listing is `[c]`. `GetQueue` returns `[a, b, c]`, a slice of the backing array of the
queue. `DeleteFromQueueAndMarkMissing(p, s, a)` moves `b` and `c` one cell down in that
array: the cells of the returned slice are then `[b, c, c]`. The reconciliation loop over
the returned slice therefore reads `a`, `c`, `c` and never `b`: it ends with `b` still queued
and not marked missing, though `b` is absent from the V1 listing. -/
theorem C26_returned_queue_shares_cells :
    Reachable cacheThreeQueued ∧
    GetQueue cacheThreeQueued "p" "s" = ["a", "b", "c"] ∧
    DeleteFromQueueAndMarkMissingShared cacheThreeQueued "p" "s" "a" ["a", "b", "c"]
      = some
          ({ internal := [], inQueue := [("ps", ["b", "c"])], missing := [("ps", ["a"])],
             v1list := [("ps", ["c"])] },
           ["b", "c", "c"]) ∧
    reconcile cacheThreeQueued "p" "s" (GetQueue cacheThreeQueued "p" "s")
      = some
          { internal := [], inQueue := [("ps", ["b", "c"])], missing := [("ps", ["a"])],
            v1list := [("ps", ["c"])] } ∧
    "b" ∉ GetV1List cacheThreeQueued "p" "s" := by
  refine ⟨?_, by decide, by decide, by decide, by decide⟩
  exact Reachable.step (Call.AddToQueue "p" "s" "c") cacheTwoQueued_reachable (by decide)

/-- C27: for every state, backend and number of iterations allowed: (1) when `refresh` takes
the permit and returns, with or without an error, the permit is free in the state it
returns in; (2) while its loop is still running the permit is taken; (3) when the permit is
taken on entry, `refresh` returns in the state it was entered in, the permit still taken: it
releases nothing; (4) when the permit is free and the topic is already stored, `refresh`
returns no error in the state it was entered in, the permit free. -/
theorem C27_guard_is_released {σ : Type}
    (waiter : kafkaTopicAvailabilityWaiter (aivenClient σ)) (fuel : Nat) (w : World σ) :
    (w.semHeld = false →
      ∀ r w', refresh waiter fuel w = Run.returned r w' → w'.semHeld = false) ∧
    (w.semHeld = false →
      ∀ w', refresh waiter fuel w = Run.unfinished w' → w'.semHeld = true) ∧
    (w.semHeld = true →
      refresh waiter fuel w = Run.returned none w ∧ w.semHeld = true) ∧
    (w.semHeld = false →
      (LoadByTopicName w.cache waiter.Project waiter.ServiceName waiter.TopicName).2 = true →
      refresh waiter fuel w = Run.returned none w) := by
  refine ⟨?_, ?_, ?_, ?_⟩
  · intro hsem r w' h
    unfold refresh at h
    rw [hsem] at h
    simp only [Bool.false_eq_true, if_false] at h
    split at h
    · simp only [releaseOnReturn, Run.returned.injEq] at h
      rw [← h.2]
    · cases hr : refreshLoop waiter fuel
        { w with
          semHeld := true,
          cache := AddToQueue w.cache waiter.Project waiter.ServiceName waiter.TopicName } with
      | returned value w2 =>
        rw [hr] at h
        simp only [releaseOnReturn, Run.returned.injEq] at h
        rw [← h.2]
      | panicked => rw [hr] at h; cases h
      | unfinished w2 => rw [hr] at h; cases h
  · intro hsem w' h
    unfold refresh at h
    rw [hsem] at h
    simp only [Bool.false_eq_true, if_false] at h
    split at h
    · cases h
    · cases hr : refreshLoop waiter fuel
        { w with
          semHeld := true,
          cache := AddToQueue w.cache waiter.Project waiter.ServiceName waiter.TopicName } with
      | returned value w2 => rw [hr] at h; cases h
      | panicked => rw [hr] at h; cases h
      | unfinished w2 =>
        have hk := refreshLoop_listing waiter fuel _ w2 (by rw [hr]; rfl)
        rw [hr] at h
        simp only [releaseOnReturn, Run.unfinished.injEq] at h
        rw [← h]
        exact hk.2.2
  · intro hsem
    refine ⟨?_, hsem⟩
    unfold refresh
    rw [if_pos hsem]
  · intro hsem hst
    unfold refresh
    rw [hsem, hst]
    simp only [Bool.false_eq_true, if_false, if_true, releaseOnReturn]
    cases w
    simp only at hsem
    subst hsem
    rfl

/-- Witness of C27: the run of `refresh` that reconciles after a 404 returns with the permit
free. -/
theorem C27_guard_is_released_witness :
    (worldOf cacheTwoQueued).semHeld = false ∧
    refresh (waiterFor (constantClient (Except.ok []) notFoundAnswer) "c") 1
        (worldOf cacheTwoQueued)
      = Run.returned none
          { cache :=
              { internal := [], inQueue := [("ps", ["b", "c"])],
                missing := [("ps", ["a"])], v1list := [("ps", ["c"])] },
            semHeld := false, backend := (),
            calls := [ApiCall.KafkaTopicsV2List "p" "s" ["a", "b", "c"]] } ∧
    (World.semHeld
      ({ cache :=
          { internal := [], inQueue := [("ps", ["b", "c"])],
            missing := [("ps", ["a"])], v1list := [("ps", ["c"])] },
         semHeld := false, backend := (),
         calls := [ApiCall.KafkaTopicsV2List "p" "s" ["a", "b", "c"]] } : World Unit))
      = false :=
  ⟨rfl, by decide,
    (C27_guard_is_released (waiterFor (constantClient (Except.ok []) notFoundAnswer) "c") 1
      (worldOf cacheTwoQueued)).1 rfl none _ (by decide)⟩

end kafka

namespace schemautil

/-! ## Facts about the helpers of schemautil -/

theorem isStringAnOrganizationID_iff (s : String) :
    isStringAnOrganizationID s = true ↔ ∃ rest : String, s = "org" ++ rest := by
  obtain ⟨cs⟩ := s
  unfold isStringAnOrganizationID
  simp only [decide_eq_true_eq]
  constructor
  · intro h
    refine ⟨String.mk (cs.drop 3), ?_⟩
    show String.mk cs = String.mk (['o', 'r', 'g'] ++ cs.drop 3)
    rw [← h, List.take_append_drop]
  · rintro ⟨⟨rest⟩, h⟩
    have h' : cs = ['o', 'r', 'g'] ++ rest := congrArg String.data h
    rw [h']
    rfl

theorem splitAtSlash_none (cs : List Char) (h : '/' ∉ cs) : splitAtSlash cs = none := by
  induction cs with
  | nil => rfl
  | cons c cs ih =>
    have hc : c ≠ '/' := fun e => h (e ▸ List.mem_cons_self c cs)
    have hcs : '/' ∉ cs := fun e => h (List.mem_cons_of_mem c e)
    rw [splitAtSlash, if_neg hc, ih hcs]
    rfl

theorem splitAtSlash_first (a b : List Char) (h : '/' ∉ a) :
    splitAtSlash (a ++ '/' :: b) = some (a, b) := by
  induction a with
  | nil => simp [splitAtSlash]
  | cons c a ih =>
    have hc : c ≠ '/' := fun e => h (e ▸ List.mem_cons_self c a)
    have ha : '/' ∉ a := fun e => h (List.mem_cons_of_mem c e)
    rw [List.cons_append, splitAtSlash, if_neg hc, ih ha]
    rfl

/-- What `DetermineMixedOrganizationConstraintIDToStore` does for every client and every pair
of IDs: the empty string and no call for an empty account ID; the account ID and no call when
the state ID does not start with `org` (the empty state ID included); otherwise one call of
`Accounts.Get`, whose error is returned with the empty string, and whose organization ID is
returned when it is not empty, the account ID when it is. -/
theorem DetermineMixedOrganizationConstraintIDToStore_spec (client : Client)
    (stateID accountID : String) :
    (accountID = "" →
      DetermineMixedOrganizationConstraintIDToStore client stateID accountID
        = { id := "", err := none, calls := [] }) ∧
    (accountID ≠ "" → isStringAnOrganizationID stateID = false →
      DetermineMixedOrganizationConstraintIDToStore client stateID accountID
        = { id := accountID, err := none, calls := [] }) ∧
    (accountID ≠ "" → isStringAnOrganizationID stateID = true →
      (∀ err, client.AccountsGet accountID = Except.error err →
        DetermineMixedOrganizationConstraintIDToStore client stateID accountID
          = { id := "", err := some err, calls := [ApiCall.AccountsGet accountID] }) ∧
      (∀ r, client.AccountsGet accountID = Except.ok r →
        DetermineMixedOrganizationConstraintIDToStore client stateID accountID
          = { id := if r.OrganizationId = "" then accountID else r.OrganizationId,
              err := none, calls := [ApiCall.AccountsGet accountID] })) := by
  refine ⟨?_, ?_, ?_⟩
  · intro h
    unfold DetermineMixedOrganizationConstraintIDToStore
    rw [if_pos ((kafka.len_eq_zero_iff accountID).mpr h)]
  · intro h hs
    unfold DetermineMixedOrganizationConstraintIDToStore
    rw [if_neg (fun e => h ((kafka.len_eq_zero_iff accountID).mp e)), hs]
    rfl
  · intro h hs
    have hne : ¬ kafka.len accountID = 0 := fun e => h ((kafka.len_eq_zero_iff accountID).mp e)
    constructor
    · intro err he
      unfold DetermineMixedOrganizationConstraintIDToStore
      rw [if_neg hne, hs, he]
      rfl
    · intro r hr
      unfold DetermineMixedOrganizationConstraintIDToStore
      rw [if_neg hne, hs, hr]
      simp only [Bool.not_true, Bool.false_eq_true, if_false]
      by_cases ho : r.OrganizationId = ""
      · rw [if_pos ((kafka.len_eq_zero_iff _).mpr ho), if_pos ho]
      · rw [if_neg (fun e => ho ((kafka.len_eq_zero_iff _).mp e)), if_neg ho]

/-! ## The claims about schemautil -/

/-- C21, the code at the failing input: the state holds no ID (`stateID` is empty), the
account ID is `a123`, and the account fetched for `a123` has the organization ID `org456`.
The empty state ID does not start with `org`, so the function returns the account ID `a123`
without calling the API, not the organization ID; with an organization ID in the state it
does fetch the account and returns `org456`. -/
theorem C21_empty_state_id_returns_account_id :
    exampleClient.AccountsGet "a123"
      = Except.ok { Id := "a123", Name := "acme", OrganizationId := "org456" } ∧
    DetermineMixedOrganizationConstraintIDToStore exampleClient "" "a123"
      = { id := "a123", err := none, calls := [] } ∧
    DetermineMixedOrganizationConstraintIDToStore exampleClient "org111" "a123"
      = { id := "org456", err := none, calls := [ApiCall.AccountsGet "a123"] } :=
  ⟨rfl, by decide, by decide⟩

/-- C22: for every client and every `id`: `id` is an organization ID exactly when it starts
with `org`; when it is not, `NormalizeOrganizationID` returns `id` itself with no error and
makes no API call; when it is, the function makes the one call `Organization.Get(id)` and
returns the account ID of the organization fetched, or, when the call fails, the empty
string together with the error of the call. -/
theorem C22_NormalizeOrganizationID (client : Client) (id : String) :
    (isStringAnOrganizationID id = true ↔ ∃ rest : String, id = "org" ++ rest) ∧
    (isStringAnOrganizationID id = false →
      NormalizeOrganizationID client id = { id := id, err := none, calls := [] }) ∧
    (isStringAnOrganizationID id = true →
      (∀ r, client.OrganizationGet id = Except.ok r →
        NormalizeOrganizationID client id
          = { id := r.AccountID, err := none, calls := [ApiCall.OrganizationGet id] }) ∧
      (∀ err, client.OrganizationGet id = Except.error err →
        NormalizeOrganizationID client id
          = { id := "", err := some err, calls := [ApiCall.OrganizationGet id] })) := by
  refine ⟨isStringAnOrganizationID_iff id, ?_, ?_⟩
  · intro h
    unfold NormalizeOrganizationID
    rw [h]
    rfl
  · intro h
    constructor
    · intro r hr
      unfold NormalizeOrganizationID
      rw [h, hr]
      rfl
    · intro err he
      unfold NormalizeOrganizationID
      rw [h, he]
      rfl

/-- Witness of C22: an account ID is returned as it is, an organization ID is converted, and
the error of a failed fetch is returned with the empty string. -/
theorem C22_NormalizeOrganizationID_witness :
    NormalizeOrganizationID exampleClient "a123" = { id := "a123", err := none, calls := [] } ∧
    NormalizeOrganizationID exampleClient "org456"
      = { id := "a123", err := none, calls := [ApiCall.OrganizationGet "org456"] } ∧
    NormalizeOrganizationID exampleClient "org999"
      = { id := "", err := some (kafka.ClientError.api 404 "organization not found"),
          calls := [ApiCall.OrganizationGet "org999"] } :=
  ⟨(C22_NormalizeOrganizationID exampleClient "a123").2.1 (by decide),
    ((C22_NormalizeOrganizationID exampleClient "org456").2.2 (by decide)).1
      { ID := "org456", Name := "acme", AccountID := "a123" } rfl,
    ((C22_NormalizeOrganizationID exampleClient "org999").2.2 (by decide)).2
      (kafka.ClientError.api 404 "organization not found") rfl⟩

/-- C28: for every value `v` stored under `project_vpc_id`: when `v` is empty the function
returns the nil pointer and no error; when `v` is not empty and has no `/` it returns an
error; when `v` is `a`, then `/`, then `b`, with no `/` in `a`, it returns, without error, the
pointer to `b`, the part after the first `/` (`b` may hold further `/` or be empty). -/
theorem C28_GetProjectVPCIdPointer (d : String → String) :
    (d "project_vpc_id" = "" → GetProjectVPCIdPointer d = Except.ok none) ∧
    (d "project_vpc_id" ≠ "" → '/' ∉ (d "project_vpc_id").data →
      ∃ msg, GetProjectVPCIdPointer d = Except.error msg) ∧
    (∀ a b : List Char, (d "project_vpc_id").data = a ++ '/' :: b → '/' ∉ a →
      GetProjectVPCIdPointer d = Except.ok (some (String.mk b))) := by
  refine ⟨?_, ?_, ?_⟩
  · intro h
    unfold GetProjectVPCIdPointer
    rw [if_pos ((kafka.len_eq_zero_iff _).mpr h)]
  · intro h hs
    unfold GetProjectVPCIdPointer
    rw [if_neg (fun e => h ((kafka.len_eq_zero_iff _).mp e))]
    have hp : SplitN2 (d "project_vpc_id") = [d "project_vpc_id"] := by
      unfold SplitN2
      rw [splitAtSlash_none _ hs]
    rw [hp]
    exact ⟨_, rfl⟩
  · intro a b hv ha
    have hne : d "project_vpc_id" ≠ "" := by
      intro e
      rw [e] at hv
      cases a <;> cases hv
    unfold GetProjectVPCIdPointer
    rw [if_neg (fun e => hne ((kafka.len_eq_zero_iff _).mp e))]
    have hp : SplitN2 (d "project_vpc_id") = [String.mk a, String.mk b] := by
      unfold SplitN2
      rw [hv, splitAtSlash_first a b ha]
    rw [hp]
    rfl

/-- Witness of C28: the values `proj/vpc/1` (pointer to `vpc/1`), `proj/` (pointer to the
empty string), `proj` (error) and the empty value (nil pointer). -/
theorem C28_GetProjectVPCIdPointer_witness :
    GetProjectVPCIdPointer (fun _ => "proj/vpc/1") = Except.ok (some "vpc/1") ∧
    GetProjectVPCIdPointer (fun _ => "proj/") = Except.ok (some "") ∧
    (∃ msg, GetProjectVPCIdPointer (fun _ => "proj") = Except.error msg) ∧
    GetProjectVPCIdPointer (fun _ => "") = Except.ok none :=
  ⟨(C28_GetProjectVPCIdPointer (fun _ => "proj/vpc/1")).2.2
      ['p', 'r', 'o', 'j'] ['v', 'p', 'c', '/', '1'] rfl (by decide),
    (C28_GetProjectVPCIdPointer (fun _ => "proj/")).2.2 ['p', 'r', 'o', 'j'] [] rfl
      (by decide),
    (C28_GetProjectVPCIdPointer (fun _ => "proj")).2.1 (by decide) (by decide),
    (C28_GetProjectVPCIdPointer (fun _ => "")).1 rfl⟩

end schemautil
